import Mathlib

/-!
# Orientation legalisation of `dpo::DetailedOrient` (`src/dpo/src/detailed_orient.cxx`)

A shallow embedding of the orientation routines of the detailed placer:
`orientCellForRow`, `orientAdjust`, `orientFind`, `orientCellsForRow` and `isLegalSym`.

Conventions of the embedding.

* Objects reached through pointers live in lists; a pointer is the position of the object
  in its list (`Node*` is a position in `Network.m_nodes`, `Pin*` a position in
  `Network.m_pins`).  `m_nodePins` and `m_edgePins` are vectors of `Pin*`, hence lists of
  positions.
* A routine is a function from the network before the call to `some` of its result and
  the network after the call.  An access outside a vector is undefined behaviour in the
  source; here the routine returns `none`.
* `unsigned` orientation and symmetry values are naturals, and so are the `int` indices
  into vectors.  `double` coordinates and pin offsets are rationals (finite values): the
  only arithmetic the orientation routines perform on them is a multiplication by `-1`,
  which is exact.  The flip optimiser adds, subtracts and multiplies them; there each
  operation is the exact one followed by rounding to the nearest `double` (`roundDouble`,
  `fadd`, `fsub`, `fmul`), and comparisons, `min` and `max` are exact.
-/

namespace dpo

/-! ## Constants declared outside this file -/

/-- Values of the `Orientation_*` and `Symmetry_*` constants.  They are declared in headers
that are not part of this file, so every routine takes them as a parameter. -/
structure Consts where
  Orientation_N : Nat
  Orientation_S : Nat
  Orientation_FN : Nat
  Orientation_FS : Nat
  Symmetry_UNKNOWN : Nat
  Symmetry_X : Nat
  Symmetry_Y : Nat
  Symmetry_ROT90 : Nat
  deriving DecidableEq, Repr

/-- What is assumed of the orientation constants: the four values are the labels of one
`switch` statement (in `orientAdjust`), hence pairwise different, and `Orientation_S` is
not zero, so that its use as a truth value in `orientCellForRow` makes the condition of the
second branch hold for every row (section 9 of the specification records this). -/
def Consts.OriOk (k : Consts) : Prop :=
  k.Orientation_N ≠ k.Orientation_S ∧ k.Orientation_N ≠ k.Orientation_FN ∧
  k.Orientation_N ≠ k.Orientation_FS ∧ k.Orientation_S ≠ k.Orientation_FN ∧
  k.Orientation_S ≠ k.Orientation_FS ∧ k.Orientation_FN ≠ k.Orientation_FS ∧
  k.Orientation_S ≠ 0

instance (k : Consts) : Decidable k.OriOk := by
  unfold Consts.OriOk; infer_instance

/-- The symmetry classes `unknown`, `X`, `Y` and `X | Y` are four different values. -/
def Consts.SymOk (k : Consts) : Prop :=
  k.Symmetry_X ≠ k.Symmetry_Y ∧
  (k.Symmetry_X ||| k.Symmetry_Y) ≠ k.Symmetry_X ∧
  (k.Symmetry_X ||| k.Symmetry_Y) ≠ k.Symmetry_Y ∧
  k.Symmetry_UNKNOWN ≠ k.Symmetry_X ∧ k.Symmetry_UNKNOWN ≠ k.Symmetry_Y ∧
  k.Symmetry_UNKNOWN ≠ (k.Symmetry_X ||| k.Symmetry_Y)

instance (k : Consts) : Decidable k.SymOk := by
  unfold Consts.SymOk; infer_instance

/-- One admissible choice of the constants (distinct one-bit flags, `unknown` symmetry the
empty mask), used to evaluate the routines on concrete inputs. -/
def sampleConsts : Consts where
  Orientation_N := 1
  Orientation_S := 4
  Orientation_FN := 16
  Orientation_FS := 64
  Symmetry_UNKNOWN := 0
  Symmetry_X := 1
  Symmetry_Y := 2
  Symmetry_ROT90 := 4

/-- The cell orientation is one of the four recognised states. -/
def Consts.IsOri (k : Consts) (o : Nat) : Prop :=
  o = k.Orientation_N ∨ o = k.Orientation_S ∨ o = k.Orientation_FN ∨ o = k.Orientation_FS

instance (k : Consts) (o : Nat) : Decidable (k.IsOri o) := by
  unfold Consts.IsOri; infer_instance

/-! ## Data model -/

/-- A pin: offsets from the reference point of its cell, owning cell and net. -/
structure Pin where
  offsetX : ℚ
  offsetY : ℚ
  nodeId : Nat
  edgeId : Nat
  deriving DecidableEq

/-- A cell: position, width, current orientation, the range `[firstPinIdx, lastPinIdx)` of
`m_nodePins` that holds its pins, and its left and right edge types. -/
structure Node where
  id : Nat
  x : ℚ
  width : ℚ
  currOrient : Nat
  firstPinIdx : Nat
  lastPinIdx : Nat
  etl : Int
  etr : Int
  deriving DecidableEq

/-- A net: the range `[firstPinIdx, lastPinIdx)` of `m_edgePins` that holds its pins. -/
structure Edge where
  id : Nat
  firstPinIdx : Nat
  lastPinIdx : Nat
  deriving DecidableEq

/-- The network: cells, pins and nets, with the pins listed by cell (`m_nodePins`) and by
net (`m_edgePins`). -/
structure Network where
  m_nodes : List Node
  m_pins : List Pin
  m_edges : List Edge
  m_nodePins : List Nat
  m_edgePins : List Nat
  deriving DecidableEq

/-- A row of the architecture: site orientation and site symmetry mask. -/
structure Row where
  m_siteOrient : Nat
  m_siteSymmetry : Nat
  deriving DecidableEq

/-- The architecture, as far as the orientation routines read it. -/
structure Architecture where
  m_rows : List Row
  deriving DecidableEq

/-- A segment of a row. -/
structure DetailedSeg where
  rowId : Nat
  segId : Nat
  minX : ℚ
  maxX : ℚ
  deriving DecidableEq

/-- The placement manager: the segments and, per segment id, the cells in it from left to
right. -/
structure DetailedMgr where
  m_segments : List DetailedSeg
  m_cellsInSeg : List (List Nat)
  deriving DecidableEq

/-! ## Accessors that write -/

/-- `Node::setCurrOrient` on the cell at `ndi`. -/
def Network.setCurrOrient (nw : Network) (ndi : Nat) (o : Nat) : Option Network := do
  let nd ← nw.m_nodes[ndi]?
  pure { nw with m_nodes := nw.m_nodes.set ndi { nd with currOrient := o } }

/-- Modelled from the spec: `Node::swapEdgeTypes` is declared outside this file; section
4.1 of the specification says that the left-right-asymmetric layer/type assignment
carried by the cell is swapped, so the left and right edge types are exchanged. -/
def Network.swapEdgeTypes (nw : Network) (ndi : Nat) : Option Network := do
  let nd ← nw.m_nodes[ndi]?
  pure { nw with m_nodes := nw.m_nodes.set ndi { nd with etl := nd.etr, etr := nd.etl } }

/-- The statement `Pin* pin = m_network->m_nodePins[pi];` followed by the writes `f` to
`*pin`. -/
def updPin (f : Pin → Pin) (nw : Network) (pi : Nat) : Option Network := do
  let a ← nw.m_nodePins[pi]?
  let pin ← nw.m_pins[a]?
  pure { nw with m_pins := nw.m_pins.set a (f pin) }

/-- The loop `for (int pi = first; pi < last; pi++) body`, with `n = last - first`
iterations left and the counter at `pi`. -/
def forPins (body : Network → Nat → Option Network) : Nat → Nat → Network → Option Network
  | 0, _, nw => some nw
  | n + 1, pi, nw => (body nw pi).bind (forPins body n (pi + 1))

/-- The loop over the pins of a cell that is repeated four times in `orientCellForRow`:
`pin->setOffsetY(pin->getOffsetY()*(-1))` for each pin index of the cell. -/
def negateOffsetsY (nw : Network) (nd : Node) : Option Network :=
  forPins (updPin fun pin => { pin with offsetY := pin.offsetY * (-1) })
    (nd.lastPinIdx - nd.firstPinIdx) nd.firstPinIdx nw

/-! ## The routines -/

/-- `DetailedOrient::orientCellForRow`: returns the `bool` result and the network after
the call.  (The local `siteSym` is read and never used; it is left out.) -/
def orientCellForRow (k : Consts) (arch : Architecture) (nw : Network) (ndi row : Nat) :
    Option (Bool × Network) := do
  let r ← arch.m_rows[row]?
  let rowOri := r.m_siteOrient
  let nd ← nw.m_nodes[ndi]?
  let cellOri := nd.currOrient
  if rowOri = k.Orientation_N ∨ rowOri = k.Orientation_FN then
    if cellOri = k.Orientation_N ∨ cellOri = k.Orientation_FN then
      pure (true, nw)
    else if cellOri = k.Orientation_FS then
      let nw1 ← negateOffsetsY nw nd
      let nw2 ← nw1.setCurrOrient ndi k.Orientation_N
      pure (true, nw2)
    else if cellOri = k.Orientation_S then
      let nw1 ← negateOffsetsY nw nd
      let nw2 ← nw1.setCurrOrient ndi k.Orientation_FN
      pure (true, nw2)
    else
      pure (false, nw)
  else if rowOri = k.Orientation_FS ∨ k.Orientation_S ≠ 0 then
    if cellOri = k.Orientation_FS ∨ cellOri = k.Orientation_S then
      pure (true, nw)
    else if cellOri = k.Orientation_N then
      let nw1 ← negateOffsetsY nw nd
      let nw2 ← nw1.setCurrOrient ndi k.Orientation_FS
      pure (false, nw2)
    else if cellOri = k.Orientation_FN then
      let nw1 ← negateOffsetsY nw nd
      let nw2 ← nw1.setCurrOrient ndi k.Orientation_S
      pure (false, nw2)
    else
      pure (false, nw)
  else
    pure (false, nw)

/-- One of the two `switch` statements of `orientAdjust`: the multipliers `(mX, mY)` after
the cases for orientation `ori`. -/
def switchOri (k : Consts) (ori : Nat) (m : Int × Int) : Int × Int :=
  if ori = k.Orientation_N then m
  else if ori = k.Orientation_S then (m.1 * (-1), m.2 * (-1))
  else if ori = k.Orientation_FS then (m.1, m.2 * (-1))
  else if ori = k.Orientation_FN then (m.1 * (-1), m.2)
  else m

/-- The body of the pin loop of `orientAdjust`: the two guarded writes to `*pin`. -/
def adjustPin (mX mY : Int) (pin : Pin) : Pin :=
  let pin1 := if mX = -1 then { pin with offsetX := pin.offsetX * (mX : ℚ) } else pin
  if mY = -1 then { pin1 with offsetY := pin1.offsetY * (mY : ℚ) } else pin1

/-- `DetailedOrient::orientAdjust`: returns the `bool` result (always `false`) and the
network after the call. -/
def orientAdjust (k : Consts) (nw : Network) (ndi newOri : Nat) : Option (Bool × Network) := do
  let nd ← nw.m_nodes[ndi]?
  let curOri := nd.currOrient
  if curOri = newOri then
    pure (false, nw)
  else
    let m0 : Int × Int := (1, 1)
    let m1 := switchOri k curOri m0
    let m2 := switchOri k newOri m1
    let mX := m2.1
    let mY := m2.2
    let nw1 ← forPins (updPin (adjustPin mX mY)) (nd.lastPinIdx - nd.firstPinIdx)
      nd.firstPinIdx nw
    let nw2 ← nw1.setCurrOrient ndi newOri
    if mX = -1 then
      let nw3 ← nw2.swapEdgeTypes ndi
      pure (false, nw3)
    else
      pure (false, nw2)

/-- `DetailedOrient::orientFind`: returns the orientation found and the network after the
call.  The routine contains no write, so every `return` hands back the network it was
given. -/
def orientFind (k : Consts) (arch : Architecture) (nw : Network) (ndi row : Nat) :
    Option (Nat × Network) := do
  let r ← arch.m_rows[row]?
  let rowOri := r.m_siteOrient
  let nd ← nw.m_nodes[ndi]?
  let cellOri := nd.currOrient
  if rowOri = k.Orientation_N ∨ rowOri = k.Orientation_FN then
    if cellOri = k.Orientation_N ∨ cellOri = k.Orientation_FN then
      pure (cellOri, nw)
    else if cellOri = k.Orientation_FS then
      pure (k.Orientation_N, nw)
    else if cellOri = k.Orientation_S then
      pure (k.Orientation_FN, nw)
    else
      pure (rowOri, nw)
  else if rowOri = k.Orientation_FS ∨ rowOri = k.Orientation_S then
    if cellOri = k.Orientation_FS ∨ cellOri = k.Orientation_S then
      pure (cellOri, nw)
    else if cellOri = k.Orientation_N then
      pure (k.Orientation_FS, nw)
    else if cellOri = k.Orientation_FN then
      pure (k.Orientation_S, nw)
    else
      pure (rowOri, nw)
  else
    pure (rowOri, nw)

/-- The inner loop of `orientCellsForRow` over the cells of one segment: the running count
`retval` and the network. -/
def orientNodesForRow (k : Consts) (arch : Architecture) (row : Nat) :
    List Nat → Nat × Network → Option (Nat × Network)
  | [], acc => some acc
  | ndi :: rest, (retval, nw) => do
    let (success, nw1) ← orientCellForRow k arch nw ndi row
    orientNodesForRow k arch row rest (if success then retval else retval + 1, nw1)

/-- The outer loop of `orientCellsForRow` over the segments. -/
def orientSegsForRow (k : Consts) (arch : Architecture) (mgr : DetailedMgr) :
    List DetailedSeg → Nat × Network → Option (Nat × Network)
  | [], acc => some acc
  | segment :: rest, acc => do
    let row := segment.rowId
    let nodes ← mgr.m_cellsInSeg[segment.segId]?
    let acc1 ← orientNodesForRow k arch row nodes acc
    orientSegsForRow k arch mgr rest acc1

/-- `DetailedOrient::orientCellsForRow`: returns `retval` and the network after the
pass. -/
def orientCellsForRow (k : Consts) (arch : Architecture) (mgr : DetailedMgr) (nw : Network) :
    Option (Nat × Network) :=
  orientSegsForRow k arch mgr mgr.m_segments (0, nw)

/-- `DetailedOrient::isLegalSym`. -/
def isLegalSym (k : Consts) (rowOri siteSym cellOri : Nat) : Bool :=
  if siteSym = k.Symmetry_Y then
    if rowOri = k.Orientation_N then
      if cellOri = k.Orientation_N ∨ cellOri = k.Orientation_FN then true else false
    else if rowOri = k.Orientation_FS then
      if cellOri = k.Orientation_S ∨ cellOri = k.Orientation_FS then true else false
    else
      false
  else if siteSym = k.Symmetry_X then
    if rowOri = k.Orientation_N then
      if cellOri = k.Orientation_N ∨ cellOri = k.Orientation_FS then true else false
    else if rowOri = k.Orientation_FS then
      if cellOri = k.Orientation_N ∨ cellOri = k.Orientation_FS then true else false
    else
      false
  else if siteSym = (k.Symmetry_X ||| k.Symmetry_Y) then
    if rowOri = k.Orientation_N then
      if cellOri = k.Orientation_N ∨ cellOri = k.Orientation_FN ∨
          cellOri = k.Orientation_S ∨ cellOri = k.Orientation_FS then true else false
    else if rowOri = k.Orientation_FS then
      if cellOri = k.Orientation_N ∨ cellOri = k.Orientation_FN ∨
          cellOri = k.Orientation_S ∨ cellOri = k.Orientation_FS then true else false
    else
      false
  else if siteSym = k.Symmetry_UNKNOWN then
    if rowOri = k.Orientation_N then
      if cellOri = k.Orientation_N then true else false
    else if rowOri = k.Orientation_FS then
      if cellOri = k.Orientation_FS then true else false
    else
      false
  else if siteSym = k.Symmetry_ROT90 then
    true
  else
    true

/-! ## A small design used for concrete evaluation -/

/-- Two pins of cell 0 and one pin of cell 1. -/
def samplePins : List Pin :=
  [⟨3, 5, 0, 0⟩, ⟨-2, 7, 0, 1⟩, ⟨1, 1, 1, 0⟩]

/-- Cell 0 of the sample network, in orientation `o`: it owns pin indices 0 and 1 and has
edge types 1 (left) and 2 (right). -/
def sampleCell (o : Nat) : Node := ⟨0, 10, 4, o, 0, 2, 1, 2⟩

/-- A network of two cells in orientations `o0` and `o1`; cell 0 owns pins 0 and 1, cell 1
owns pin 2. -/
def sampleNetwork (o0 o1 : Nat) : Network where
  m_nodes := [sampleCell o0, ⟨1, 20, 4, o1, 2, 3, 0, 0⟩]
  m_pins := samplePins
  m_edges := [⟨0, 0, 2⟩, ⟨1, 2, 3⟩]
  m_nodePins := [0, 1, 2]
  m_edgePins := [0, 2, 1]

/-- An architecture with one row of orientation `ro` and symmetry mask `sym`. -/
def sampleArch (ro sym : Nat) : Architecture where
  m_rows := [⟨ro, sym⟩]

/-- A manager with one segment in row 0 holding cells 0 and 1. -/
def sampleMgr : DetailedMgr where
  m_segments := [⟨0, 0, 0, 100⟩]
  m_cellsInSeg := [[0, 1]]


/-! ## Auxiliary notions used in the statements -/

/-- The positions in `m_pins` of the pins owned by the cell `nd`: the entries of
`m_nodePins` in the range `[firstPinIdx, lastPinIdx)`. -/
def ownedPins (nw : Network) (nd : Node) : List Nat :=
  (List.range' nd.firstPinIdx (nd.lastPinIdx - nd.firstPinIdx)).filterMap
    fun pi => nw.m_nodePins[pi]?

/-- The pin index `pi` is inside `m_nodePins` and the pointer stored there is a pin of
`m_pins`. -/
def PinIdxOk (nw : Network) (pi : Nat) : Prop :=
  ((nw.m_nodePins[pi]?).bind fun a => nw.m_pins[a]?).isSome = true

instance (nw : Network) (pi : Nat) : Decidable (PinIdxOk nw pi) := by
  unfold PinIdxOk; infer_instance

/-- Every pin index of the cell `nd` is valid. -/
def PinsOk (nw : Network) (nd : Node) : Prop :=
  ∀ pi < nd.lastPinIdx, nd.firstPinIdx ≤ pi → PinIdxOk nw pi

instance (nw : Network) (nd : Node) : Decidable (PinsOk nw nd) := by
  unfold PinsOk; infer_instance

/-- Applying `f` to the pins at the positions `as`, one position after the other. -/
def applyAt (f : Pin → Pin) (as : List Nat) (ps : List Pin) : List Pin :=
  as.foldl (fun ps a => ps.modify f a) ps

/-- The write to a pin made by the loops of `orientCellForRow`. -/
def negY (pin : Pin) : Pin := { pin with offsetY := pin.offsetY * (-1) }

/-- The network after the pins of the cell at `ndi` had `f` applied and the cell was
replaced by `nd1`. -/
def Network.withCell (nw : Network) (f : Pin → Pin) (nd : Node) (ndi : Nat) (nd1 : Node) :
    Network :=
  { nw with
    m_nodes := nw.m_nodes.set ndi nd1
    m_pins := applyAt f (ownedPins nw nd) nw.m_pins }

/-- The row orientation belongs to the north family. -/
def Consts.North (k : Consts) (o : Nat) : Prop := o = k.Orientation_N ∨ o = k.Orientation_FN

/-- The row orientation belongs to the south family. -/
def Consts.South (k : Consts) (o : Nat) : Prop := o = k.Orientation_S ∨ o = k.Orientation_FS

instance (k : Consts) (o : Nat) : Decidable (k.North o) := by
  unfold Consts.North; infer_instance

instance (k : Consts) (o : Nat) : Decidable (k.South o) := by
  unfold Consts.South; infer_instance

/-- The multiplier table of the specification (section 4.1), X component:
N = +1, S = -1, FS = +1, FN = -1. -/
def specMX (k : Consts) (o : Nat) : Int :=
  if o = k.Orientation_N then 1
  else if o = k.Orientation_S then -1
  else if o = k.Orientation_FS then 1
  else if o = k.Orientation_FN then -1
  else 1

/-- The multiplier table of the specification (section 4.1), Y component:
N = +1, S = -1, FS = -1, FN = +1. -/
def specMY (k : Consts) (o : Nat) : Int :=
  if o = k.Orientation_N then 1
  else if o = k.Orientation_S then -1
  else if o = k.Orientation_FS then -1
  else if o = k.Orientation_FN then 1
  else 1

/-- The pins owned by the cell `nd` have their Y offset negated in `nw1` and are otherwise
as in `nw`. -/
def YMirrored (nw nw1 : Network) (nd : Node) : Prop :=
  ∀ a ∈ ownedPins nw nd, ∃ p, nw.m_pins[a]? = some p ∧
    nw1.m_pins[a]? = some { p with offsetY := -p.offsetY }

/-- Mirror about the vertical axis, as the specification pairs the orientations:
N with FN and S with FS. -/
def VMirror (k : Consts) (a b : Nat) : Prop :=
  (a = k.Orientation_N ∧ b = k.Orientation_FN) ∨ (a = k.Orientation_FN ∧ b = k.Orientation_N) ∨
  (a = k.Orientation_S ∧ b = k.Orientation_FS) ∨ (a = k.Orientation_FS ∧ b = k.Orientation_S)

/-- Mirror about the horizontal axis, as the specification pairs the orientations:
N with FS and S with FN. -/
def HMirror (k : Consts) (a b : Nat) : Prop :=
  (a = k.Orientation_N ∧ b = k.Orientation_FS) ∨ (a = k.Orientation_FS ∧ b = k.Orientation_N) ∨
  (a = k.Orientation_S ∧ b = k.Orientation_FN) ∨ (a = k.Orientation_FN ∧ b = k.Orientation_S)


/-! ## The flip optimiser -/

/-- A counted loop `for (i = first; i < first + n; i++) body` over any loop state. -/
def forLoop {σ : Type} (body : σ → Nat → Option σ) : Nat → Nat → σ → Option σ
  | 0, _, s => some s
  | n + 1, i, s => (body s i).bind (forLoop body n (i + 1))

/-- Modelled from the spec: `Edge::getNumPins` is declared outside this file; section 3 of
the specification describes a net as a contiguous range of pin indices, so its pin count is
the size of the range `[firstPinIdx, lastPinIdx)`. -/
def Edge.numPins (e : Edge) : Int := (e.lastPinIdx : Int) - (e.firstPinIdx : Int)

/-- The members of `DetailedOrient` that `flipCells` uses besides the network: the
large-net threshold, the traversal counter and the per-net marks.  The counter is an `int`
in the source; it is a natural here, so it never wraps around. -/
structure DetailedOrient where
  m_skipNetsLargerThanThis : Int
  m_traversal : Nat
  m_edgeMask : List Nat
  deriving DecidableEq

/-- The constructor `DetailedOrient::DetailedOrient`: threshold 100, counter 0 and one mark
per net (`getNumEdges` is the number of nets), all equal to the counter. -/
def DetailedOrient.init (nw : Network) : DetailedOrient where
  m_skipNetsLargerThanThis := 100
  m_traversal := 0
  m_edgeMask := List.replicate nw.m_edges.length 0

/-- The value `std::numeric_limits<double>::max()`. -/
def DBL_MAX : ℚ := 2 ^ 1024 - 2 ^ 971

/-- Rounding of the fraction `n / d` to the nearest natural number; a fraction half way
between two naturals goes to the even one. -/
def roundHalfEven (n d : Nat) : Nat :=
  let q := n / d
  let r := n % d
  if 2 * r < d then q
  else if d < 2 * r then q + 1
  else if q % 2 = 0 then q
  else q + 1

/-- The position of the leading binary digit of `n`, found by halving at most `fuel`
times. -/
def log2Fuel : Nat → Nat → Nat
  | 0, _ => 0
  | fuel + 1, n => if n < 2 then 0 else log2Fuel fuel (n / 2) + 1

/-- The binary exponent of the positive fraction `n / d`: the `e` with
`2 ^ e ≤ n / d < 2 ^ (e + 1)`. -/
def binade (n d : Nat) : Int :=
  let e0 : Int := (log2Fuel n n : Int) - (log2Fuel d d : Int)
  if d * 2 ^ e0.toNat ≤ n * 2 ^ (-e0).toNat then e0 else e0 - 1

/-- The value of type `double` nearest to `q`: 53 significant binary digits, no digit below
`2 ^ (-1074)`, a value half way between two doubles going to the one with the even last
digit (IEEE 754 binary64, the default rounding).  The exponent is not bounded above: a
result beyond `DBL_MAX`, where the machine gives an infinity, is outside this model. -/
def roundDouble (q : ℚ) : ℚ :=
  if q = 0 then 0
  else
    let n := q.num.natAbs
    let d := q.den
    let t : Int := max (binade n d - 52) (-1074)
    let r := roundHalfEven (n * 2 ^ (-t).toNat) (d * 2 ^ t.toNat)
    let v : ℚ := ((r * 2 ^ t.toNat : Nat) : ℚ) / ((2 ^ (-t).toNat : Nat) : ℚ)
    if q < 0 then -v else v

/-- The operator `+` on `double`: the exact sum, rounded. -/
def fadd (a b : ℚ) : ℚ := roundDouble (a + b)

/-- The operator `-` on `double`: the exact difference, rounded. -/
def fsub (a b : ℚ) : ℚ := roundDouble (a - b)

/-- The operator `*` on `double`: the exact product, rounded. -/
def fmul (a b : ℚ) : ℚ := roundDouble (a * b)

/-- The four running extremes of the inner loop of `flipCells`. -/
structure Extremes where
  old_xmin : ℚ
  old_xmax : ℚ
  new_xmin : ℚ
  new_xmax : ℚ
  deriving DecidableEq

/-- The values of the extremes before the loop over the pins of a net. -/
def Extremes.init : Extremes := ⟨DBL_MAX, -DBL_MAX, DBL_MAX, -DBL_MAX⟩

/-- The body of the loop over the pins `pj` of a net in `flipCells`, for the candidate cell
`ndi`.  `getNode(id)` is the cell at position `id`, so `ndj == ndi` compares positions. -/
def spanBody (nw : Network) (ndi : Nat) (acc : Extremes) (pj : Nat) : Option Extremes := do
  let b ← nw.m_edgePins[pj]?
  let pinj ← nw.m_pins[b]?
  let ndj ← nw.m_nodes[pinj.nodeId]?
  let old_xmin := min acc.old_xmin (fadd ndj.x pinj.offsetX)
  let old_xmax := max acc.old_xmax (fadd ndj.x pinj.offsetX)
  if pinj.nodeId = ndi then
    pure ⟨old_xmin, old_xmax, min acc.new_xmin (fsub ndj.x pinj.offsetX),
      max acc.new_xmax (fsub ndj.x pinj.offsetX)⟩
  else
    pure ⟨old_xmin, old_xmax, min acc.new_xmin (fadd ndj.x pinj.offsetX),
      max acc.new_xmax (fadd ndj.x pinj.offsetX)⟩

/-- The loop over the pins of the net `edi` in `flipCells`: the extremes after it. -/
def spanLoop (nw : Network) (ndi : Nat) (edi : Edge) : Option Extremes :=
  forLoop (spanBody nw ndi) (edi.lastPinIdx - edi.firstPinIdx) edi.firstPinIdx Extremes.init

/-- The loop state of the wirelength evaluation of one cell: the two sums and the marks. -/
structure WlAcc where
  old_wl : ℚ
  new_wl : ℚ
  m_edgeMask : List Nat
  deriving DecidableEq

/-- The body of the loop over the pin indices `pi` of the candidate cell `ndi` in
`flipCells`, with the traversal counter at `trav`.  `getEdge(id)` is the net at position
`id`. -/
def wlBody (skip : Int) (nw : Network) (ndi trav : Nat) (acc : WlAcc) (pi : Nat) :
    Option WlAcc := do
  let a ← nw.m_nodePins[pi]?
  let pini ← nw.m_pins[a]?
  let edi ← nw.m_edges[pini.edgeId]?
  let npins := edi.numPins
  if npins ≤ 1 ∨ npins ≥ skip then
    pure acc
  else
    let m ← acc.m_edgeMask[edi.id]?
    if m = trav then
      pure acc
    else
      let mask1 := acc.m_edgeMask.set edi.id trav
      let ext ← spanLoop nw ndi edi
      pure ⟨fadd acc.old_wl (fsub ext.old_xmax ext.old_xmin),
        fadd acc.new_wl (fsub ext.new_xmax ext.new_xmin), mask1⟩

/-- The wirelength evaluation of the cell `nd` at position `ndi`: `old_wl`, `new_wl` and
the marks after the loop over its pins. -/
def wlLoop (skip : Int) (nw : Network) (ndi : Nat) (nd : Node) (trav : Nat)
    (mask : List Nat) : Option WlAcc :=
  forLoop (wlBody skip nw ndi trav) (nd.lastPinIdx - nd.firstPinIdx) nd.firstPinIdx
    ⟨0, 0, mask⟩

/-- The write to a pin made by the loops that commit a flip in `flipCells`. -/
def negX (pin : Pin) : Pin := { pin with offsetX := pin.offsetX * (-1) }

/-- One of the four branches that commit a flip in `flipCells`: negate the X offset of
every pin of the cell, swap its edge types and set its orientation to `newOri`. -/
def commitFlip (nw : Network) (ndi : Nat) (nd : Node) (newOri : Nat) : Option Network := do
  let nw1 ← forPins (updPin negX) (nd.lastPinIdx - nd.firstPinIdx) nd.firstPinIdx nw
  let nw2 ← nw1.swapEdgeTypes ndi
  nw2.setCurrOrient ndi newOri

/-- The state that `flipCells` threads through its loops: `nflips`, the members of
`DetailedOrient`, and the network. -/
structure FlipState where
  nflips : Nat
  self : DetailedOrient
  nw : Network
  deriving DecidableEq

/-- The neighbour pointer `ndl` or `ndr` of `flipCells`: a null pointer is `none`, any other
pointer is read (position and width are used right after). -/
def neighbour (nw : Network) (nodes : List Nat) (isNull : Bool) (j : Nat) :
    Option (Option Node) :=
  if isNull then some none
  else do
    let p ← nodes[j]?
    let nd ← nw.m_nodes[p]?
    pure (some nd)

/-- The local `gapl` of `flipCells`: the gap required between the left neighbour and the
cell, 0 when there is no left neighbour.  The spacing rule `Architecture::getCellSpacing`
is declared outside this file and is a parameter: a function of the two cells it is
given. -/
def gapl (getCellSpacing : Node → Node → ℚ) (ndl : Option Node) (nd : Node) : ℚ :=
  match ndl with
  | some l => getCellSpacing l nd
  | none => 0

/-- The local `gapr` of `flipCells`: the gap required between the cell and its right
neighbour, 0 when there is no right neighbour. -/
def gapr (getCellSpacing : Node → Node → ℚ) (nd : Node) (ndr : Option Node) : ℚ :=
  match ndr with
  | some r => getCellSpacing nd r
  | none => 0

/-- The local `spacel` of `flipCells`: the space between the left edge of the cell and the
right edge of its left neighbour, or the left end of the segment. -/
def spacel (segment : DetailedSeg) (ndl : Option Node) (nd : Node) : ℚ :=
  fsub (fsub nd.x (fmul (1 / 2) nd.width))
    (match ndl with
      | none => segment.minX
      | some l => fadd l.x (fmul (1 / 2) l.width))

/-- The local `spacer` of `flipCells`: the space between the right edge of the cell and
the left edge of its right neighbour, or the right end of the segment. -/
def spacer (segment : DetailedSeg) (nd : Node) (ndr : Option Node) : ℚ :=
  fsub
    (match ndr with
      | none => segment.maxX
      | some r => fsub r.x (fmul (1 / 2) r.width))
    (fadd nd.x (fmul (1 / 2) nd.width))

/-- The body of the loop over the cells `nodes[i]` of one segment in `flipCells`. -/
def flipCell (k : Consts) (getCellSpacing : Node → Node → ℚ) (segment : DetailedSeg)
    (nodes : List Nat) (i : Nat) (st : FlipState) : Option FlipState := do
  let ndi ← nodes[i]?
  let nd ← st.nw.m_nodes[ndi]?
  let ndl ← neighbour st.nw nodes (i = 0) (i - 1)
  let ndr ← neighbour st.nw nodes (i = nodes.length - 1) (i + 1)
  if gapl getCellSpacing ndl nd > spacel segment ndl nd ∨
      gapr getCellSpacing nd ndr > spacer segment nd ndr then
    pure st
  else
    let trav := st.self.m_traversal + 1
    let acc ← wlLoop st.self.m_skipNetsLargerThanThis st.nw ndi nd trav st.self.m_edgeMask
    let self1 : DetailedOrient :=
      { st.self with m_traversal := trav, m_edgeMask := acc.m_edgeMask }
    if acc.new_wl < acc.old_wl then
      if nd.currOrient = k.Orientation_N then
        let nw1 ← commitFlip st.nw ndi nd k.Orientation_FN
        pure ⟨st.nflips + 1, self1, nw1⟩
      else if nd.currOrient = k.Orientation_S then
        let nw1 ← commitFlip st.nw ndi nd k.Orientation_FS
        pure ⟨st.nflips + 1, self1, nw1⟩
      else if nd.currOrient = k.Orientation_FN then
        let nw1 ← commitFlip st.nw ndi nd k.Orientation_N
        pure ⟨st.nflips + 1, self1, nw1⟩
      else if nd.currOrient = k.Orientation_FS then
        let nw1 ← commitFlip st.nw ndi nd k.Orientation_S
        pure ⟨st.nflips + 1, self1, nw1⟩
      else
        pure ⟨st.nflips, self1, st.nw⟩
    else
      pure ⟨st.nflips, self1, st.nw⟩

/-- The two outer loops of `flipCells` around the per-cell body `body`: over the segments,
skipping those whose row has no Y symmetry, and over the cells of the segment. -/
def flipSegs {σ : Type} (k : Consts) (arch : Architecture) (mgr : DetailedMgr)
    (body : DetailedSeg → List Nat → Nat → σ → Option σ) : List DetailedSeg → σ → Option σ
  | [], st => some st
  | segment :: rest, st => do
    let r ← arch.m_rows[segment.rowId]?
    if r.m_siteSymmetry &&& k.Symmetry_Y = 0 then
      flipSegs k arch mgr body rest st
    else
      let nodes ← mgr.m_cellsInSeg[segment.segId]?
      let st1 ← forLoop (fun s i => body segment nodes i s) nodes.length 0 st
      flipSegs k arch mgr body rest st1

/-- `DetailedOrient::flipCells`: the loops of `flipSegs` around `flipCell`, started with
`nflips = 0`; the result holds the returned `nflips`. -/
def flipCells (k : Consts) (getCellSpacing : Node → Node → ℚ) (arch : Architecture)
    (mgr : DetailedMgr) (self : DetailedOrient) (nw : Network) : Option FlipState :=
  flipSegs k arch mgr (flipCell k getCellSpacing) mgr.m_segments ⟨0, self, nw⟩

/-- The loop of `run` over `args[i]` for `i = 1 .. args.size() - 1`: the value of `doFlip`
after `n` more iterations from index `i`. -/
def scanArgs (args : List String) : Nat → Nat → Bool → Bool
  | 0, _, doFlip => doFlip
  | n + 1, i, doFlip =>
    scanArgs args n (i + 1) (if args[i]? = some "-f" then true else doFlip)

/-- The local `doFlip` of `run` after the loop over the arguments. -/
def doFlip (args : List String) : Bool :=
  scanArgs args (args.length - 1) 1 false

/-- `DetailedOrient::run` on an argument vector: the members of `DetailedOrient` and the
network after the call. -/
def run (k : Consts) (getCellSpacing : Node → Node → ℚ) (arch : Architecture)
    (mgr : DetailedMgr) (self : DetailedOrient) (nw : Network) (args : List String) :
    Option (DetailedOrient × Network) := do
  let res ← orientCellsForRow k arch mgr nw
  if doFlip args then
    let st ← flipCells k getCellSpacing arch mgr self res.2
    pure (st.self, st.nw)
  else
    pure (self, res.2)

/-- The separators given to the tokenizer in the string overload of `run`: blank, carriage
return, tab, line feed and semicolon. -/
def isSeparator (c : Char) : Bool :=
  c = ' ' || c = Char.ofNat 13 || c = Char.ofNat 9 || c = Char.ofNat 10 || c = ';'

/-- The tokens of a command: the maximal runs of characters that are not separators (the
tokenizer drops empty tokens). -/
def tokenize (command : String) : List String :=
  (command.split isSeparator).filter fun t => t ≠ ""

/-- `DetailedOrient::run` on a command string. -/
def runString (k : Consts) (getCellSpacing : Node → Node → ℚ) (arch : Architecture)
    (mgr : DetailedMgr) (self : DetailedOrient) (nw : Network) (command : String) :
    Option (DetailedOrient × Network) :=
  run k getCellSpacing arch mgr self nw (tokenize command)

/-! ## A design for the flip optimiser -/

/-- Two cells in a row: cell 0 at x = 10 and cell 1 at x = 20, both of width 4, in
orientations `o0` and `o1`; cell 0 has edge types 1 (left) and 2 (right).  Pin 0 of cell 0
(X offset -1) and pin 2 of cell 1 (X offset -1) are on net 0; pin 1 of cell 0 (X offset 1)
is alone on net 1. -/
def flipNetwork (o0 o1 : Nat) : Network where
  m_nodes := [⟨0, 10, 4, o0, 0, 2, 1, 2⟩, ⟨1, 20, 4, o1, 2, 3, 0, 0⟩]
  m_pins := [⟨-1, 1, 0, 0⟩, ⟨1, 1, 0, 1⟩, ⟨-1, 1, 1, 0⟩]
  m_edges := [⟨0, 0, 2⟩, ⟨1, 2, 3⟩]
  m_nodePins := [0, 1, 2]
  m_edgePins := [0, 2, 1]

/-- A spacing rule that depends on the edge types at the boundary: a gap of 7 is required
to the right of a cell whose right edge type is 1, no gap otherwise. -/
def sampleSpacing (l _r : Node) : ℚ := if l.etr = 1 then 7 else 0

/-- A spacing rule that requires no gap. -/
def noSpacing (_l _r : Node) : ℚ := 0

/-! ## Notions used in the statements about the flip optimiser -/

/-- The orientation after a mirror about the vertical axis, as the specification pairs
them: N with FN and S with FS. -/
def specVMirror (k : Consts) (o : Nat) : Nat :=
  if o = k.Orientation_N then k.Orientation_FN
  else if o = k.Orientation_S then k.Orientation_FS
  else if o = k.Orientation_FN then k.Orientation_N
  else if o = k.Orientation_FS then k.Orientation_S
  else o

/-- The cell `nd` after a flip: orientation mirrored about the vertical axis, edge types
exchanged. -/
def flippedNode (k : Consts) (nd : Node) : Node :=
  { nd with currOrient := specVMirror k nd.currOrient, etl := nd.etr, etr := nd.etl }

/-- Every pin index of the net `edi` can be read by the loop over the pins of a net: it
is inside `m_edgePins`, points to a pin, and the cell of that pin exists. -/
def EdgePinsOk (nw : Network) (edi : Edge) : Prop :=
  ∀ pj, edi.firstPinIdx ≤ pj → pj < edi.lastPinIdx →
    ∃ b p nd, nw.m_edgePins[pj]? = some b ∧ nw.m_pins[b]? = some p ∧
      nw.m_nodes[p.nodeId]? = some nd

/-- Every pin index of the cell `nd` can be read by the wirelength evaluation: it points to
a pin whose net exists, carries its position as identifier, has a mark, and can itself be
read. -/
def WlPinsOk (nw : Network) (maskLen : Nat) (nd : Node) : Prop :=
  ∀ pi, nd.firstPinIdx ≤ pi → pi < nd.lastPinIdx →
    ∃ a p edi, nw.m_nodePins[pi]? = some a ∧ nw.m_pins[a]? = some p ∧
      nw.m_edges[p.edgeId]? = some edi ∧ edi.id = p.edgeId ∧ p.edgeId < maskLen ∧
      EdgePinsOk nw edi

/-- The x coordinate `ndj->getX() + pinj->getOffsetX()` of the pin at index `pj` of
`m_edgePins`, as a `double`. -/
def coordAt (nw : Network) (pj : Nat) : Option ℚ := do
  let b ← nw.m_edgePins[pj]?
  let p ← nw.m_pins[b]?
  let nd ← nw.m_nodes[p.nodeId]?
  pure (fadd nd.x p.offsetX)

/-- The x coordinate of the pin at index `pj` of `m_edgePins` when only the pins of the
cell `ndi` have the sign of their X offset changed. -/
def hypCoordAt (nw : Network) (ndi : Nat) (pj : Nat) : Option ℚ := do
  let b ← nw.m_edgePins[pj]?
  let p ← nw.m_pins[b]?
  let nd ← nw.m_nodes[p.nodeId]?
  pure (if p.nodeId = ndi then fsub nd.x p.offsetX else fadd nd.x p.offsetX)

/-- The x-span of a list of coordinates as `flipCells` measures it: the maximum minus the
minimum, both taken from the starting values `-DBL_MAX` and `DBL_MAX`, the difference
rounded. -/
def spanOf (xs : List ℚ) : ℚ := fsub (xs.foldl max (-DBL_MAX)) (xs.foldl min DBL_MAX)

/-- The x-span of the net at position `e` in the arithmetic of `flipCells`: maximum minus
minimum of cell x plus pin X offset over the pins of the net, each sum and the difference
rounded to a `double`. -/
def netSpan (nw : Network) (e : Nat) : ℚ :=
  match nw.m_edges[e]? with
  | some edi =>
    spanOf ((List.range' edi.firstPinIdx (edi.lastPinIdx - edi.firstPinIdx)).filterMap
      (coordAt nw))
  | none => 0

/-- The hypothetical x-span of the net at position `e` for the candidate cell `ndi`. -/
def hypSpan (nw : Network) (ndi : Nat) (e : Nat) : ℚ :=
  match nw.m_edges[e]? with
  | some edi =>
    spanOf ((List.range' edi.firstPinIdx (edi.lastPinIdx - edi.firstPinIdx)).filterMap
      (hypCoordAt nw ndi))
  | none => 0

/-- The sum of the spans `span e` of the nets `e` of a list as `flipCells` accumulates it:
added one by one to `start` with `+=` on a `double`, in the order of the list. -/
def wlSum (span : Nat → ℚ) (start : ℚ) (nets : List Nat) : ℚ :=
  nets.foldl (fun s e => fadd s (span e)) start

/-- The x coordinate of the pin at index `pj` of `m_edgePins` as an exact number: cell x
plus pin X offset, not rounded. -/
def exactCoordAt (nw : Network) (pj : Nat) : Option ℚ := do
  let b ← nw.m_edgePins[pj]?
  let p ← nw.m_pins[b]?
  let nd ← nw.m_nodes[p.nodeId]?
  pure (nd.x + p.offsetX)

/-- The x-span of the net at position `e` in exact arithmetic: the maximum minus the
minimum of cell x plus pin X offset over the pins of the net, nothing rounded. -/
def exactNetSpan (nw : Network) (e : Nat) : ℚ :=
  match nw.m_edges[e]? with
  | some edi =>
    match (List.range' edi.firstPinIdx (edi.lastPinIdx - edi.firstPinIdx)).filterMap
      (exactCoordAt nw) with
    | [] => 0
    | x :: xs => xs.foldl max x - xs.foldl min x
  | none => 0

/-- The net at position `e` has more than one pin and fewer than `skip` pins. -/
def SmallNet (skip : Int) (nw : Network) (e : Nat) : Prop :=
  ∃ edi, nw.m_edges[e]? = some edi ∧ 1 < edi.numPins ∧ edi.numPins < skip

/-- The net at position `e` touches the cell `nd`: one of the pins owned by the cell is on
it. -/
def Touches (nw : Network) (nd : Node) (e : Nat) : Prop :=
  ∃ a ∈ ownedPins nw nd, ∃ p, nw.m_pins[a]? = some p ∧ p.edgeId = e

/-- Every mark is at most the traversal counter. -/
def MaskInv (self : DetailedOrient) : Prop :=
  ∀ m ∈ self.m_edgeMask, m ≤ self.m_traversal

/-- The part of a cell that no routine of this file writes. -/
def Node.shape (nd : Node) : Node := { nd with currOrient := 0, etl := 0, etr := 0 }

/-- The part of a pin that no routine of this file writes. -/
def Pin.shape (p : Pin) : Pin := { p with offsetX := 0, offsetY := 0 }

/-- Two networks that differ at most in the orientation and edge types of cells and in the
offsets of pins. -/
def SameShape (nw nw1 : Network) : Prop :=
  nw1.m_nodes.map Node.shape = nw.m_nodes.map Node.shape ∧
  nw1.m_pins.map Pin.shape = nw.m_pins.map Pin.shape ∧
  nw1.m_edges = nw.m_edges ∧ nw1.m_nodePins = nw.m_nodePins ∧
  nw1.m_edgePins = nw.m_edgePins

/-- A well-formed design: every segment names a row and a list of cells of the network;
every pin index of every cell can be read by the loops; the pin pointers of a cell are
pairwise different; and the pins in the range of a cell are exactly the pins whose
`nodeId` is that cell. -/
structure DesignOk (arch : Architecture) (mgr : DetailedMgr) (nw : Network)
    (maskLen : Nat) : Prop where
  seg_row : ∀ seg ∈ mgr.m_segments, ∃ r, arch.m_rows[seg.rowId]? = some r
  seg_cells : ∀ seg ∈ mgr.m_segments, ∃ nodes, mgr.m_cellsInSeg[seg.segId]? = some nodes ∧
    ∀ c ∈ nodes, c < nw.m_nodes.length
  wl : ∀ (c : Nat) (nd : Node), nw.m_nodes[c]? = some nd → WlPinsOk nw maskLen nd
  nodup : ∀ (c : Nat) (nd : Node), nw.m_nodes[c]? = some nd → (ownedPins nw nd).Nodup
  owner : ∀ (c : Nat) (nd : Node) (a : Nat) (p : Pin), nw.m_nodes[c]? = some nd →
    nw.m_pins[a]? = some p →
    (a ∈ ownedPins nw nd ↔ p.nodeId = c)

/-- One execution of the body of the loop over the cells in `flipCells`: the segment, its
cell list, the index of the cell, and the state before and after. -/
structure Visit where
  segment : DetailedSeg
  nodes : List Nat
  i : Nat
  before : FlipState
  after : FlipState

/-- The body `body` extended with a record of its executions. -/
def logged (body : DetailedSeg → List Nat → Nat → FlipState → Option FlipState)
    (segment : DetailedSeg) (nodes : List Nat) (i : Nat) (s : List Visit × FlipState) :
    Option (List Visit × FlipState) :=
  (body segment nodes i s.2).map fun s1 => (s.1 ++ [⟨segment, nodes, i, s.2, s1⟩], s1)

/-- The run of `flipCells` together with the record of the cells it visits, in order. -/
def flipCellsVisits (k : Consts) (getCellSpacing : Node → Node → ℚ) (arch : Architecture)
    (mgr : DetailedMgr) (self : DetailedOrient) (nw : Network) :
    Option (List Visit × FlipState) :=
  flipSegs k arch mgr (logged (flipCell k getCellSpacing)) mgr.m_segments
    ([], ⟨0, self, nw⟩)

/-- The visit changed the network: the cell was flipped. -/
def Visit.flipped (v : Visit) : Prop := v.after.nw ≠ v.before.nw

instance (v : Visit) : Decidable v.flipped := by
  unfold Visit.flipped; infer_instance

/-- The cell `nd` is consistent with the reference offsets `ref` of the pins: its
orientation is one of N, S, FN, FS and every pin it owns has the offsets
`(mX(o) * x0, mY(o) * y0)`. -/
def CellConsistent (k : Consts) (ref : Nat → ℚ × ℚ) (nw : Network) (nd : Node) : Prop :=
  k.IsOri nd.currOrient ∧
  ∀ a ∈ ownedPins nw nd, ∃ p, nw.m_pins[a]? = some p ∧
    p.offsetX = (specMX k nd.currOrient : ℚ) * (ref a).1 ∧
    p.offsetY = (specMY k nd.currOrient : ℚ) * (ref a).2

/-- Every cell of the network is consistent. -/
def AllConsistent (k : Consts) (ref : Nat → ℚ × ℚ) (nw : Network) : Prop :=
  ∀ (c : Nat) (nd : Node), nw.m_nodes[c]? = some nd → CellConsistent k ref nw nd

/-- The state after the body of the loop over the cells, for the cell `nd` at position
`ndi` with neighbours `ndl` and `ndr` and the result `acc` of its wirelength evaluation:
untouched state when a gap does not fit; otherwise counter and marks advanced, and the
cell flipped when the new sum is smaller and its orientation is a recognised one. -/
def visitResult (k : Consts) (getCellSpacing : Node → Node → ℚ) (segment : DetailedSeg)
    (st : FlipState) (ndi : Nat) (nd : Node) (ndl ndr : Option Node) (acc : WlAcc) :
    FlipState :=
  if gapl getCellSpacing ndl nd > spacel segment ndl nd ∨
      gapr getCellSpacing nd ndr > spacer segment nd ndr then st
  else if acc.new_wl < acc.old_wl ∧ k.IsOri nd.currOrient then
    ⟨st.nflips + 1,
      { st.self with m_traversal := st.self.m_traversal + 1, m_edgeMask := acc.m_edgeMask },
      st.nw.withCell negX nd ndi (flippedNode k nd)⟩
  else
    ⟨st.nflips,
      { st.self with m_traversal := st.self.m_traversal + 1, m_edgeMask := acc.m_edgeMask },
      st.nw⟩

/-- A visit of a run of `flipCells` on the design `arch`, `mgr`: the segment is one of the
manager, its row has Y symmetry, the cell list is the one of the segment, the state before
the visit is well-formed with marks at most the counter, and the state after the visit is
the result of the loop body. -/
def GoodVisit (k : Consts) (getCellSpacing : Node → Node → ℚ) (arch : Architecture)
    (mgr : DetailedMgr) (v : Visit) : Prop :=
  v.segment ∈ mgr.m_segments ∧
  (∃ r, arch.m_rows[v.segment.rowId]? = some r ∧ r.m_siteSymmetry &&& k.Symmetry_Y ≠ 0) ∧
  mgr.m_cellsInSeg[v.segment.segId]? = some v.nodes ∧ v.i < v.nodes.length ∧
  DesignOk arch mgr v.before.nw v.before.self.m_edgeMask.length ∧
  MaskInv v.before.self ∧
  flipCell k getCellSpacing v.segment v.nodes v.i v.before = some v.after

/-- The pin range of every net lists pins of that net: a pin read through the range of the
net at position `e` has `edgeId = e`. -/
def EdgeConsistent (nw : Network) : Prop :=
  ∀ (e : Nat) (edi : Edge) (pj b : Nat) (p : Pin), nw.m_edges[e]? = some edi →
    edi.firstPinIdx ≤ pj → pj < edi.lastPinIdx → nw.m_edgePins[pj]? = some b →
    nw.m_pins[b]? = some p → p.edgeId = e

/-- Two networks that are identical except for the X offsets of pins lying on nets that
the wirelength evaluation skips: nets with at most one pin or with at least `skip`
pins. -/
def AgreeOffSkippedNets (skip : Int) (nw1 nw2 : Network) : Prop :=
  nw2.m_nodes = nw1.m_nodes ∧ nw2.m_edges = nw1.m_edges ∧
  nw2.m_nodePins = nw1.m_nodePins ∧ nw2.m_edgePins = nw1.m_edgePins ∧
  nw2.m_pins.length = nw1.m_pins.length ∧
  ∀ (a : Nat) (p1 p2 : Pin), nw1.m_pins[a]? = some p1 → nw2.m_pins[a]? = some p2 →
    p2.offsetY = p1.offsetY ∧ p2.nodeId = p1.nodeId ∧ p2.edgeId = p1.edgeId ∧
    (p2.offsetX ≠ p1.offsetX →
      ∃ edi, nw1.m_edges[p1.edgeId]? = some edi ∧ (edi.numPins ≤ 1 ∨ edi.numPins ≥ skip))

/-- Two visits of the same cell (same segment, cell list and index) with the same
decision. -/
def SameDecision (v1 v2 : Visit) : Prop :=
  v1.segment = v2.segment ∧ v1.nodes = v2.nodes ∧ v1.i = v2.i ∧ (v1.flipped ↔ v2.flipped)

/-- The network `flipNetwork` with the X offset of pin 1, the only pin of net 1, changed
from 1 to 5. -/
def flipNetworkAlt (o0 o1 : Nat) : Network :=
  { flipNetwork o0 o1 with m_pins := [⟨-1, 1, 0, 0⟩, ⟨5, 1, 0, 1⟩, ⟨-1, 1, 1, 0⟩] }

/-- Reference offsets of the pins of `flipNetwork`: the offsets they have in orientation
N. -/
def flipRef (a : Nat) : ℚ × ℚ :=
  match a with
  | 0 => (-1, 1)
  | 1 => (1, 1)
  | 2 => (-1, 1)
  | _ => (0, 0)

/-- The members of `DetailedOrient` right after construction on `flipNetwork`. -/
def sampleSelf : DetailedOrient := DetailedOrient.init (flipNetwork 1 1)

/-- Two cells of width 1/2 in orientation N, cell 0 at x = 1 and cell 1 at x = 2.  Net 0
holds pin 0 of cell 0, with X offset `5 * 2 ^ (-55)`, and pin 2 of cell 1, with X offset
-1, which lies at x = 1; pin 1 of cell 0 is alone on net 1.  All values are doubles. -/
def roundingNetwork : Network where
  m_nodes := [⟨0, 1, 1 / 2, 1, 0, 2, 1, 2⟩, ⟨1, 2, 1 / 2, 1, 2, 3, 0, 0⟩]
  m_pins := [⟨5 / 36028797018963968, 1, 0, 0⟩, ⟨1, 1, 0, 1⟩, ⟨-1, 1, 1, 0⟩]
  m_edges := [⟨0, 0, 2⟩, ⟨1, 2, 3⟩]
  m_nodePins := [0, 1, 2]
  m_edgePins := [0, 2, 1]
/-! ## Lemmas on the pin loop -/

theorem getElem?_applyAt (f : Pin → Pin) (as : List Nat) (ps : List Pin) (i : Nat) :
    (applyAt f as ps)[i]? = (ps[i]?).map (f^[as.count i]) := by
  induction as generalizing ps with
  | nil => simp [applyAt]
  | cons a as ih =>
    simp only [applyAt, List.foldl_cons] at ih ⊢
    rw [ih, List.getElem?_modify, List.count_cons]
    cases h : ps[i]? with
    | none => simp
    | some p =>
      by_cases hai : a = i
      · subst hai; simp [Function.iterate_succ_apply]
      · simp [hai]

theorem updPin_eq {f : Pin → Pin} {nw nw1 : Network} {pi : Nat}
    (h : updPin f nw pi = some nw1) :
    ∃ a, nw.m_nodePins[pi]? = some a ∧ nw1 = { nw with m_pins := nw.m_pins.modify f a } := by
  unfold updPin at h
  cases ha : nw.m_nodePins[pi]? with
  | none => simp [ha] at h
  | some a =>
    cases hp : nw.m_pins[a]? with
    | none => simp [ha, hp] at h
    | some p =>
      simp [ha, hp] at h
      refine ⟨a, rfl, ?_⟩
      subst h
      congr 1
      apply List.ext_getElem?
      intro j
      rw [List.getElem?_modify, List.getElem?_set']
      by_cases haj : a = j
      · subst haj; simp [hp]
      · simp [haj]

theorem updPin_isSome {f : Pin → Pin} {nw : Network} {pi : Nat} (h : PinIdxOk nw pi) :
    ∃ nw1, updPin f nw pi = some nw1 := by
  unfold PinIdxOk at h
  unfold updPin
  cases ha : nw.m_nodePins[pi]? with
  | none => simp [ha] at h
  | some a =>
    cases hp : nw.m_pins[a]? with
    | none => simp [ha, hp] at h
    | some p => simp [hp]

/-- A pin loop that terminates normally has applied `f` at the pointers read from
`m_nodePins[pi .. pi + n)` and has written nothing else. -/
theorem forPins_updPin_eq (f : Pin → Pin) :
    ∀ (n pi : Nat) (nw nw1 : Network), forPins (updPin f) n pi nw = some nw1 →
      nw1 = { nw with
        m_pins := applyAt f ((List.range' pi n).filterMap fun j => nw.m_nodePins[j]?) nw.m_pins }
  | 0, pi, nw, nw1, h => by
    simp [forPins] at h
    subst h
    simp [applyAt]
  | n + 1, pi, nw, nw1, h => by
    simp only [forPins] at h
    cases hb : updPin f nw pi with
    | none => simp [hb] at h
    | some nw0 =>
      simp only [hb, Option.some_bind] at h
      obtain ⟨a, ha, h0⟩ := updPin_eq hb
      have := forPins_updPin_eq f n (pi + 1) nw0 nw1 h
      rw [this, h0]
      simp [List.range'_succ, ha, applyAt]

/-- A pin loop over valid pin indices terminates normally. -/
theorem forPins_updPin_isSome (f : Pin → Pin) :
    ∀ (n pi : Nat) (nw : Network), (∀ j < n, PinIdxOk nw (pi + j)) →
      ∃ nw1, forPins (updPin f) n pi nw = some nw1
  | 0, pi, nw, _ => ⟨nw, rfl⟩
  | n + 1, pi, nw, h => by
    have h00 : PinIdxOk nw pi := by simpa using h 0 (by omega)
    obtain ⟨nw0, hb⟩ := @updPin_isSome f nw pi h00
    obtain ⟨a, ha, h0⟩ := updPin_eq hb
    have hok : ∀ j < n, PinIdxOk nw0 (pi + 1 + j) := by
      intro j hj
      have := h (j + 1) (by omega)
      rw [h0]
      unfold PinIdxOk at this ⊢
      have e : pi + (j + 1) = pi + 1 + j := by omega
      rw [e] at this
      cases hq : nw.m_nodePins[pi + 1 + j]? with
      | none => simp [hq] at this
      | some b =>
        simp only [hq, Option.some_bind, Option.isSome_iff_exists] at this ⊢
        obtain ⟨p, hp⟩ := this
        rw [List.getElem?_modify, hp]
        exact ⟨_, rfl⟩
    obtain ⟨nw1, h1⟩ := forPins_updPin_isSome f n (pi + 1) nw0 hok
    exact ⟨nw1, by simp [forPins, hb, h1]⟩

/-- Closed form of the pin loop over the pins of a cell. -/
theorem forPins_cell (f : Pin → Pin) (nw : Network) (nd : Node) (h : PinsOk nw nd) :
    forPins (updPin f) (nd.lastPinIdx - nd.firstPinIdx) nd.firstPinIdx nw =
      some { nw with m_pins := applyAt f (ownedPins nw nd) nw.m_pins } := by
  have hok : ∀ j < nd.lastPinIdx - nd.firstPinIdx, PinIdxOk nw (nd.firstPinIdx + j) :=
    fun j hj => h _ (by omega) (by omega)
  obtain ⟨nw1, h1⟩ := forPins_updPin_isSome f _ _ nw hok
  rw [h1, forPins_updPin_eq f _ _ nw nw1 h1, ownedPins]

theorem ownedPins_valid {nw : Network} {nd : Node} (hp : PinsOk nw nd) {a : Nat}
    (ha : a ∈ ownedPins nw nd) : ∃ p, nw.m_pins[a]? = some p := by
  simp only [ownedPins, List.mem_filterMap, List.mem_range'_1] at ha
  obtain ⟨pi, ⟨h1, h2⟩, h3⟩ := ha
  have := hp pi (by omega) h1
  simp only [PinIdxOk, h3, Option.some_bind, Option.isSome_iff_exists] at this
  exact this

theorem applyAt_owned (f : Pin → Pin) {nw : Network} {nd : Node} (hp : PinsOk nw nd)
    (hn : (ownedPins nw nd).Nodup) {a : Nat} (ha : a ∈ ownedPins nw nd) :
    ∃ p, nw.m_pins[a]? = some p ∧
      (applyAt f (ownedPins nw nd) nw.m_pins)[a]? = some (f p) := by
  obtain ⟨p, hpa⟩ := ownedPins_valid hp ha
  refine ⟨p, hpa, ?_⟩
  rw [getElem?_applyAt, hpa, List.count_eq_one_of_mem hn ha]
  rfl

theorem applyAt_not_owned (f : Pin → Pin) (as : List Nat) (ps : List Pin) {a : Nat}
    (ha : a ∉ as) : (applyAt f as ps)[a]? = ps[a]? := by
  rw [getElem?_applyAt, List.count_eq_zero_of_not_mem ha]
  cases ps[a]? <;> rfl

/-- Applying an involution twice at the same positions restores the pins. -/
theorem applyAt_involutive (f : Pin → Pin) (hf : ∀ p, f (f p) = p) (as : List Nat)
    (ps : List Pin) : applyAt f as (applyAt f as ps) = ps := by
  apply List.ext_getElem?
  intro i
  rw [getElem?_applyAt, getElem?_applyAt]
  cases ps[i]? with
  | none => rfl
  | some p =>
    simp only [Option.map_some']
    congr 1
    generalize as.count i = n
    induction n generalizing p with
    | zero => rfl
    | succ n ih =>
      rw [Function.iterate_succ_apply, Function.iterate_succ_apply', hf, ih]

/-- Closed form of `orientCellForRow` on a valid row and a valid cell. -/
theorem orientCellForRow_eq (k : Consts) {arch : Architecture} {nw : Network} {ndi row : Nat}
    {r : Row} {nd : Node} (hrow : arch.m_rows[row]? = some r)
    (hnd : nw.m_nodes[ndi]? = some nd) (hp : PinsOk nw nd) :
    orientCellForRow k arch nw ndi row = some (
      if k.North r.m_siteOrient then
        if k.North nd.currOrient then (true, nw)
        else if nd.currOrient = k.Orientation_FS then
          (true, nw.withCell negY nd ndi { nd with currOrient := k.Orientation_N })
        else if nd.currOrient = k.Orientation_S then
          (true, nw.withCell negY nd ndi { nd with currOrient := k.Orientation_FN })
        else (false, nw)
      else if r.m_siteOrient = k.Orientation_FS ∨ k.Orientation_S ≠ 0 then
        if nd.currOrient = k.Orientation_FS ∨ nd.currOrient = k.Orientation_S then (true, nw)
        else if nd.currOrient = k.Orientation_N then
          (false, nw.withCell negY nd ndi { nd with currOrient := k.Orientation_FS })
        else if nd.currOrient = k.Orientation_FN then
          (false, nw.withCell negY nd ndi { nd with currOrient := k.Orientation_S })
        else (false, nw)
      else (false, nw)) := by
  have hneg : negateOffsetsY nw nd =
      some { nw with m_pins := applyAt negY (ownedPins nw nd) nw.m_pins } :=
    forPins_cell _ nw nd hp
  unfold orientCellForRow
  simp only [hrow, hnd, Option.bind_eq_bind, Option.some_bind, Consts.North, hneg,
    Network.setCurrOrient, Network.withCell]
  split_ifs <;> rfl

/-! ## `orientAdjust` -/

theorem adjustPin_involutive (mX mY : Int) (p : Pin) :
    adjustPin mX mY (adjustPin mX mY p) = p := by
  unfold adjustPin
  by_cases hx : mX = -1 <;> by_cases hy : mY = -1 <;> simp [hx, hy]

/-- The sign pair that a `switch` of `orientAdjust` multiplies into the multipliers. -/
theorem switchOri_mul (k : Consts) (o : Nat) (m : Int × Int) :
    switchOri k o m = (m.1 * (switchOri k o (1, 1)).1, m.2 * (switchOri k o (1, 1)).2) := by
  unfold switchOri
  split_ifs <;> simp

theorem switchOri_comm (k : Consts) (a b : Nat) :
    switchOri k b (switchOri k a (1, 1)) = switchOri k a (switchOri k b (1, 1)) := by
  rw [switchOri_mul k b, switchOri_mul k a (switchOri k b (1, 1))]
  simp [mul_comm]

/-- Closed form of `orientAdjust` on a valid cell whose orientation differs from the
target. -/
theorem orientAdjust_eq (k : Consts) {nw : Network} {ndi : Nat} {nd : Node} (newOri : Nat)
    (hnd : nw.m_nodes[ndi]? = some nd) (hp : PinsOk nw nd) (hne : nd.currOrient ≠ newOri) :
    orientAdjust k nw ndi newOri = some (false,
      nw.withCell
        (adjustPin (switchOri k newOri (switchOri k nd.currOrient (1, 1))).1
          (switchOri k newOri (switchOri k nd.currOrient (1, 1))).2) nd ndi
        (if (switchOri k newOri (switchOri k nd.currOrient (1, 1))).1 = -1 then
          { nd with currOrient := newOri, etl := nd.etr, etr := nd.etl }
        else { nd with currOrient := newOri })) := by
  have hlt : ndi < nw.m_nodes.length := by
    rcases Nat.lt_or_ge ndi nw.m_nodes.length with h | h
    · exact h
    · rw [List.getElem?_eq_none h] at hnd; cases hnd
  unfold orientAdjust
  simp only [hnd, Option.bind_eq_bind, Option.some_bind, hne, if_false, forPins_cell _ nw nd hp,
    Network.setCurrOrient, Network.swapEdgeTypes, Network.withCell]
  split_ifs <;> simp [hlt]

theorem orientAdjust_same (k : Consts) {nw : Network} {ndi : Nat} {nd : Node}
    (hnd : nw.m_nodes[ndi]? = some nd) :
    orientAdjust k nw ndi nd.currOrient = some (false, nw) := by
  unfold orientAdjust
  simp [hnd]

theorem PinsOk_withCell {nw : Network} {f : Pin → Pin} {nd : Node} {ndi : Nat}
    {nd1 nd2 : Node} (h1 : nd2.firstPinIdx = nd.firstPinIdx)
    (h2 : nd2.lastPinIdx = nd.lastPinIdx) (hp : PinsOk nw nd) :
    PinsOk (nw.withCell f nd ndi nd1) nd2 := by
  intro pi hlt hge
  have := hp pi (by omega) (by omega)
  unfold PinIdxOk at this ⊢
  simp only [Network.withCell]
  cases hq : nw.m_nodePins[pi]? with
  | none => simp [hq] at this
  | some b =>
    simp only [hq, Option.some_bind, Option.isSome_iff_exists] at this ⊢
    obtain ⟨p, hp⟩ := this
    rw [getElem?_applyAt, hp]
    exact ⟨_, rfl⟩

/-- C1.  Round trip of `orientAdjust`: on a valid cell currently in orientation `O`,
`orientAdjust(cell, O')` followed by `orientAdjust(cell, O)` both return and leave the
whole network (every pin offset, the orientation and the edge types of the cell included)
exactly as it was before the two calls.  It holds for all `unsigned` values `O'`, in
particular for the four recognised orientations. -/
theorem orientAdjust_round_trip (k : Consts) (nw : Network) (ndi : Nat) (nd : Node)
    (O O' : Nat) (hnd : nw.m_nodes[ndi]? = some nd) (hp : PinsOk nw nd)
    (hO : nd.currOrient = O) :
    ∃ nw1, orientAdjust k nw ndi O' = some (false, nw1) ∧
      orientAdjust k nw1 ndi O = some (false, nw) := by
  subst hO
  have hlt : ndi < nw.m_nodes.length := by
    rcases Nat.lt_or_ge ndi nw.m_nodes.length with h | h
    · exact h
    · rw [List.getElem?_eq_none h] at hnd; cases hnd
  by_cases hne : nd.currOrient = O'
  · subst hne
    exact ⟨nw, orientAdjust_same k hnd, orientAdjust_same k hnd⟩
  · refine ⟨_, orientAdjust_eq k O' hnd hp hne, ?_⟩
    generalize hm : switchOri k O' (switchOri k nd.currOrient (1, 1)) = m
    generalize hnd1 : (if m.1 = -1 then
          ({ nd with currOrient := O', etl := nd.etr, etr := nd.etl } : Node)
        else { nd with currOrient := O' }) = nd1
    have e1 : nd1.firstPinIdx = nd.firstPinIdx := by subst hnd1; split_ifs <;> rfl
    have e2 : nd1.lastPinIdx = nd.lastPinIdx := by subst hnd1; split_ifs <;> rfl
    have e3 : nd1.currOrient = O' := by subst hnd1; split_ifs <;> rfl
    have hnd' : (nw.withCell (adjustPin m.1 m.2) nd ndi nd1).m_nodes[ndi]? = some nd1 := by
      simp [Network.withCell, hlt]
    have hp' : PinsOk (nw.withCell (adjustPin m.1 m.2) nd ndi nd1) nd1 :=
      PinsOk_withCell e1 e2 hp
    have hne' : nd1.currOrient ≠ nd.currOrient := by rw [e3]; exact fun h => hne h.symm
    rw [orientAdjust_eq k nd.currOrient hnd' hp' hne', e3, switchOri_comm k O' nd.currOrient, hm]
    have hown : ∀ ns ps, ownedPins { nw with m_nodes := ns, m_pins := ps } nd1 =
        ownedPins nw nd := by
      intro ns ps; simp [ownedPins, e1, e2]
    have hback : (if m.1 = -1 then
          ({ nd1 with currOrient := nd.currOrient, etl := nd1.etr, etr := nd1.etl } : Node)
        else { nd1 with currOrient := nd.currOrient }) = nd := by
      subst hnd1; split_ifs <;> rfl
    have hnodes : nw.m_nodes.set ndi nd = nw.m_nodes := by
      apply List.ext_getElem?
      intro j
      rw [List.getElem?_set']
      by_cases hj : ndi = j
      · subst hj; simp [hnd]
      · simp [hj]
    simp only [Network.withCell, hown]
    rw [applyAt_involutive _ (adjustPin_involutive m.1 m.2), List.set_set, hback, hnodes]

/-! ## `orientCellForRow` -/

theorem lt_of_getElem?_eq_some {α : Type} {l : List α} {i : Nat} {x : α}
    (h : l[i]? = some x) : i < l.length := by
  rcases Nat.lt_or_ge i l.length with h1 | h1
  · exact h1
  · rw [List.getElem?_eq_none h1] at h; cases h

theorem withCell_node {nw : Network} {ndi : Nat} {nd : Node} (f : Pin → Pin) (nd1 : Node)
    (hnd : nw.m_nodes[ndi]? = some nd) :
    (nw.withCell f nd ndi nd1).m_nodes[ndi]? = some nd1 := by
  simp [Network.withCell, lt_of_getElem?_eq_some hnd]

theorem withCell_YMirrored {nw : Network} {ndi : Nat} {nd : Node} (nd1 : Node)
    (hp : PinsOk nw nd) (hn : (ownedPins nw nd).Nodup) :
    YMirrored nw (nw.withCell negY nd ndi nd1) nd := by
  intro a ha
  obtain ⟨p, h1, h2⟩ := applyAt_owned negY hp hn ha
  refine ⟨p, h1, ?_⟩
  simp only [Network.withCell, h2, negY]
  simp

/-- A cell that is already in the family of the row is reported legal and nothing is
written. -/
theorem orientCellForRow_inFamily (k : Consts) {arch : Architecture} {nw : Network}
    {ndi row : Nat} {r : Row} {nd : Node} (hrow : arch.m_rows[row]? = some r)
    (hnd : nw.m_nodes[ndi]? = some nd)
    (h : (k.North r.m_siteOrient ∧ k.North nd.currOrient) ∨
      (¬ k.North r.m_siteOrient ∧ k.Orientation_S ≠ 0 ∧ k.South nd.currOrient)) :
    orientCellForRow k arch nw ndi row = some (true, nw) := by
  unfold orientCellForRow
  simp only [hrow, hnd, Option.bind_eq_bind, Option.some_bind]
  rcases h with ⟨h1, h2⟩ | ⟨h1, h2, h3⟩
  · unfold Consts.North at h1 h2
    simp [h1, h2]
  · unfold Consts.North at h1
    unfold Consts.South at h3
    have h3' : nd.currOrient = k.Orientation_FS ∨ nd.currOrient = k.Orientation_S := h3.symm
    simp [h1, h2, h3']

/-- C2.  Family invariant of `orientCellForRow`: on a valid row and a valid cell the call
returns, and if it returns `true` then the orientation of the cell afterwards belongs to
the family of the row: a row in N or FN gives a cell in N or FN, a row in S or FS gives a
cell in S or FS. -/
theorem orientCellForRow_family (k : Consts) (hk : k.OriOk) (arch : Architecture)
    (nw : Network) (ndi row : Nat) (r : Row) (nd : Node)
    (hrow : arch.m_rows[row]? = some r) (hnd : nw.m_nodes[ndi]? = some nd)
    (hp : PinsOk nw nd) :
    ∃ b nw1 nd1, orientCellForRow k arch nw ndi row = some (b, nw1) ∧
      nw1.m_nodes[ndi]? = some nd1 ∧
      (b = true →
        (k.North r.m_siteOrient → k.North nd1.currOrient) ∧
        (k.South r.m_siteOrient → k.South nd1.currOrient)) := by
  obtain ⟨h1, h2, h3, h4, h5, h6, h7⟩ := hk
  rw [orientCellForRow_eq k hrow hnd hp]
  unfold Consts.North Consts.South
  split_ifs with c1 c2 c3 c4 c5 c6 c7 c8
  · exact ⟨true, nw, nd, rfl, hnd, fun _ => ⟨fun _ => c2, fun hs => by
      rcases c1 with c | c <;> rcases hs with s | s <;> omega⟩⟩
  · exact ⟨true, _, _, rfl, withCell_node negY _ hnd, fun _ => ⟨fun _ => Or.inl rfl, fun hs => by
      rcases c1 with c | c <;> rcases hs with s | s <;> omega⟩⟩
  · exact ⟨true, _, _, rfl, withCell_node negY _ hnd, fun _ => ⟨fun _ => Or.inr rfl, fun hs => by
      rcases c1 with c | c <;> rcases hs with s | s <;> omega⟩⟩
  · exact ⟨false, nw, nd, rfl, hnd, fun h => by cases h⟩
  · exact ⟨true, nw, nd, rfl, hnd, fun _ => ⟨fun hn => absurd hn c1, fun _ => c6.symm⟩⟩
  · exact ⟨false, _, _, rfl, withCell_node negY _ hnd, fun h => by cases h⟩
  · exact ⟨false, _, _, rfl, withCell_node negY _ hnd, fun h => by cases h⟩
  · exact ⟨false, nw, nd, rfl, hnd, fun h => by cases h⟩
  · exact ⟨false, nw, nd, rfl, hnd, fun h => by cases h⟩

/-- C3.  Idempotence of `orientCellForRow`: for every valid row and every valid cell whose
orientation is one of N, S, FN, FS, the first call returns, and a second call on the
resulting network returns `true` and leaves that network (pin offsets and orientation
included) unchanged. -/
theorem orientCellForRow_idempotent (k : Consts) (hk : k.OriOk) (arch : Architecture)
    (nw : Network) (ndi row : Nat) (r : Row) (nd : Node)
    (hrow : arch.m_rows[row]? = some r) (hnd : nw.m_nodes[ndi]? = some nd)
    (hp : PinsOk nw nd) (hc : k.IsOri nd.currOrient) :
    ∃ b nw1, orientCellForRow k arch nw ndi row = some (b, nw1) ∧
      orientCellForRow k arch nw1 ndi row = some (true, nw1) := by
  obtain ⟨h1, h2, h3, h4, h5, h6, h7⟩ := hk
  rw [orientCellForRow_eq k hrow hnd hp]
  unfold Consts.IsOri at hc
  split_ifs with c1 c2 c3 c4 c5 c6 c7 c8
  · exact ⟨true, nw, rfl, orientCellForRow_inFamily k hrow hnd (Or.inl ⟨c1, c2⟩)⟩
  · exact ⟨true, _, rfl, orientCellForRow_inFamily k hrow (withCell_node negY _ hnd)
      (Or.inl ⟨c1, Or.inl rfl⟩)⟩
  · exact ⟨true, _, rfl, orientCellForRow_inFamily k hrow (withCell_node negY _ hnd)
      (Or.inl ⟨c1, Or.inr rfl⟩)⟩
  · exfalso
    unfold Consts.North at c2
    rcases hc with h | h | h | h <;> simp [h] at c2 c3 c4
  · exact ⟨true, nw, rfl, orientCellForRow_inFamily k hrow hnd (Or.inr ⟨c1, h7, c6.symm⟩)⟩
  · exact ⟨false, _, rfl, orientCellForRow_inFamily k hrow (withCell_node negY _ hnd)
      (Or.inr ⟨c1, h7, Or.inr rfl⟩)⟩
  · exact ⟨false, _, rfl, orientCellForRow_inFamily k hrow (withCell_node negY _ hnd)
      (Or.inr ⟨c1, h7, Or.inl rfl⟩)⟩
  · exfalso
    rcases hc with h | h | h | h <;> simp [h] at c6 c7 c8
  · exact absurd (Or.inr h7) c5

/-- C4.  Legalisation mapping of `orientCellForRow` on a valid row and a valid cell whose
pin pointers are pairwise different: in a row in N or FN a cell in S becomes FN and a cell
in FS becomes N; in a row in S or FS a cell in N becomes FS and a cell in FN becomes S; in
each of these four cases every pin owned by the cell has its Y offset negated and its X
offset unchanged; a cell already in the family of the row leaves the whole network
unchanged. -/
theorem orientCellForRow_mapping (k : Consts) (hk : k.OriOk) (arch : Architecture)
    (nw : Network) (ndi row : Nat) (r : Row) (nd : Node)
    (hrow : arch.m_rows[row]? = some r) (hnd : nw.m_nodes[ndi]? = some nd)
    (hp : PinsOk nw nd) (hn : (ownedPins nw nd).Nodup) :
    ∃ b nw1 nd1, orientCellForRow k arch nw ndi row = some (b, nw1) ∧
      nw1.m_nodes[ndi]? = some nd1 ∧
      (k.North r.m_siteOrient → nd.currOrient = k.Orientation_S →
        nd1.currOrient = k.Orientation_FN ∧ YMirrored nw nw1 nd) ∧
      (k.North r.m_siteOrient → nd.currOrient = k.Orientation_FS →
        nd1.currOrient = k.Orientation_N ∧ YMirrored nw nw1 nd) ∧
      (k.South r.m_siteOrient → nd.currOrient = k.Orientation_N →
        nd1.currOrient = k.Orientation_FS ∧ YMirrored nw nw1 nd) ∧
      (k.South r.m_siteOrient → nd.currOrient = k.Orientation_FN →
        nd1.currOrient = k.Orientation_S ∧ YMirrored nw nw1 nd) ∧
      ((k.North r.m_siteOrient ∧ k.North nd.currOrient) ∨
        (k.South r.m_siteOrient ∧ k.South nd.currOrient) → nw1 = nw) := by
  obtain ⟨h1, h2, h3, h4, h5, h6, h7⟩ := hk
  rw [orientCellForRow_eq k hrow hnd hp]
  unfold Consts.North Consts.South
  split_ifs with c1 c2 c3 c4 c5 c6 c7 c8
  · refine ⟨true, nw, nd, rfl, hnd, ?_, ?_, ?_, ?_, fun _ => rfl⟩ <;> intro a b <;>
      exfalso <;> omega
  · refine ⟨true, _, _, rfl, withCell_node negY _ hnd, ?_, ?_, ?_, ?_, ?_⟩
    · intro _ b; exfalso; omega
    · intro _ _; exact ⟨rfl, withCell_YMirrored _ hp hn⟩
    · intro a _; exfalso; omega
    · intro a _; exfalso; omega
    · intro a; exfalso; omega
  · refine ⟨true, _, _, rfl, withCell_node negY _ hnd, ?_, ?_, ?_, ?_, ?_⟩
    · intro _ _; exact ⟨rfl, withCell_YMirrored _ hp hn⟩
    · intro _ b; exfalso; omega
    · intro a _; exfalso; omega
    · intro a _; exfalso; omega
    · intro a; exfalso; omega
  · refine ⟨false, nw, nd, rfl, hnd, ?_, ?_, ?_, ?_, fun _ => rfl⟩ <;> intro a b <;>
      exfalso <;> omega
  · refine ⟨true, nw, nd, rfl, hnd, ?_, ?_, ?_, ?_, fun _ => rfl⟩ <;> intro a b <;>
      exfalso <;> omega
  · refine ⟨false, _, _, rfl, withCell_node negY _ hnd, ?_, ?_, ?_, ?_, ?_⟩
    · intro a _; exfalso; omega
    · intro a _; exfalso; omega
    · intro _ _; exact ⟨rfl, withCell_YMirrored _ hp hn⟩
    · intro _ b; exfalso; omega
    · intro a; exfalso; omega
  · refine ⟨false, _, _, rfl, withCell_node negY _ hnd, ?_, ?_, ?_, ?_, ?_⟩
    · intro a _; exfalso; omega
    · intro a _; exfalso; omega
    · intro _ b; exfalso; omega
    · intro _ _; exact ⟨rfl, withCell_YMirrored _ hp hn⟩
    · intro a; exfalso; omega
  · refine ⟨false, nw, nd, rfl, hnd, ?_, ?_, ?_, ?_, fun _ => rfl⟩ <;> intro a b <;>
      exfalso <;> omega
  · exact absurd (Or.inr h7) c5

/-! ## `orientFind` -/

/-- C7.  `orientFind` predicts `orientCellForRow`: for every valid row whose orientation is
one of N, FN, S, FS and every valid cell whose orientation is one of N, S, FN, FS, both
calls return, the value of `orientFind` is the orientation of the cell after
`orientCellForRow` from the same starting network, and the network after `orientFind` is
the network before it. -/
theorem orientFind_predicts (k : Consts) (hk : k.OriOk) (arch : Architecture)
    (nw : Network) (ndi row : Nat) (r : Row) (nd : Node)
    (hrow : arch.m_rows[row]? = some r) (hnd : nw.m_nodes[ndi]? = some nd)
    (hp : PinsOk nw nd) (hr : k.IsOri r.m_siteOrient) (hc : k.IsOri nd.currOrient) :
    ∃ o b nw1 nd1, orientFind k arch nw ndi row = some (o, nw) ∧
      orientCellForRow k arch nw ndi row = some (b, nw1) ∧
      nw1.m_nodes[ndi]? = some nd1 ∧ nd1.currOrient = o := by
  obtain ⟨h1, h2, h3, h4, h5, h6, h7⟩ := hk
  rw [orientCellForRow_eq k hrow hnd hp]
  unfold orientFind
  simp only [hrow, hnd, Option.bind_eq_bind, Option.some_bind]
  unfold Consts.IsOri at hr hc
  unfold Consts.North
  rcases hr with hr | hr | hr | hr <;> rcases hc with hc | hc | hc | hc <;>
    simp only [hr, hc, h1, h2, h3, h4, h5, h6, h7, Ne.symm h1, Ne.symm h2, Ne.symm h3,
      Ne.symm h4, Ne.symm h5, Ne.symm h6, if_true, if_false, true_or, or_true, or_self,
      ne_eq, not_false_eq_true, not_true_eq_false, pure] <;>
    first
      | exact ⟨_, _, _, _, rfl, rfl, hnd, hc⟩
      | exact ⟨_, _, _, _, rfl, rfl, withCell_node negY _ hnd, rfl⟩

/-! ## The multiplier algebra of `orientAdjust` -/

theorem switchOri_spec (k : Consts) (o : Nat) :
    switchOri k o (1, 1) = (specMX k o, specMY k o) := by
  unfold switchOri specMX specMY
  split_ifs <;> rfl

theorem switchOri_two (k : Consts) (a b : Nat) :
    switchOri k b (switchOri k a (1, 1)) =
      (specMX k a * specMX k b, specMY k a * specMY k b) := by
  rw [switchOri_mul k b, switchOri_spec, switchOri_spec]

theorem adjustPin_eq (mX mY : Int) (p : Pin) :
    adjustPin mX mY p =
      { p with
        offsetX := if mX = -1 then -p.offsetX else p.offsetX
        offsetY := if mY = -1 then -p.offsetY else p.offsetY } := by
  unfold adjustPin
  by_cases hx : mX = -1 <;> by_cases hy : mY = -1 <;> simp [hx, hy]

theorem specMX_sq (k : Consts) (o : Nat) : specMX k o * specMX k o ≠ -1 := by
  unfold specMX
  split_ifs <;> decide

theorem specMY_sq (k : Consts) (o : Nat) : specMY k o * specMY k o ≠ -1 := by
  unfold specMY
  split_ifs <;> decide

/-- C8.  `orientAdjust` implements the multiplier algebra.  With the multipliers
N = (+1,+1), S = (-1,-1), FS = (+1,-1), FN = (-1,+1), for a valid cell in orientation `A`
whose pin pointers are pairwise different and a target `B` (both among N, S, FN, FS), the
call returns; afterwards the orientation of the cell is `B`, its edge types are swapped
exactly when `mX(A) * mX(B) = -1` and its other attributes are unchanged; every owned pin
has its X offset negated exactly when `mX(A) * mX(B) = -1` and its Y offset negated exactly
when `mY(A) * mY(B) = -1`; no other pin and no other cell is changed; and when `A = B` the
network is unchanged. -/
theorem orientAdjust_multiplier_algebra (k : Consts) (nw : Network) (ndi : Nat) (nd : Node)
    (A B : Nat) (hnd : nw.m_nodes[ndi]? = some nd) (hp : PinsOk nw nd)
    (hn : (ownedPins nw nd).Nodup) (hA : nd.currOrient = A) (hA4 : k.IsOri A)
    (hB4 : k.IsOri B) :
    ∃ nw1 nd1, orientAdjust k nw ndi B = some (false, nw1) ∧
      nw1.m_nodes[ndi]? = some nd1 ∧
      nd1 = (if specMX k A * specMX k B = -1 then
          { nd with currOrient := B, etl := nd.etr, etr := nd.etl }
        else { nd with currOrient := B }) ∧
      (∀ a ∈ ownedPins nw nd, ∃ p, nw.m_pins[a]? = some p ∧
        nw1.m_pins[a]? = some { p with
          offsetX := if specMX k A * specMX k B = -1 then -p.offsetX else p.offsetX
          offsetY := if specMY k A * specMY k B = -1 then -p.offsetY else p.offsetY }) ∧
      (∀ a, a ∉ ownedPins nw nd → nw1.m_pins[a]? = nw.m_pins[a]?) ∧
      (∀ j, j ≠ ndi → nw1.m_nodes[j]? = nw.m_nodes[j]?) ∧
      (A = B → nw1 = nw) := by
  subst hA
  by_cases hAB : nd.currOrient = B
  · subst hAB
    refine ⟨nw, nd, orientAdjust_same k hnd, hnd, ?_, ?_, fun _ _ => rfl, fun _ _ => rfl,
      fun _ => rfl⟩
    · rw [if_neg (specMX_sq k _)]
    · intro a ha
      obtain ⟨p, hpa⟩ := ownedPins_valid hp ha
      exact ⟨p, hpa, by rw [hpa, if_neg (specMX_sq k _), if_neg (specMY_sq k _)]⟩
  · rw [orientAdjust_eq k B hnd hp hAB, switchOri_two]
    refine ⟨_, _, rfl, withCell_node _ _ hnd, rfl, ?_, ?_, ?_, fun h => absurd h hAB⟩
    · intro a ha
      obtain ⟨p, h1, h2⟩ := applyAt_owned
        (adjustPin (specMX k nd.currOrient * specMX k B) (specMY k nd.currOrient * specMY k B))
        hp hn ha
      refine ⟨p, h1, ?_⟩
      simp only [Network.withCell, h2, adjustPin_eq]
    · intro a ha
      simp only [Network.withCell]
      exact applyAt_not_owned _ _ _ ha
    · intro j hj
      simp only [Network.withCell]
      rw [List.getElem?_set_ne (Ne.symm hj)]

/-! ## `isLegalSym` -/

/-- C9, as amended.  For the symmetry class `X | Y`, `isLegalSym` returns `true` for every
cell orientation among N, S, FN, FS when the row orientation is N or FS, and returns
`false` for every other row orientation (S and FN included), whatever the cell
orientation. -/
theorem isLegalSym_XY (k : Consts) (hs : k.SymOk) (r c : Nat) :
    ((r = k.Orientation_N ∨ r = k.Orientation_FS) → k.IsOri c →
      isLegalSym k r (k.Symmetry_X ||| k.Symmetry_Y) c = true) ∧
    (r ≠ k.Orientation_N → r ≠ k.Orientation_FS →
      isLegalSym k r (k.Symmetry_X ||| k.Symmetry_Y) c = false) := by
  obtain ⟨s1, s2, s3, s4, s5, s6⟩ := hs
  unfold isLegalSym Consts.IsOri
  rw [if_neg s3, if_neg s2, if_pos rfl]
  constructor
  · intro hr hc
    have hc' : c = k.Orientation_N ∨ c = k.Orientation_FN ∨ c = k.Orientation_S ∨
        c = k.Orientation_FS := by
      rcases hc with h | h | h | h <;> simp [h]
    rcases hr with hr | hr
    · rw [if_pos hr, if_pos hc']
    · by_cases hN : r = k.Orientation_N
      · rw [if_pos hN, if_pos hc']
      · rw [if_neg hN, if_pos hr, if_pos hc']
  · intro h1 h2
    rw [if_neg h1, if_neg h2]

/-- C9, the claim as stated fails: with row orientation S, symmetry class `X | Y` and cell
orientation N the oracle returns `false`. -/
theorem isLegalSym_XY_row_S_rejects :
    sampleConsts.IsOri sampleConsts.Orientation_S ∧
    sampleConsts.IsOri sampleConsts.Orientation_N ∧
    isLegalSym sampleConsts sampleConsts.Orientation_S
      (sampleConsts.Symmetry_X ||| sampleConsts.Symmetry_Y) sampleConsts.Orientation_N
      = false := by
  decide

/-- C10.  Soundness of `isLegalSym` for the restricted classes, for every row orientation
`r` and cell orientation `c`: if class Y is accepted then `c` is `r` or the vertical-axis
mirror of `r`; if class X is accepted then `c` is `r` or the horizontal-axis mirror of `r`;
if class unknown is accepted then `c = r`. -/
theorem isLegalSym_restricted_sound (k : Consts) (hs : k.SymOk) (r c : Nat) :
    (isLegalSym k r k.Symmetry_Y c = true → c = r ∨ VMirror k r c) ∧
    (isLegalSym k r k.Symmetry_X c = true → c = r ∨ HMirror k r c) ∧
    (isLegalSym k r k.Symmetry_UNKNOWN c = true → c = r) := by
  obtain ⟨s1, s2, s3, s4, s5, s6⟩ := hs
  unfold isLegalSym VMirror HMirror
  refine ⟨?_, ?_, ?_⟩
  · rw [if_pos rfl]
    split_ifs with a b a2 b2 <;> intro h <;> cases h
    · rcases b with b | b
      · exact Or.inl (by rw [b, a])
      · exact Or.inr (Or.inl ⟨a, b⟩)
    · rcases b2 with b | b
      · exact Or.inr (Or.inr (Or.inr (Or.inr ⟨a2, b⟩)))
      · exact Or.inl (by rw [b, a2])
  · rw [if_neg s1, if_pos rfl]
    split_ifs with a b a2 b2 <;> intro h <;> cases h
    · rcases b with b | b
      · exact Or.inl (by rw [b, a])
      · exact Or.inr (Or.inl ⟨a, b⟩)
    · rcases b2 with b | b
      · exact Or.inr (Or.inr (Or.inl ⟨a2, b⟩))
      · exact Or.inl (by rw [b, a2])
  · rw [if_neg s5, if_neg s4, if_neg s6, if_pos rfl]
    split_ifs with a b a2 b2 <;> intro h <;> cases h
    · rw [b, a]
    · rw [b2, a2]

/-! ## Evaluation on the sample design -/

/-- C1 at a concrete input: cell 0 of the sample network from N to S and back. -/
theorem orientAdjust_round_trip_witness :
    PinsOk (sampleNetwork 1 16) (sampleCell 1) ∧
    ∃ nw1, orientAdjust sampleConsts (sampleNetwork 1 16) 0 4 = some (false, nw1) ∧
      orientAdjust sampleConsts nw1 0 1 = some (false, sampleNetwork 1 16) :=
  ⟨by decide,
    orientAdjust_round_trip sampleConsts (sampleNetwork 1 16) 0 (sampleCell 1) 1 4 rfl
      (by decide) rfl⟩

/-- C2 at a concrete input: a cell in S in a row in N. -/
theorem orientCellForRow_family_witness :
    sampleConsts.OriOk ∧ PinsOk (sampleNetwork 4 1) (sampleCell 4) ∧
    ∃ b nw1 nd1, orientCellForRow sampleConsts (sampleArch 1 2) (sampleNetwork 4 1) 0 0 =
        some (b, nw1) ∧
      nw1.m_nodes[0]? = some nd1 ∧
      (b = true →
        (sampleConsts.North (1 : Nat) → sampleConsts.North nd1.currOrient) ∧
        (sampleConsts.South (1 : Nat) → sampleConsts.South nd1.currOrient)) :=
  ⟨by decide, by decide,
    orientCellForRow_family sampleConsts (by decide) (sampleArch 1 2) (sampleNetwork 4 1) 0 0
      ⟨1, 2⟩ (sampleCell 4) rfl rfl (by decide)⟩

/-- C3 at a concrete input: a cell in N in a row in S. -/
theorem orientCellForRow_idempotent_witness :
    sampleConsts.OriOk ∧ PinsOk (sampleNetwork 1 1) (sampleCell 1) ∧
    sampleConsts.IsOri (sampleCell 1).currOrient ∧
    ∃ b nw1, orientCellForRow sampleConsts (sampleArch 4 2) (sampleNetwork 1 1) 0 0 =
        some (b, nw1) ∧
      orientCellForRow sampleConsts (sampleArch 4 2) nw1 0 0 = some (true, nw1) :=
  ⟨by decide, by decide, by decide,
    orientCellForRow_idempotent sampleConsts (by decide) (sampleArch 4 2) (sampleNetwork 1 1)
      0 0 ⟨4, 2⟩ (sampleCell 1) rfl rfl (by decide) (by decide)⟩

/-- C4 at a concrete input: a cell in FS in a row in FN. -/
theorem orientCellForRow_mapping_witness :
    sampleConsts.OriOk ∧ PinsOk (sampleNetwork 64 1) (sampleCell 64) ∧
    (ownedPins (sampleNetwork 64 1) (sampleCell 64)).Nodup ∧
    ∃ b nw1 nd1, orientCellForRow sampleConsts (sampleArch 16 2) (sampleNetwork 64 1) 0 0 =
        some (b, nw1) ∧
      nw1.m_nodes[0]? = some nd1 ∧
      (sampleConsts.North (16 : Nat) → (sampleCell 64).currOrient = sampleConsts.Orientation_S →
        nd1.currOrient = sampleConsts.Orientation_FN ∧
          YMirrored (sampleNetwork 64 1) nw1 (sampleCell 64)) ∧
      (sampleConsts.North (16 : Nat) → (sampleCell 64).currOrient = sampleConsts.Orientation_FS →
        nd1.currOrient = sampleConsts.Orientation_N ∧
          YMirrored (sampleNetwork 64 1) nw1 (sampleCell 64)) ∧
      (sampleConsts.South (16 : Nat) → (sampleCell 64).currOrient = sampleConsts.Orientation_N →
        nd1.currOrient = sampleConsts.Orientation_FS ∧
          YMirrored (sampleNetwork 64 1) nw1 (sampleCell 64)) ∧
      (sampleConsts.South (16 : Nat) → (sampleCell 64).currOrient = sampleConsts.Orientation_FN →
        nd1.currOrient = sampleConsts.Orientation_S ∧
          YMirrored (sampleNetwork 64 1) nw1 (sampleCell 64)) ∧
      ((sampleConsts.North (16 : Nat) ∧ sampleConsts.North (sampleCell 64).currOrient) ∨
        (sampleConsts.South (16 : Nat) ∧ sampleConsts.South (sampleCell 64).currOrient) →
        nw1 = sampleNetwork 64 1) :=
  ⟨by decide, by decide, by decide,
    orientCellForRow_mapping sampleConsts (by decide) (sampleArch 16 2) (sampleNetwork 64 1)
      0 0 ⟨16, 2⟩ (sampleCell 64) rfl rfl (by decide) (by decide)⟩

/-- C5, the code at the failing input: in a row in S, the cell in N is corrected to FS and
the cell in FN is corrected to S, but both calls report `false`, so the driving pass
returns 2 although every orientation is a recognised one. -/
theorem orientCellForRow_south_row_reports_failure :
    (orientCellForRow sampleConsts (sampleArch 4 2) (sampleNetwork 1 16) 0 0).map
        (fun res => (res.1, res.2.m_nodes.map Node.currOrient)) = some (false, [64, 16]) ∧
    (orientCellsForRow sampleConsts (sampleArch 4 2) sampleMgr (sampleNetwork 1 16)).map
        (fun res => (res.1, res.2.m_nodes.map Node.currOrient)) = some (2, [64, 4]) := by
  decide

/-- C6, the code at the failing input: the row orientation 2 is none of N, FN, S, FS; the
cell in N is nevertheless mirrored (Y offsets negated, orientation set to FS) while the
call returns `false`, and for a cell in S the call returns `true`. -/
theorem orientCellForRow_unknown_row_mutates :
    ¬ sampleConsts.IsOri 2 ∧
    (orientCellForRow sampleConsts (sampleArch 2 2) (sampleNetwork 1 16) 0 0).map
        (fun res => (res.1, res.2.m_nodes.map Node.currOrient,
          res.2.m_pins.map Pin.offsetY)) = some (false, [64, 16], [-5, -7, 1]) ∧
    (orientCellForRow sampleConsts (sampleArch 2 2) (sampleNetwork 4 16) 0 0).map
        Prod.fst = some true := by
  refine ⟨by decide, ?_, by decide⟩
  simp [orientCellForRow, sampleArch, sampleNetwork, sampleCell, sampleConsts, negateOffsetsY,
    forPins, updPin, Network.setCurrOrient, samplePins]

/-- C7 at a concrete input: a cell in FN in a row in FS. -/
theorem orientFind_predicts_witness :
    sampleConsts.OriOk ∧ PinsOk (sampleNetwork 16 1) (sampleCell 16) ∧
    sampleConsts.IsOri (64 : Nat) ∧ sampleConsts.IsOri (sampleCell 16).currOrient ∧
    ∃ o b nw1 nd1, orientFind sampleConsts (sampleArch 64 2) (sampleNetwork 16 1) 0 0 =
        some (o, sampleNetwork 16 1) ∧
      orientCellForRow sampleConsts (sampleArch 64 2) (sampleNetwork 16 1) 0 0 =
        some (b, nw1) ∧
      nw1.m_nodes[0]? = some nd1 ∧ nd1.currOrient = o :=
  ⟨by decide, by decide, by decide, by decide,
    orientFind_predicts sampleConsts (by decide) (sampleArch 64 2) (sampleNetwork 16 1) 0 0
      ⟨64, 2⟩ (sampleCell 16) rfl rfl (by decide) (by decide) (by decide)⟩

/-- C8 at a concrete input: cell 0 of the sample network from FS to S. -/
theorem orientAdjust_multiplier_algebra_witness :
    PinsOk (sampleNetwork 64 1) (sampleCell 64) ∧
    (ownedPins (sampleNetwork 64 1) (sampleCell 64)).Nodup ∧
    sampleConsts.IsOri (64 : Nat) ∧ sampleConsts.IsOri (4 : Nat) ∧
    ∃ nw1 nd1, orientAdjust sampleConsts (sampleNetwork 64 1) 0 4 = some (false, nw1) ∧
      nw1.m_nodes[0]? = some nd1 ∧
      nd1 = (if specMX sampleConsts 64 * specMX sampleConsts 4 = -1 then
          { sampleCell 64 with
            currOrient := 4, etl := (sampleCell 64).etr, etr := (sampleCell 64).etl }
        else { sampleCell 64 with currOrient := 4 }) ∧
      (∀ a ∈ ownedPins (sampleNetwork 64 1) (sampleCell 64),
        ∃ p, (sampleNetwork 64 1).m_pins[a]? = some p ∧
        nw1.m_pins[a]? = some { p with
          offsetX := if specMX sampleConsts 64 * specMX sampleConsts 4 = -1 then -p.offsetX
            else p.offsetX
          offsetY := if specMY sampleConsts 64 * specMY sampleConsts 4 = -1 then -p.offsetY
            else p.offsetY }) ∧
      (∀ a, a ∉ ownedPins (sampleNetwork 64 1) (sampleCell 64) →
        nw1.m_pins[a]? = (sampleNetwork 64 1).m_pins[a]?) ∧
      (∀ j, j ≠ 0 → nw1.m_nodes[j]? = (sampleNetwork 64 1).m_nodes[j]?) ∧
      ((64 : Nat) = 4 → nw1 = sampleNetwork 64 1) :=
  ⟨by decide, by decide, by decide, by decide,
    orientAdjust_multiplier_algebra sampleConsts (sampleNetwork 64 1) 0 (sampleCell 64) 64 4
      rfl (by decide) (by decide) rfl (by decide) (by decide)⟩

/-- C9 (amended) at a concrete input: row N, cell S. -/
theorem isLegalSym_XY_witness :
    sampleConsts.SymOk ∧
    (((1 : Nat) = sampleConsts.Orientation_N ∨ (1 : Nat) = sampleConsts.Orientation_FS) →
      sampleConsts.IsOri 4 →
      isLegalSym sampleConsts 1 (sampleConsts.Symmetry_X ||| sampleConsts.Symmetry_Y) 4
        = true) ∧
    ((1 : Nat) ≠ sampleConsts.Orientation_N → (1 : Nat) ≠ sampleConsts.Orientation_FS →
      isLegalSym sampleConsts 1 (sampleConsts.Symmetry_X ||| sampleConsts.Symmetry_Y) 4
        = false) :=
  ⟨by decide, isLegalSym_XY sampleConsts (by decide) 1 4⟩

/-- C10 at a concrete input: row N, cell FN. -/
theorem isLegalSym_restricted_sound_witness :
    sampleConsts.SymOk ∧
    (isLegalSym sampleConsts 1 sampleConsts.Symmetry_Y 16 = true →
      (16 : Nat) = 1 ∨ VMirror sampleConsts 1 16) ∧
    (isLegalSym sampleConsts 1 sampleConsts.Symmetry_X 16 = true →
      (16 : Nat) = 1 ∨ HMirror sampleConsts 1 16) ∧
    (isLegalSym sampleConsts 1 sampleConsts.Symmetry_UNKNOWN 16 = true → (16 : Nat) = 1) :=
  ⟨by decide, isLegalSym_restricted_sound sampleConsts (by decide) 1 16⟩


/-! ## The command flag of `run` -/

theorem scanArgs_eq (args : List String) :
    ∀ (n i : Nat) (b : Bool),
      scanArgs args n i b = true ↔
        (b = true ∨ ∃ j, i ≤ j ∧ j < i + n ∧ args[j]? = some "-f")
  | 0, i, b => by
    have : ¬ ∃ j, i ≤ j ∧ j < i + 0 ∧ args[j]? = some "-f" := by
      rintro ⟨j, h1, h2, _⟩; omega
    rw [scanArgs]
    exact ⟨Or.inl, fun h => h.resolve_right this⟩
  | n + 1, i, b => by
    rw [scanArgs, scanArgs_eq args n (i + 1)]
    by_cases hi : args[i]? = some "-f"
    · have : ∃ j, i ≤ j ∧ j < i + (n + 1) ∧ args[j]? = some "-f" :=
        ⟨i, Nat.le_refl i, by omega, hi⟩
      simp [hi, this]
    · have hiff : (∃ j, i + 1 ≤ j ∧ j < i + 1 + n ∧ args[j]? = some "-f") ↔
          ∃ j, i ≤ j ∧ j < i + (n + 1) ∧ args[j]? = some "-f" := by
        constructor
        · rintro ⟨j, h1, h2, h3⟩
          exact ⟨j, by omega, by omega, h3⟩
        · rintro ⟨j, h1, h2, h3⟩
          have : j ≠ i := fun h => hi (h ▸ h3)
          exact ⟨j, by omega, by omega, h3⟩
      simp [hi, hiff]

/-- The flag `doFlip` of `run` is set exactly when `"-f"` occurs after the first
argument. -/
theorem doFlip_iff (args : List String) : doFlip args = true ↔ "-f" ∈ args.tail := by
  unfold doFlip
  rw [scanArgs_eq]
  constructor
  · rintro (h | ⟨j, h1, _, h3⟩)
    · cases h
    · obtain ⟨j, rfl⟩ : ∃ j0, j = j0 + 1 := ⟨j - 1, by omega⟩
      cases args with
      | nil => simp at h3
      | cons a as =>
        simp only [List.getElem?_cons_succ] at h3
        exact List.mem_iff_getElem?.2 ⟨j, h3⟩
  · intro h
    cases args with
    | nil => simp at h
    | cons a as =>
      simp only [List.tail_cons] at h
      obtain ⟨j, hj⟩ := List.mem_iff_getElem?.1 h
      have hlt : j < as.length := by
        rcases Nat.lt_or_ge j as.length with h1 | h1
        · exact h1
        · rw [List.getElem?_eq_none h1] at hj; cases hj
      refine Or.inr ⟨j + 1, by omega, by simp; omega, ?_⟩
      simpa using hj

/-- C15, as amended.  For every argument list `run` first runs the orientation pass
`orientCellsForRow`, and then runs `flipCells` on the resulting network if and only if
`"-f"` occurs at some position after the first one; the first argument is never examined.
The string overload of `run` is `run` on the list of the tokens of the command. -/
theorem run_flag_after_first (k : Consts) (getCellSpacing : Node → Node → ℚ)
    (arch : Architecture) (mgr : DetailedMgr) (self : DetailedOrient) (nw : Network)
    (args : List String) :
    run k getCellSpacing arch mgr self nw args =
      ((orientCellsForRow k arch mgr nw).bind fun res =>
        if "-f" ∈ args.tail then
          (flipCells k getCellSpacing arch mgr self res.2).map fun st => (st.self, st.nw)
        else some (self, res.2)) ∧
    ∀ command : String, runString k getCellSpacing arch mgr self nw command =
      run k getCellSpacing arch mgr self nw (tokenize command) := by
  refine ⟨?_, fun _ => rfl⟩
  unfold run
  cases h : orientCellsForRow k arch mgr nw with
  | none => rfl
  | some res =>
    simp only [Option.bind_eq_bind, Option.some_bind]
    by_cases hf : "-f" ∈ args.tail
    · rw [if_pos hf, if_pos ((doFlip_iff args).2 hf)]
      cases flipCells k getCellSpacing arch mgr self res.2 <;> rfl
    · have : ¬ doFlip args = true := fun h => hf ((doFlip_iff args).1 h)
      rw [if_neg hf, if_neg this]
      rfl

/-- C15, the claim as stated fails: with the argument list `["-f"]` the flag is in the
list (at the first position), yet `run` returns the network of the orientation pass alone,
while `flipCells` on that network would flip cell 0. -/
theorem run_flag_first_position_ignored :
    "-f" ∈ ["-f"] ∧
    run sampleConsts noSpacing (sampleArch 1 2) sampleMgr
        (DetailedOrient.init (flipNetwork 1 1)) (flipNetwork 1 1) ["-f"] =
      (orientCellsForRow sampleConsts (sampleArch 1 2) sampleMgr (flipNetwork 1 1)).map
        (fun res => (DetailedOrient.init (flipNetwork 1 1), res.2)) ∧
    ((orientCellsForRow sampleConsts (sampleArch 1 2) sampleMgr (flipNetwork 1 1)).bind
        fun res => (flipCells sampleConsts noSpacing (sampleArch 1 2) sampleMgr
          (DetailedOrient.init (flipNetwork 1 1)) res.2).map
          fun st => st.nw.m_nodes.map Node.currOrient) = some [16, 1] ∧
    (orientCellsForRow sampleConsts (sampleArch 1 2) sampleMgr (flipNetwork 1 1)).map
        (fun res => res.2.m_nodes.map Node.currOrient) = some [1, 1] := by
  decide!

/-! ## Lemmas on the loops of the flip optimiser -/

/-- Invariant rule for a counted loop whose body always returns inside the range. -/
theorem forLoop_total {σ : Type} (body : σ → Nat → Option σ) (Inv : σ → Prop) :
    ∀ (n i : Nat) (s : σ),
      (∀ j s0, i ≤ j → j < i + n → Inv s0 → ∃ s1, body s0 j = some s1 ∧ Inv s1) →
      Inv s → ∃ s1, forLoop body n i s = some s1 ∧ Inv s1
  | 0, _, s, _, h => ⟨s, rfl, h⟩
  | n + 1, i, s, hstep, h => by
    obtain ⟨s0, h0, hi0⟩ := hstep i s (Nat.le_refl i) (by omega) h
    obtain ⟨s1, h1, hi1⟩ := forLoop_total body Inv n (i + 1) s0
      (fun j t hj1 hj2 ht => hstep j t (by omega) (by omega) ht) hi0
    exact ⟨s1, by simp [forLoop, h0, h1], hi1⟩

theorem forLoop_congr {σ : Type} (body1 body2 : σ → Nat → Option σ) :
    ∀ (n i : Nat) (s : σ), (∀ j s0, i ≤ j → j < i + n → body1 s0 j = body2 s0 j) →
      forLoop body1 n i s = forLoop body2 n i s
  | 0, _, _, _ => rfl
  | n + 1, i, s, h => by
    simp only [forLoop]
    rw [h i s (Nat.le_refl i) (by omega)]
    cases body2 s i with
    | none => rfl
    | some s0 =>
      exact forLoop_congr body1 body2 n (i + 1) s0
        (fun j t hj1 hj2 => h j t (by omega) (by omega))

theorem spanBody_isSome {nw : Network} {ndi : Nat} {pj : Nat}
    (h : ∃ b p nd, nw.m_edgePins[pj]? = some b ∧ nw.m_pins[b]? = some p ∧
      nw.m_nodes[p.nodeId]? = some nd) (acc : Extremes) :
    ∃ acc1, spanBody nw ndi acc pj = some acc1 := by
  obtain ⟨b, p, nd, h1, h2, h3⟩ := h
  unfold spanBody
  simp only [h1, h2, h3, Option.bind_eq_bind, Option.some_bind]
  split_ifs <;> exact ⟨_, rfl⟩

/-- The loop over the pins of a valid net returns. -/
theorem spanLoop_isSome {nw : Network} (ndi : Nat) {edi : Edge} (h : EdgePinsOk nw edi) :
    ∃ ext, spanLoop nw ndi edi = some ext := by
  obtain ⟨ext, hext, _⟩ := forLoop_total (spanBody nw ndi) (fun _ => True)
    (edi.lastPinIdx - edi.firstPinIdx) edi.firstPinIdx Extremes.init
    (fun j s0 h1 h2 _ => by
      obtain ⟨s1, hs1⟩ := spanBody_isSome (h j h1 (by omega)) s0
      exact ⟨s1, hs1, trivial⟩) trivial
  exact ⟨ext, hext⟩

/-- Closed form of a branch that commits a flip. -/
theorem commitFlip_eq {nw : Network} {ndi : Nat} {nd : Node} (o : Nat)
    (hnd : nw.m_nodes[ndi]? = some nd) (hp : PinsOk nw nd) :
    commitFlip nw ndi nd o = some (nw.withCell negX nd ndi
      { nd with currOrient := o, etl := nd.etr, etr := nd.etl }) := by
  have hlt : ndi < nw.m_nodes.length := lt_of_getElem?_eq_some hnd
  unfold commitFlip
  simp only [forPins_cell _ nw nd hp, Option.bind_eq_bind, Option.some_bind,
    Network.swapEdgeTypes, Network.setCurrOrient, hnd, Network.withCell]
  simp [hlt]

/-- Closed form of the body of the loop over the cells, given the values it reads. -/
theorem flipCell_eq (k : Consts) (getCellSpacing : Node → Node → ℚ) (segment : DetailedSeg)
    {nodes : List Nat} {i : Nat} {st : FlipState} {ndi : Nat} {nd : Node}
    {ndl ndr : Option Node} {acc : WlAcc}
    (hndi : nodes[i]? = some ndi) (hnd : st.nw.m_nodes[ndi]? = some nd)
    (hl : neighbour st.nw nodes (i = 0) (i - 1) = some ndl)
    (hr : neighbour st.nw nodes (i = nodes.length - 1) (i + 1) = some ndr)
    (hwl : wlLoop st.self.m_skipNetsLargerThanThis st.nw ndi nd (st.self.m_traversal + 1)
      st.self.m_edgeMask = some acc)
    (hp : PinsOk st.nw nd) :
    flipCell k getCellSpacing segment nodes i st = some (
      if gapl getCellSpacing ndl nd > spacel segment ndl nd ∨
          gapr getCellSpacing nd ndr > spacer segment nd ndr then st
      else if acc.new_wl < acc.old_wl ∧ k.IsOri nd.currOrient then
        ⟨st.nflips + 1,
          { st.self with
            m_traversal := st.self.m_traversal + 1, m_edgeMask := acc.m_edgeMask },
          st.nw.withCell negX nd ndi (flippedNode k nd)⟩
      else
        ⟨st.nflips,
          { st.self with
            m_traversal := st.self.m_traversal + 1, m_edgeMask := acc.m_edgeMask },
          st.nw⟩) := by
  unfold flipCell
  simp only [hndi, hnd, hl, hr, hwl, Option.bind_eq_bind, Option.some_bind,
    commitFlip_eq _ hnd hp, flippedNode, specVMirror, Consts.IsOri]
  split_ifs <;> first | rfl | (exfalso; tauto)

theorem spanLoop_aux (nw : Network) (ndi : Nat) :
    ∀ (n i : Nat) (acc ext : Extremes), forLoop (spanBody nw ndi) n i acc = some ext →
      ext = ⟨((List.range' i n).filterMap (coordAt nw)).foldl min acc.old_xmin,
        ((List.range' i n).filterMap (coordAt nw)).foldl max acc.old_xmax,
        ((List.range' i n).filterMap (hypCoordAt nw ndi)).foldl min acc.new_xmin,
        ((List.range' i n).filterMap (hypCoordAt nw ndi)).foldl max acc.new_xmax⟩
  | 0, i, acc, ext, h => by
    simp only [forLoop, Option.some.injEq] at h
    subst h
    rfl
  | n + 1, i, acc, ext, h => by
    simp only [forLoop] at h
    cases hb : spanBody nw ndi acc i with
    | none => simp [hb] at h
    | some acc1 =>
      simp only [hb, Option.some_bind] at h
      have ih := spanLoop_aux nw ndi n (i + 1) acc1 ext h
      rw [ih]
      unfold spanBody at hb
      cases h1 : nw.m_edgePins[i]? with
      | none => simp [h1] at hb
      | some b =>
        cases h2 : nw.m_pins[b]? with
        | none => simp [h1, h2] at hb
        | some p =>
          cases h3 : nw.m_nodes[p.nodeId]? with
          | none => simp [h1, h2, h3] at hb
          | some nd =>
            simp only [h1, h2, h3, Option.bind_eq_bind, Option.some_bind] at hb
            have hc : coordAt nw i = some (fadd nd.x p.offsetX) := by
              simp [coordAt, h1, h2, h3]
            have hh : hypCoordAt nw ndi i =
                some (if p.nodeId = ndi then fsub nd.x p.offsetX else fadd nd.x p.offsetX) := by
              simp [hypCoordAt, h1, h2, h3]
            simp only [List.range'_succ, List.filterMap_cons, hc, hh, List.foldl_cons]
            split_ifs at hb with hq <;> simp only [pure, Option.some.injEq] at hb <;>
              subst hb <;> simp [hq]

/-- The extremes computed by the loop over the pins of a net give the spans `netSpan` and
`hypSpan`. -/
theorem spanLoop_spans {nw : Network} {ndi e : Nat} {edi : Edge} {ext : Extremes}
    (he : nw.m_edges[e]? = some edi) (h : spanLoop nw ndi edi = some ext) :
    fsub ext.old_xmax ext.old_xmin = netSpan nw e ∧
      fsub ext.new_xmax ext.new_xmin = hypSpan nw ndi e := by
  have := spanLoop_aux nw ndi _ _ _ _ h
  rw [this]
  simp [netSpan, hypSpan, he, spanOf, Extremes.init]

/-- Loop invariant of the wirelength evaluation.  `seen` lists the nets whose mark equals
the traversal counter before the loop; `new` lists the nets evaluated by the loop. -/
theorem wlLoop_aux (skip : Int) (nw : Network) (ndi trav : Nat) :
    ∀ (n pi : Nat) (acc : WlAcc) (seen : List Nat),
      (∀ j, pi ≤ j → j < pi + n →
        ∃ a p edi, nw.m_nodePins[j]? = some a ∧ nw.m_pins[a]? = some p ∧
          nw.m_edges[p.edgeId]? = some edi ∧ edi.id = p.edgeId ∧
          p.edgeId < acc.m_edgeMask.length ∧ EdgePinsOk nw edi) →
      (∀ e, e < acc.m_edgeMask.length → (acc.m_edgeMask[e]? = some trav ↔ e ∈ seen)) →
      seen.Nodup →
      ∃ acc1 new, forLoop (wlBody skip nw ndi trav) n pi acc = some acc1 ∧
        (seen ++ new).Nodup ∧
        (∀ e, e ∈ new ↔ e ∉ seen ∧ SmallNet skip nw e ∧
          ∃ j, pi ≤ j ∧ j < pi + n ∧
            ∃ a p, nw.m_nodePins[j]? = some a ∧ nw.m_pins[a]? = some p ∧ p.edgeId = e) ∧
        acc1.old_wl = wlSum (netSpan nw) acc.old_wl new ∧
        acc1.new_wl = wlSum (hypSpan nw ndi) acc.new_wl new ∧
        acc1.m_edgeMask.length = acc.m_edgeMask.length ∧
        (∀ e, acc1.m_edgeMask[e]? = if e ∈ new then some trav else acc.m_edgeMask[e]?)
  | 0, pi, acc, seen, _, _, hnodup => by
    refine ⟨acc, [], rfl, by simpa using hnodup, ?_, rfl, rfl, rfl, by simp⟩
    intro e
    constructor
    · intro h; cases h
    · rintro ⟨_, _, j, h1, h2, _⟩; omega
  | n + 1, pi, acc, seen, hvalid, hseen, hnodup => by
    obtain ⟨a, p, edi, h1, h2, h3, h4, h5, h6⟩ := hvalid pi (Nat.le_refl pi) (by omega)
    have hvalid' : ∀ (m : List Nat), m.length = acc.m_edgeMask.length →
        ∀ j, pi + 1 ≤ j → j < pi + 1 + n →
        ∃ a p edi, nw.m_nodePins[j]? = some a ∧ nw.m_pins[a]? = some p ∧
          nw.m_edges[p.edgeId]? = some edi ∧ edi.id = p.edgeId ∧
          p.edgeId < m.length ∧ EdgePinsOk nw edi := by
      intro m hm j hj1 hj2
      rw [hm]
      exact hvalid j (by omega) (by omega)
    -- the three cases of the body at index `pi`
    by_cases hsmall : edi.numPins ≤ 1 ∨ edi.numPins ≥ skip
    · -- the net is skipped for its size
      have hbody : wlBody skip nw ndi trav acc pi = some acc := by
        simp [wlBody, h1, h2, h3, hsmall]
      obtain ⟨acc1, new, r1, r2, r3, r4, r5, r6, r7⟩ :=
        wlLoop_aux skip nw ndi trav n (pi + 1) acc seen (hvalid' _ rfl) hseen hnodup
      refine ⟨acc1, new, by simp [forLoop, hbody, r1], r2, ?_, r4, r5, r6, r7⟩
      intro e
      rw [r3 e]
      constructor
      · rintro ⟨g1, g2, j, g3, g4, g5⟩
        exact ⟨g1, g2, j, by omega, by omega, g5⟩
      · rintro ⟨g1, g2, j, g3, g4, a', p', g5, g6, g7⟩
        refine ⟨g1, g2, j, ?_, by omega, a', p', g5, g6, g7⟩
        by_contra hlt
        have hj : j = pi := by omega
        subst hj
        rw [h1] at g5; cases g5
        rw [h2] at g6; cases g6
        subst g7
        obtain ⟨edi', q1, q2, q3⟩ := g2
        rw [h3] at q1; cases q1
        rcases hsmall with hs | hs <;> omega
    · have hm : ∃ m, acc.m_edgeMask[edi.id]? = some m := by
        rw [h4]
        exact ⟨_, List.getElem?_eq_getElem h5⟩
      obtain ⟨m, hm⟩ := hm
      have hsm : SmallNet skip nw p.edgeId := ⟨edi, h3, by omega, by omega⟩
      by_cases hmt : m = trav
      · -- the net was already evaluated for this cell
        have hbody : wlBody skip nw ndi trav acc pi = some acc := by
          simp [wlBody, h1, h2, h3, hsmall, hm, hmt]
        have hin : p.edgeId ∈ seen := by
          rw [← hseen _ h5, ← h4, hm, hmt]
        obtain ⟨acc1, new, r1, r2, r3, r4, r5, r6, r7⟩ :=
          wlLoop_aux skip nw ndi trav n (pi + 1) acc seen (hvalid' _ rfl) hseen hnodup
        refine ⟨acc1, new, by simp [forLoop, hbody, r1], r2, ?_, r4, r5, r6, r7⟩
        intro e
        rw [r3 e]
        constructor
        · rintro ⟨g1, g2, j, g3, g4, g5⟩
          exact ⟨g1, g2, j, by omega, by omega, g5⟩
        · rintro ⟨g1, g2, j, g3, g4, a', p', g5, g6, g7⟩
          refine ⟨g1, g2, j, ?_, by omega, a', p', g5, g6, g7⟩
          by_contra hlt
          have hj : j = pi := by omega
          subst hj
          rw [h1] at g5; cases g5
          rw [h2] at g6; cases g6
          subst g7
          exact g1 hin
      · -- the net is evaluated now
        obtain ⟨ext, hext⟩ := spanLoop_isSome ndi h6
        obtain ⟨sp1, sp2⟩ := spanLoop_spans h3 hext
        have hbody : wlBody skip nw ndi trav acc pi =
            some ⟨fadd acc.old_wl (netSpan nw p.edgeId),
              fadd acc.new_wl (hypSpan nw ndi p.edgeId),
              acc.m_edgeMask.set p.edgeId trav⟩ := by
          have hm' : acc.m_edgeMask[p.edgeId]? = some m := h4 ▸ hm
          simp [wlBody, h1, h2, h3, hsmall, hm', hmt, hext, sp1, sp2, h4]
        have hnotin : p.edgeId ∉ seen := by
          intro hin
          rw [← hseen _ h5, ← h4, hm] at hin
          exact hmt (Option.some.inj hin)
        have hseen' : ∀ e, e < (acc.m_edgeMask.set p.edgeId trav).length →
            ((acc.m_edgeMask.set p.edgeId trav)[e]? = some trav ↔ e ∈ seen ++ [p.edgeId]) := by
          intro e he
          rw [List.length_set] at he
          rw [List.getElem?_set]
          by_cases hee : p.edgeId = e
          · subst hee; simp [h5]
          · rw [if_neg hee, hseen e he]
            simp [Ne.symm hee]
        have hnodup' : (seen ++ [p.edgeId]).Nodup := by
          rw [List.nodup_append]
          exact ⟨hnodup, List.nodup_singleton _, by
            intro x hx1 hx2
            rw [List.mem_singleton] at hx2
            exact hnotin (hx2 ▸ hx1)⟩
        obtain ⟨acc1, new, r1, r2, r3, r4, r5, r6, r7⟩ :=
          wlLoop_aux skip nw ndi trav n (pi + 1)
            ⟨fadd acc.old_wl (netSpan nw p.edgeId), fadd acc.new_wl (hypSpan nw ndi p.edgeId),
              acc.m_edgeMask.set p.edgeId trav⟩ (seen ++ [p.edgeId])
            (hvalid' _ (List.length_set ..)) hseen' hnodup'
        have r2' : (seen ++ p.edgeId :: new).Nodup := by
          simpa [List.append_assoc] using r2
        have hnew : p.edgeId ∉ new := by
          intro hin
          have := (r3 _).1 hin
          exact this.1 (by simp)
        refine ⟨acc1, p.edgeId :: new, by simp [forLoop, hbody, r1], r2', ?_, ?_, ?_, ?_, ?_⟩
        · intro e
          rw [List.mem_cons, r3 e]
          constructor
          · rintro (rfl | ⟨g1, g2, j, g3, g4, g5⟩)
            · exact ⟨hnotin, hsm, pi, Nat.le_refl pi, by omega, a, p, h1, h2, rfl⟩
            · exact ⟨fun h => g1 (List.mem_append_left _ h), g2, j, by omega, by omega, g5⟩
          · rintro ⟨g1, g2, j, g3, g4, a', p', g5, g6, g7⟩
            by_cases hee : e = p.edgeId
            · exact Or.inl hee
            · refine Or.inr ⟨?_, g2, j, ?_, by omega, a', p', g5, g6, g7⟩
              · simp [g1, hee]
              · by_contra hlt
                have hj : j = pi := by omega
                subst hj
                rw [h1] at g5; cases g5
                rw [h2] at g6; cases g6
                exact hee g7.symm
        · rw [r4]; rfl
        · rw [r5]; rfl
        · rw [r6, List.length_set]
        · intro e
          rw [r7 e]
          by_cases hee : e = p.edgeId
          · subst hee
            simp [hnew, h5]
          · simp [hee, List.getElem?_set_ne (Ne.symm hee)]

/-! ## Networks of the same shape -/

theorem SameShape.refl (nw : Network) : SameShape nw nw := ⟨rfl, rfl, rfl, rfl, rfl⟩

theorem SameShape.symm {nw nw1 : Network} (h : SameShape nw nw1) : SameShape nw1 nw :=
  ⟨h.1.symm, h.2.1.symm, h.2.2.1.symm, h.2.2.2.1.symm, h.2.2.2.2.symm⟩

theorem SameShape.trans {nw nw1 nw2 : Network} (h : SameShape nw nw1)
    (h1 : SameShape nw1 nw2) : SameShape nw nw2 :=
  ⟨h1.1.trans h.1, h1.2.1.trans h.2.1, h1.2.2.1.trans h.2.2.1,
    h1.2.2.2.1.trans h.2.2.2.1, h1.2.2.2.2.trans h.2.2.2.2⟩

theorem SameShape.node {nw nw1 : Network} (h : SameShape nw nw1) {c : Nat} {nd : Node}
    (hnd : nw.m_nodes[c]? = some nd) :
    ∃ nd1, nw1.m_nodes[c]? = some nd1 ∧ nd1.shape = nd.shape := by
  have := congrArg (fun l => l[c]?) h.1
  simp only [List.getElem?_map, hnd, Option.map_some'] at this
  cases h1 : nw1.m_nodes[c]? with
  | none => simp [h1] at this
  | some nd1 =>
    simp only [h1, Option.map_some', Option.some.injEq] at this
    exact ⟨nd1, rfl, this⟩

theorem SameShape.pin {nw nw1 : Network} (h : SameShape nw nw1) {a : Nat} {p : Pin}
    (hp : nw.m_pins[a]? = some p) :
    ∃ p1, nw1.m_pins[a]? = some p1 ∧ p1.shape = p.shape := by
  have := congrArg (fun l => l[a]?) h.2.1
  simp only [List.getElem?_map, hp, Option.map_some'] at this
  cases h1 : nw1.m_pins[a]? with
  | none => simp [h1] at this
  | some p1 =>
    simp only [h1, Option.map_some', Option.some.injEq] at this
    exact ⟨p1, rfl, this⟩

theorem node_shape_eq {nd nd1 : Node} (h : nd1.shape = nd.shape) :
    nd1.id = nd.id ∧ nd1.x = nd.x ∧ nd1.width = nd.width ∧
      nd1.firstPinIdx = nd.firstPinIdx ∧ nd1.lastPinIdx = nd.lastPinIdx := by
  cases nd; cases nd1
  simp only [Node.shape, Node.mk.injEq] at h
  simp [h]

theorem pin_shape_eq {p p1 : Pin} (h : p1.shape = p.shape) :
    p1.nodeId = p.nodeId ∧ p1.edgeId = p.edgeId := by
  cases p; cases p1
  simp only [Pin.shape, Pin.mk.injEq] at h
  simp [h]

theorem ownedPins_congr {nw nw1 : Network} {nd nd1 : Node}
    (h : nw1.m_nodePins = nw.m_nodePins) (h1 : nd1.firstPinIdx = nd.firstPinIdx)
    (h2 : nd1.lastPinIdx = nd.lastPinIdx) : ownedPins nw1 nd1 = ownedPins nw nd := by
  simp [ownedPins, h, h1, h2]

theorem SameShape.edgePinsOk {nw nw1 : Network} (h : SameShape nw nw1) {edi : Edge}
    (he : EdgePinsOk nw edi) : EdgePinsOk nw1 edi := by
  intro pj h1 h2
  obtain ⟨b, p, nd, g1, g2, g3⟩ := he pj h1 h2
  obtain ⟨p1, q1, q2⟩ := h.pin g2
  obtain ⟨q3, _⟩ := pin_shape_eq q2
  obtain ⟨nd1, q4, _⟩ := h.node g3
  exact ⟨b, p1, nd1, by rw [h.2.2.2.2, g1], q1, by rw [q3, q4]⟩

theorem SameShape.wlPinsOk {nw nw1 : Network} (h : SameShape nw nw1) {maskLen : Nat}
    {nd nd1 : Node} (hs : nd1.shape = nd.shape) (hw : WlPinsOk nw maskLen nd) :
    WlPinsOk nw1 maskLen nd1 := by
  obtain ⟨_, _, _, e1, e2⟩ := node_shape_eq hs
  intro pi h1 h2
  obtain ⟨a, p, edi, g1, g2, g3, g4, g5, g6⟩ := hw pi (by omega) (by omega)
  obtain ⟨p1, q1, q2⟩ := h.pin g2
  obtain ⟨_, q3⟩ := pin_shape_eq q2
  exact ⟨a, p1, edi, by rw [h.2.2.2.1, g1], q1, by rw [h.2.2.1, q3, g3], by rw [q3, g4],
    by rw [q3]; exact g5, h.edgePinsOk g6⟩

/-- A well-formed design stays well-formed when the network is replaced by one of the same
shape. -/
theorem DesignOk.of_sameShape {arch : Architecture} {mgr : DetailedMgr} {nw nw1 : Network}
    {maskLen : Nat} (hd : DesignOk arch mgr nw maskLen) (h : SameShape nw nw1) :
    DesignOk arch mgr nw1 maskLen where
  seg_row := hd.seg_row
  seg_cells := by
    intro seg hseg
    obtain ⟨nodes, h1, h2⟩ := hd.seg_cells seg hseg
    have hlen : nw1.m_nodes.length = nw.m_nodes.length := by
      simpa using congrArg List.length h.1
    exact ⟨nodes, h1, fun c hc => by rw [hlen]; exact h2 c hc⟩
  wl := by
    intro c nd1 hnd1
    obtain ⟨nd, g1, g2⟩ := h.symm.node hnd1
    exact h.wlPinsOk g2.symm (hd.wl c nd g1)
  nodup := by
    intro c nd1 hnd1
    obtain ⟨nd, g1, g2⟩ := h.symm.node hnd1
    obtain ⟨_, _, _, e1, e2⟩ := node_shape_eq g2
    rw [ownedPins_congr h.2.2.2.1 e1.symm e2.symm]
    exact hd.nodup c nd g1
  owner := by
    intro c nd1 a p1 hnd1 hp1
    obtain ⟨nd, g1, g2⟩ := h.symm.node hnd1
    obtain ⟨_, _, _, e1, e2⟩ := node_shape_eq g2
    obtain ⟨p, q1, q2⟩ := h.symm.pin hp1
    obtain ⟨q3, _⟩ := pin_shape_eq q2
    rw [ownedPins_congr h.2.2.2.1 e1.symm e2.symm, ← q3]
    exact hd.owner c nd a p g1 q1

theorem WlPinsOk.pinsOk {nw : Network} {maskLen : Nat} {nd : Node}
    (h : WlPinsOk nw maskLen nd) : PinsOk nw nd := by
  intro pi h1 h2
  obtain ⟨a, p, _, g1, g2, _⟩ := h pi h2 h1
  simp [PinIdxOk, g1, g2]

/-- Replacing a cell by one of the same shape and rewriting its pins by a function that
keeps the owner and the net of a pin gives a network of the same shape. -/
theorem sameShape_withCell {nw : Network} {ndi : Nat} {nd : Node} (f : Pin → Pin)
    (nd1 : Node) (hf : ∀ p, (f p).shape = p.shape) (hnd : nw.m_nodes[ndi]? = some nd)
    (hs : nd1.shape = nd.shape) : SameShape nw (nw.withCell f nd ndi nd1) := by
  refine ⟨?_, ?_, rfl, rfl, rfl⟩
  · apply List.ext_getElem?
    intro j
    simp only [Network.withCell, List.getElem?_map, List.getElem?_set']
    by_cases hj : ndi = j
    · subst hj; simp [hnd, hs]
    · simp [hj]
  · apply List.ext_getElem?
    intro j
    simp only [Network.withCell, List.getElem?_map, getElem?_applyAt]
    cases nw.m_pins[j]? with
    | none => rfl
    | some p =>
      simp only [Option.map_some', Option.some.injEq]
      generalize List.count j (ownedPins nw nd) = n
      induction n generalizing p with
      | zero => rfl
      | succ n ih => rw [Function.iterate_succ_apply, ih, hf]

theorem negX_shape (p : Pin) : (negX p).shape = p.shape := rfl

theorem negY_shape (p : Pin) : (negY p).shape = p.shape := rfl

theorem adjustPin_shape (mX mY : Int) (p : Pin) : (adjustPin mX mY p).shape = p.shape := by
  unfold adjustPin
  split_ifs <;> rfl

/-! ## One visit of the flip optimiser -/

/-- The wirelength evaluation of a valid cell whose marks are all below the counter
returns; it sums the current and the hypothetical span of a duplicate-free list `nets`
holding exactly the nets that touch the cell and have more than one and fewer than
`skip` pins; the marks of these nets become the counter, the other marks are kept. -/
theorem wlLoop_spec (skip : Int) {nw : Network} (ndi : Nat) {nd : Node} {trav : Nat}
    {mask : List Nat} (hv : WlPinsOk nw mask.length nd) (hm : ∀ m ∈ mask, m < trav) :
    ∃ (acc : WlAcc) (nets : List Nat), wlLoop skip nw ndi nd trav mask = some acc ∧
      nets.Nodup ∧
      (∀ e, e ∈ nets ↔ Touches nw nd e ∧ SmallNet skip nw e) ∧
      acc.old_wl = wlSum (netSpan nw) 0 nets ∧
      acc.new_wl = wlSum (hypSpan nw ndi) 0 nets ∧
      acc.m_edgeMask.length = mask.length ∧
      (∀ e, acc.m_edgeMask[e]? = if e ∈ nets then some trav else mask[e]?) := by
  have hseen : ∀ e, e < mask.length → (mask[e]? = some trav ↔ e ∈ ([] : List Nat)) := by
    intro e he
    constructor
    · intro h
      have := hm trav (List.getElem?_mem h)
      omega
    · intro h; cases h
  obtain ⟨acc, nets, r1, r2, r3, r4, r5, r6, r7⟩ :=
    wlLoop_aux skip nw ndi trav (nd.lastPinIdx - nd.firstPinIdx) nd.firstPinIdx
      ⟨0, 0, mask⟩ [] (fun j h1 h2 => hv j h1 (by omega)) hseen List.nodup_nil
  refine ⟨acc, nets, r1, by simpa using r2, ?_, by simpa using r4, by simpa using r5, r6, r7⟩
  intro e
  rw [r3 e]
  constructor
  · rintro ⟨_, g2, j, g3, g4, a, p, g5, g6, g7⟩
    refine ⟨⟨a, ?_, p, g6, g7⟩, g2⟩
    simp only [ownedPins, List.mem_filterMap, List.mem_range'_1]
    exact ⟨j, ⟨g3, by omega⟩, g5⟩
  · rintro ⟨⟨a, g1, p, g2, g3⟩, g4⟩
    simp only [ownedPins, List.mem_filterMap, List.mem_range'_1] at g1
    obtain ⟨j, ⟨q1, q2⟩, q3⟩ := g1
    exact ⟨by simp, g4, j, q1, by omega, a, p, q3, g2, g3⟩

theorem neighbour_isSome {nw : Network} {nodes : List Nat} (isNull : Bool) {j : Nat}
    (hnodes : ∀ c ∈ nodes, c < nw.m_nodes.length) (hj : isNull = false → j < nodes.length) :
    ∃ r, neighbour nw nodes isNull j = some r := by
  unfold neighbour
  cases isNull with
  | true => exact ⟨none, rfl⟩
  | false =>
    have hlt := hj rfl
    have h1 : nodes[j]? = some nodes[j] := List.getElem?_eq_getElem hlt
    have h2lt : nodes[j] < nw.m_nodes.length := hnodes _ (List.getElem_mem hlt)
    have h2 : nw.m_nodes[nodes[j]]? = some nw.m_nodes[nodes[j]] := List.getElem?_eq_getElem h2lt
    exact ⟨some nw.m_nodes[nodes[j]], by simp [h1, h2]⟩

/-- The body of the loop over the cells on a well-formed design whose marks are at most
the counter: the values it reads exist, its wirelength evaluation sums each small net
touching the cell once, and its result is `visitResult`. -/
theorem flipCell_spec (k : Consts) (getCellSpacing : Node → Node → ℚ) {arch : Architecture}
    {mgr : DetailedMgr} (segment : DetailedSeg) {nodes : List Nat} {i : Nat} {st : FlipState}
    (hd : DesignOk arch mgr st.nw st.self.m_edgeMask.length)
    (hnodes : ∀ c ∈ nodes, c < st.nw.m_nodes.length) (hi : i < nodes.length)
    (hmask : MaskInv st.self) :
    ∃ (ndi : Nat) (nd : Node) (ndl ndr : Option Node) (acc : WlAcc) (nets : List Nat),
      nodes[i]? = some ndi ∧ st.nw.m_nodes[ndi]? = some nd ∧
      neighbour st.nw nodes (i = 0) (i - 1) = some ndl ∧
      neighbour st.nw nodes (i = nodes.length - 1) (i + 1) = some ndr ∧
      wlLoop st.self.m_skipNetsLargerThanThis st.nw ndi nd (st.self.m_traversal + 1)
        st.self.m_edgeMask = some acc ∧
      nets.Nodup ∧
      (∀ e, e ∈ nets ↔
        Touches st.nw nd e ∧ SmallNet st.self.m_skipNetsLargerThanThis st.nw e) ∧
      acc.old_wl = wlSum (netSpan st.nw) 0 nets ∧
      acc.new_wl = wlSum (hypSpan st.nw ndi) 0 nets ∧
      acc.m_edgeMask.length = st.self.m_edgeMask.length ∧
      (∀ m ∈ acc.m_edgeMask, m ≤ st.self.m_traversal + 1) ∧
      flipCell k getCellSpacing segment nodes i st =
        some (visitResult k getCellSpacing segment st ndi nd ndl ndr acc) := by
  have h1 : nodes[i]? = some nodes[i] := List.getElem?_eq_getElem hi
  have h2lt : nodes[i] < st.nw.m_nodes.length := hnodes _ (List.getElem_mem hi)
  have h2 : st.nw.m_nodes[nodes[i]]? = some st.nw.m_nodes[nodes[i]] :=
    List.getElem?_eq_getElem h2lt
  obtain ⟨ndl, hl⟩ := neighbour_isSome (decide (i = 0)) (j := i - 1) hnodes
    (fun h => by simp at h; omega)
  obtain ⟨ndr, hr⟩ := neighbour_isSome (decide (i = nodes.length - 1)) (j := i + 1) hnodes
    (fun h => by simp at h; omega)
  have hw := hd.wl _ _ h2
  obtain ⟨acc, nets, r1, r2, r3, r4, r5, r6, r7⟩ :=
    @wlLoop_spec st.self.m_skipNetsLargerThanThis _ nodes[i] _ (st.self.m_traversal + 1) _
      hw (fun m hm => Nat.lt_succ_of_le (hmask m hm))
  refine ⟨_, _, ndl, ndr, acc, nets, h1, h2, hl, hr, r1, r2, r3, r4, r5, r6, ?_, ?_⟩
  · intro m hm
    obtain ⟨e, he⟩ := List.mem_iff_getElem?.1 hm
    rw [r7 e] at he
    split_ifs at he
    · cases he; exact Nat.le_refl _
    · exact Nat.le_succ_of_le (hmask m (List.getElem?_mem he))
  · exact flipCell_eq k getCellSpacing segment h1 h2 hl hr r1 hw.pinsOk

theorem flippedNode_shape (k : Consts) (nd : Node) : (flippedNode k nd).shape = nd.shape :=
  rfl

theorem specVMirror_ne (k : Consts) (hk : k.OriOk) {o : Nat} (ho : k.IsOri o) :
    specVMirror k o ≠ o := by
  obtain ⟨h1, h2, h3, h4, h5, h6, _⟩ := hk
  unfold Consts.IsOri at ho
  unfold specVMirror
  rcases ho with h | h | h | h <;> subst h <;> split_ifs <;> omega

theorem visitResult_cases (k : Consts) (hk : k.OriOk)
    (getCellSpacing : Node → Node → ℚ) (segment : DetailedSeg) (st : FlipState) {ndi : Nat}
    {nd : Node} (ndl ndr : Option Node) (acc : WlAcc)
    (hnd : st.nw.m_nodes[ndi]? = some nd) :
    ((visitResult k getCellSpacing segment st ndi nd ndl ndr acc).nflips = st.nflips + 1 ∧
      (visitResult k getCellSpacing segment st ndi nd ndl ndr acc).nw ≠ st.nw) ∨
    ((visitResult k getCellSpacing segment st ndi nd ndl ndr acc).nflips = st.nflips ∧
      (visitResult k getCellSpacing segment st ndi nd ndl ndr acc).nw = st.nw) := by
  unfold visitResult
  split_ifs with h1 h2
  · exact Or.inr ⟨rfl, rfl⟩
  · refine Or.inl ⟨rfl, ?_⟩
    intro heq
    have := congrArg (fun n => n.m_nodes[ndi]?) heq
    simp only [Network.withCell, hnd, List.getElem?_set_self (lt_of_getElem?_eq_some hnd),
      Option.some.injEq] at this
    have ho := congrArg Node.currOrient this
    exact specVMirror_ne k hk h2.2 ho
  · exact Or.inr ⟨rfl, rfl⟩

theorem visitResult_sameShape (k : Consts) (getCellSpacing : Node → Node → ℚ)
    (segment : DetailedSeg) (st : FlipState) {ndi : Nat} {nd : Node} (ndl ndr : Option Node)
    (acc : WlAcc) (hnd : st.nw.m_nodes[ndi]? = some nd) :
    SameShape st.nw (visitResult k getCellSpacing segment st ndi nd ndl ndr acc).nw := by
  unfold visitResult
  split_ifs
  · exact SameShape.refl _
  · exact sameShape_withCell negX _ negX_shape hnd (flippedNode_shape k nd)
  · exact SameShape.refl _

theorem visitResult_self (k : Consts) (getCellSpacing : Node → Node → ℚ)
    (segment : DetailedSeg) (st : FlipState) (ndi : Nat) (nd : Node) (ndl ndr : Option Node)
    {acc : WlAcc} (hlen : acc.m_edgeMask.length = st.self.m_edgeMask.length)
    (hle : ∀ m ∈ acc.m_edgeMask, m ≤ st.self.m_traversal + 1) (hmask : MaskInv st.self) :
    (visitResult k getCellSpacing segment st ndi nd ndl ndr acc).self.m_edgeMask.length =
        st.self.m_edgeMask.length ∧
      (visitResult k getCellSpacing segment st ndi nd ndl ndr acc).self.m_skipNetsLargerThanThis
        = st.self.m_skipNetsLargerThanThis ∧
      MaskInv (visitResult k getCellSpacing segment st ndi nd ndl ndr acc).self := by
  unfold visitResult
  split_ifs
  · exact ⟨rfl, rfl, hmask⟩
  · exact ⟨hlen, rfl, hle⟩
  · exact ⟨hlen, rfl, hle⟩

/-! ## The loops over segments and cells -/

/-- Invariant rule for the loops of `flipCells`: if the body returns and keeps the
invariant for every cell of every segment whose row has Y symmetry, the loops return and
keep the invariant. -/
theorem flipSegs_total {σ : Type} (k : Consts) (arch : Architecture) (mgr : DetailedMgr)
    (body : DetailedSeg → List Nat → Nat → σ → Option σ) (Inv : σ → Prop) :
    ∀ (segs : List DetailedSeg) (s : σ),
      (∀ seg ∈ segs, ∃ r, arch.m_rows[seg.rowId]? = some r ∧
        (r.m_siteSymmetry &&& k.Symmetry_Y ≠ 0 →
          ∃ nodes, mgr.m_cellsInSeg[seg.segId]? = some nodes ∧
            ∀ i s0, i < nodes.length → Inv s0 →
              ∃ s1, body seg nodes i s0 = some s1 ∧ Inv s1)) →
      Inv s → ∃ s1, flipSegs k arch mgr body segs s = some s1 ∧ Inv s1
  | [], s, _, h => ⟨s, rfl, h⟩
  | seg :: rest, s, hstep, h => by
    obtain ⟨r, hr, hy⟩ := hstep seg (List.mem_cons_self _ _)
    have hrest : ∀ seg0 ∈ rest, ∃ r, arch.m_rows[seg0.rowId]? = some r ∧
        (r.m_siteSymmetry &&& k.Symmetry_Y ≠ 0 →
          ∃ nodes, mgr.m_cellsInSeg[seg0.segId]? = some nodes ∧
            ∀ i s0, i < nodes.length → Inv s0 →
              ∃ s1, body seg0 nodes i s0 = some s1 ∧ Inv s1) :=
      fun seg0 h0 => hstep seg0 (List.mem_cons_of_mem _ h0)
    by_cases hsym : r.m_siteSymmetry &&& k.Symmetry_Y = 0
    · obtain ⟨s1, h1, h2⟩ := flipSegs_total k arch mgr body Inv rest s hrest h
      exact ⟨s1, by simp [flipSegs, hr, hsym, h1], h2⟩
    · obtain ⟨nodes, hn, hb⟩ := hy hsym
      obtain ⟨s0, h0, hi0⟩ := forLoop_total (fun s i => body seg nodes i s) Inv
        nodes.length 0 s (fun j t _ hj ht => hb j t (by omega) ht) h
      obtain ⟨s1, h1, h2⟩ := flipSegs_total k arch mgr body Inv rest s0 hrest hi0
      exact ⟨s1, by simp [flipSegs, hr, hsym, hn, h0, h1], h2⟩

theorem forLoop_logged (body : DetailedSeg → List Nat → Nat → FlipState → Option FlipState)
    (seg : DetailedSeg) (nodes : List Nat) :
    ∀ (n i : Nat) (s : List Visit × FlipState),
      (forLoop (fun s i => logged body seg nodes i s) n i s).map Prod.snd =
        forLoop (fun s i => body seg nodes i s) n i s.2
  | 0, _, _ => rfl
  | n + 1, i, s => by
    simp only [forLoop, logged]
    cases h : body seg nodes i s.2 with
    | none => rfl
    | some s1 =>
      simp only [Option.map_some', Option.some_bind]
      exact forLoop_logged body seg nodes n (i + 1) _

/-- The run with the record of visits computes the same state as the run without it. -/
theorem flipSegs_logged (k : Consts) (arch : Architecture) (mgr : DetailedMgr)
    (body : DetailedSeg → List Nat → Nat → FlipState → Option FlipState) :
    ∀ (segs : List DetailedSeg) (s : List Visit × FlipState),
      (flipSegs k arch mgr (logged body) segs s).map Prod.snd =
        flipSegs k arch mgr body segs s.2
  | [], _ => rfl
  | seg :: rest, s => by
    simp only [flipSegs]
    cases hr : arch.m_rows[seg.rowId]? with
    | none => rfl
    | some r =>
      simp only [Option.bind_eq_bind, Option.some_bind]
      split_ifs with hsym
      · exact flipSegs_logged k arch mgr body rest s
      · cases hn : mgr.m_cellsInSeg[seg.segId]? with
        | none => rfl
        | some nodes =>
          simp only [Option.some_bind]
          have := forLoop_logged body seg nodes nodes.length 0 s
          cases h1 : forLoop (fun s i => logged body seg nodes i s) nodes.length 0 s with
          | none =>
            rw [h1] at this
            simp only [Option.map_none'] at this
            simp [← this]
          | some s1 =>
            rw [h1] at this
            simp only [Option.map_some'] at this
            simp only [Option.some_bind, ← this]
            exact flipSegs_logged k arch mgr body rest s1

/-- A visit of the cell `ndi` leaves every other cell and the pins of every other cell as
they were. -/
theorem visitResult_frame (k : Consts) (getCellSpacing : Node → Node → ℚ)
    {arch : Architecture} {mgr : DetailedMgr} (segment : DetailedSeg) (st : FlipState)
    {ndi : Nat} {nd : Node} (ndl ndr : Option Node) (acc : WlAcc) {maskLen : Nat}
    (hd : DesignOk arch mgr st.nw maskLen) (hnd : st.nw.m_nodes[ndi]? = some nd)
    {c : Nat} {ndc : Node} (hc : st.nw.m_nodes[c]? = some ndc) (hne : c ≠ ndi) :
    (visitResult k getCellSpacing segment st ndi nd ndl ndr acc).nw.m_nodes[c]? = some ndc ∧
      ∀ a ∈ ownedPins st.nw ndc,
        (visitResult k getCellSpacing segment st ndi nd ndl ndr acc).nw.m_pins[a]? =
          st.nw.m_pins[a]? := by
  unfold visitResult
  split_ifs
  · exact ⟨hc, fun _ _ => rfl⟩
  · refine ⟨?_, ?_⟩
    · simp only [Network.withCell]
      rw [List.getElem?_set_ne (Ne.symm hne)]
      exact hc
    · intro a ha
      simp only [Network.withCell]
      apply applyAt_not_owned
      intro ha2
      obtain ⟨p, hp⟩ := ownedPins_valid (hd.wl c ndc hc).pinsOk ha
      have e1 := (hd.owner c ndc a p hc hp).1 ha
      have e2 := (hd.owner ndi nd a p hnd hp).1 ha2
      exact hne (e1.symm.trans e2)
  · exact ⟨hc, fun _ _ => rfl⟩

/-- The run of `flipCells` on a well-formed design whose marks are at most the counter:
it returns; the final state is again well-formed with marks at most the counter, on a
network of the same shape; every recorded visit is a `GoodVisit`; the returned `nflips` is
the number of recorded visits that changed the network; and a cell that is not visited
keeps its attributes and the offsets of its pins. -/
theorem flipCells_visits_spec (k : Consts) (hk : k.OriOk) (getCellSpacing : Node → Node → ℚ)
    {arch : Architecture} {mgr : DetailedMgr} {self : DetailedOrient} {nw : Network}
    (hd : DesignOk arch mgr nw self.m_edgeMask.length) (hmask : MaskInv self) :
    ∃ (log : List Visit) (st : FlipState),
      flipCellsVisits k getCellSpacing arch mgr self nw = some (log, st) ∧
      flipCells k getCellSpacing arch mgr self nw = some st ∧
      DesignOk arch mgr st.nw st.self.m_edgeMask.length ∧ MaskInv st.self ∧
      SameShape nw st.nw ∧
      st.self.m_edgeMask.length = self.m_edgeMask.length ∧
      st.self.m_skipNetsLargerThanThis = self.m_skipNetsLargerThanThis ∧
      (∀ v ∈ log, GoodVisit k getCellSpacing arch mgr v) ∧
      st.nflips = (log.filter fun v => decide v.flipped).length ∧
      (∀ (c : Nat) (ndc : Node), nw.m_nodes[c]? = some ndc →
        (∀ v ∈ log, v.nodes[v.i]? ≠ some c) →
        st.nw.m_nodes[c]? = some ndc ∧
          ∀ a ∈ ownedPins nw ndc, st.nw.m_pins[a]? = nw.m_pins[a]?) := by
  let Inv : List Visit × FlipState → Prop := fun s =>
    DesignOk arch mgr s.2.nw s.2.self.m_edgeMask.length ∧ MaskInv s.2.self ∧
    SameShape nw s.2.nw ∧
    s.2.self.m_edgeMask.length = self.m_edgeMask.length ∧
    s.2.self.m_skipNetsLargerThanThis = self.m_skipNetsLargerThanThis ∧
    (∀ v ∈ s.1, GoodVisit k getCellSpacing arch mgr v) ∧
    s.2.nflips = (s.1.filter fun v => decide v.flipped).length ∧
    (∀ (c : Nat) (ndc : Node), nw.m_nodes[c]? = some ndc →
      (∀ v ∈ s.1, v.nodes[v.i]? ≠ some c) →
      s.2.nw.m_nodes[c]? = some ndc ∧
        ∀ a ∈ ownedPins nw ndc, s.2.nw.m_pins[a]? = nw.m_pins[a]?)
  have hstep : ∀ seg ∈ mgr.m_segments, ∃ r, arch.m_rows[seg.rowId]? = some r ∧
      (r.m_siteSymmetry &&& k.Symmetry_Y ≠ 0 →
        ∃ nodes, mgr.m_cellsInSeg[seg.segId]? = some nodes ∧
          ∀ i s0, i < nodes.length → Inv s0 →
            ∃ s1, logged (flipCell k getCellSpacing) seg nodes i s0 = some s1 ∧ Inv s1) := by
    intro seg hseg
    obtain ⟨r, hr⟩ := hd.seg_row seg hseg
    refine ⟨r, hr, fun hy => ?_⟩
    obtain ⟨nodes, hn, _⟩ := hd.seg_cells seg hseg
    refine ⟨nodes, hn, ?_⟩
    rintro i ⟨log, st⟩ hi ⟨i1, i2, i3, i4, i5, i6, i7, i8⟩
    simp only at i1 i2 i3 i4 i5 i6 i7 i8
    obtain ⟨nodes', hn', hc⟩ := i1.seg_cells seg hseg
    rw [hn] at hn'
    cases hn'
    obtain ⟨ndi, nd, ndl, ndr, acc, nets, g1, g2, g3, g4, g5, _, _, _, _, g10, g11, g12⟩ :=
      flipCell_spec k getCellSpacing seg i1 hc hi i2
    obtain ⟨q1, q2, q3⟩ :=
      visitResult_self k getCellSpacing seg st ndi nd ndl ndr g10 g11 i2
    have hss := visitResult_sameShape k getCellSpacing seg st ndl ndr acc g2
    refine ⟨(log ++ [⟨seg, nodes, i, st,
        visitResult k getCellSpacing seg st ndi nd ndl ndr acc⟩],
      visitResult k getCellSpacing seg st ndi nd ndl ndr acc), by simp [logged, g12], ?_⟩
    refine ⟨?_, q3, i3.trans hss, q1.trans i4, q2.trans i5, ?_, ?_, ?_⟩
    · have := i1.of_sameShape hss
      simp only
      rw [q1]
      exact this
    · intro v hv
      simp only [List.mem_append, List.mem_singleton] at hv
      rcases hv with hv | hv
      · exact i6 v hv
      · subst hv
        exact ⟨hseg, ⟨r, hr, hy⟩, hn, hi, i1, i2, g12⟩
    · simp only [List.filter_append, List.length_append]
      rcases visitResult_cases k hk getCellSpacing seg st ndl ndr acc g2 with ⟨c1, c2⟩ | ⟨c1, c2⟩
      · have : decide (Visit.flipped ⟨seg, nodes, i, st,
            visitResult k getCellSpacing seg st ndi nd ndl ndr acc⟩) = true := by
          simp [Visit.flipped, c2]
        simp only [List.filter_cons, this, List.filter_nil, if_true, List.length_singleton]
        rw [c1, i7]
      · have : decide (Visit.flipped ⟨seg, nodes, i, st,
            visitResult k getCellSpacing seg st ndi nd ndl ndr acc⟩) = false := by
          simp [Visit.flipped, c2]
        simp only [List.filter_cons, this, List.filter_nil, List.length_nil]
        rw [c1, i7]
        simp
    · intro c ndc hc hv
      have hold : ∀ v ∈ log, v.nodes[v.i]? ≠ some c :=
        fun v h => hv v (List.mem_append_left _ h)
      have hne : c ≠ ndi := by
        intro heq
        have := hv ⟨seg, nodes, i, st, visitResult k getCellSpacing seg st ndi nd ndl ndr acc⟩
          (by simp)
        exact this (by simp only; rw [g1, heq])
      obtain ⟨f1, f2⟩ := i8 c ndc hc hold
      obtain ⟨f3, f4⟩ := visitResult_frame k getCellSpacing seg st ndl ndr acc i1 g2 f1 hne
      refine ⟨f3, fun a ha => ?_⟩
      have hown : ownedPins st.nw ndc = ownedPins nw ndc :=
        ownedPins_congr i3.2.2.2.1 rfl rfl
      rw [f4 a (hown ▸ ha)]
      exact f2 a ha
  obtain ⟨⟨log, st⟩, r1, r2, r3, r4, r5, r6, r7, r8, r9⟩ :=
    flipSegs_total k arch mgr (logged (flipCell k getCellSpacing)) Inv mgr.m_segments
      ([], ⟨0, self, nw⟩) hstep
      ⟨hd, hmask, SameShape.refl nw, rfl, rfl,
        fun v hv => absurd hv (List.not_mem_nil v), rfl,
        fun c ndc hc _ => ⟨hc, fun _ _ => rfl⟩⟩
  refine ⟨log, st, r1, ?_, r2, r3, r4, r5, r6, r7, r8, r9⟩
  have := flipSegs_logged k arch mgr (flipCell k getCellSpacing) mgr.m_segments
    ([], ⟨0, self, nw⟩)
  rw [r1] at this
  exact this.symm

/-! ## Rows without Y symmetry -/

/-- C13.  Rows without Y symmetry are never flipped, on a well-formed design.  The
iteration of the outer loop of `flipCells` for a segment whose row mask does not contain
`Symmetry_Y` hands the whole state (network, marks, counter and `nflips`) on unchanged,
whatever the spans are.  Hence `flipCells` returns exactly what it returns on the design
with these segments removed; on a design without any row with Y symmetry it returns
`nflips = 0` and the network it was given; and in general every cell that is in no
segment of a row with Y symmetry has the same attributes (orientation and edge types
included) and the same pin offsets after `flipCells` as before. -/
theorem flipCells_skips_rows_without_Y (k : Consts) (hk : k.OriOk)
    (getCellSpacing : Node → Node → ℚ)
    (arch : Architecture) (mgr : DetailedMgr) (self : DetailedOrient) (nw : Network)
    (hd : DesignOk arch mgr nw self.m_edgeMask.length) (hmask : MaskInv self) :
    (∀ (seg : DetailedSeg) (rest : List DetailedSeg) (r : Row) (st : FlipState),
      arch.m_rows[seg.rowId]? = some r → r.m_siteSymmetry &&& k.Symmetry_Y = 0 →
      flipSegs k arch mgr (flipCell k getCellSpacing) (seg :: rest) st =
        flipSegs k arch mgr (flipCell k getCellSpacing) rest st) ∧
    flipCells k getCellSpacing arch mgr self nw =
      flipCells k getCellSpacing arch
        { mgr with m_segments := mgr.m_segments.filter fun seg =>
            match arch.m_rows[seg.rowId]? with
            | some r => decide (r.m_siteSymmetry &&& k.Symmetry_Y ≠ 0)
            | none => true } self nw ∧
    ((∀ seg ∈ mgr.m_segments, ∀ r, arch.m_rows[seg.rowId]? = some r →
        r.m_siteSymmetry &&& k.Symmetry_Y = 0) →
      flipCells k getCellSpacing arch mgr self nw = some ⟨0, self, nw⟩) ∧
    ∃ st, flipCells k getCellSpacing arch mgr self nw = some st ∧
      ∀ (c : Nat) (ndc : Node), nw.m_nodes[c]? = some ndc →
        (∀ seg ∈ mgr.m_segments, ∀ (r : Row) (nodes : List Nat),
          arch.m_rows[seg.rowId]? = some r → r.m_siteSymmetry &&& k.Symmetry_Y ≠ 0 →
          mgr.m_cellsInSeg[seg.segId]? = some nodes → c ∉ nodes) →
        st.nw.m_nodes[c]? = some ndc ∧
          ∀ a ∈ ownedPins nw ndc, st.nw.m_pins[a]? = nw.m_pins[a]? := by
  have hrows := hd.seg_row
  have hskip : ∀ (seg : DetailedSeg) (rest : List DetailedSeg) (r : Row) (st : FlipState),
      arch.m_rows[seg.rowId]? = some r → r.m_siteSymmetry &&& k.Symmetry_Y = 0 →
      flipSegs k arch mgr (flipCell k getCellSpacing) (seg :: rest) st =
        flipSegs k arch mgr (flipCell k getCellSpacing) rest st := by
    intro seg rest r st hr hsym
    simp [flipSegs, hr, hsym]
  have hmgr : ∀ (segs1 : List DetailedSeg) (mgr1 : DetailedMgr) (st : FlipState),
      mgr1.m_cellsInSeg = mgr.m_cellsInSeg →
      flipSegs k arch mgr1 (flipCell k getCellSpacing) segs1 st =
        flipSegs k arch mgr (flipCell k getCellSpacing) segs1 st := by
    intro segs1 mgr1
    induction segs1 with
    | nil => intro st _; rfl
    | cons seg rest ih =>
      intro st hc
      simp only [flipSegs, hc]
      cases arch.m_rows[seg.rowId]? with
      | none => rfl
      | some r =>
        simp only [Option.bind_eq_bind, Option.some_bind]
        split_ifs
        · exact ih st hc
        · cases mgr.m_cellsInSeg[seg.segId]? with
          | none => rfl
          | some nodes =>
            simp only [Option.some_bind]
            cases forLoop (fun s i => flipCell k getCellSpacing seg nodes i s)
              nodes.length 0 st with
            | none => rfl
            | some st1 => exact ih st1 hc
  have hfilter : ∀ (segs : List DetailedSeg) (st : FlipState),
      (∀ seg ∈ segs, ∃ r, arch.m_rows[seg.rowId]? = some r) →
      flipSegs k arch mgr (flipCell k getCellSpacing) segs st =
        flipSegs k arch mgr (flipCell k getCellSpacing)
          (segs.filter fun seg =>
            match arch.m_rows[seg.rowId]? with
            | some r => decide (r.m_siteSymmetry &&& k.Symmetry_Y ≠ 0)
            | none => true) st := by
    intro segs
    induction segs with
    | nil => intro st _; rfl
    | cons seg rest ih =>
      intro st hr
      obtain ⟨r, hr0⟩ := hr seg (List.mem_cons_self _ _)
      have hrest := fun seg0 h0 => hr seg0 (List.mem_cons_of_mem _ h0)
      by_cases hsym : r.m_siteSymmetry &&& k.Symmetry_Y = 0
      · rw [hskip seg rest r st hr0 hsym, List.filter_cons]
        simp only [hr0, hsym, ne_eq, not_true_eq_false, decide_False, Bool.false_eq_true,
          if_false]
        exact ih st hrest
      · rw [List.filter_cons]
        simp only [hr0, hsym, ne_eq, not_false_eq_true, decide_True, if_true]
        simp only [flipSegs, hr0, Option.bind_eq_bind, Option.some_bind, hsym, if_false]
        cases mgr.m_cellsInSeg[seg.segId]? with
        | none => rfl
        | some nodes =>
          simp only [Option.some_bind]
          cases forLoop (fun s i => flipCell k getCellSpacing seg nodes i s)
            nodes.length 0 st with
          | none => rfl
          | some st1 => exact ih st1 hrest
  refine ⟨hskip, ?_, ?_, ?_⟩
  · unfold flipCells
    rw [hfilter mgr.m_segments _ hrows]
    symm
    apply hmgr
    rfl
  · intro hall
    unfold flipCells
    generalize (⟨0, self, nw⟩ : FlipState) = st
    have : ∀ (segs : List DetailedSeg), (∀ seg ∈ segs, seg ∈ mgr.m_segments) →
        flipSegs k arch mgr (flipCell k getCellSpacing) segs st = some st := by
      intro segs
      induction segs with
      | nil => intro _; rfl
      | cons seg rest ih =>
        intro hsub
        obtain ⟨r, hr0⟩ := hrows seg (hsub seg (List.mem_cons_self _ _))
        rw [hskip seg rest r st hr0 (hall seg (hsub seg (List.mem_cons_self _ _)) r hr0)]
        exact ih fun seg0 h0 => hsub seg0 (List.mem_cons_of_mem _ h0)
    exact this mgr.m_segments fun _ h => h
  · obtain ⟨log, st, _, r2, _, _, _, _, _, r8, _, r10⟩ :=
      flipCells_visits_spec k hk getCellSpacing hd hmask
    refine ⟨st, r2, fun c ndc hc hno => r10 c ndc hc fun v hv heq => ?_⟩
    obtain ⟨g1, ⟨r, g2, g3⟩, g4, _⟩ := r8 v hv
    exact hno v.segment g1 r v.nodes g2 g3 g4 (List.getElem?_mem heq)

/-! ## Statements about every visit of a run -/

/-- The values read by a recorded visit and its result in closed form. -/
theorem GoodVisit.spec {k : Consts} {getCellSpacing : Node → Node → ℚ} {arch : Architecture}
    {mgr : DetailedMgr} {v : Visit} (hg : GoodVisit k getCellSpacing arch mgr v) :
    ∃ (ndi : Nat) (nd : Node) (ndl ndr : Option Node) (acc : WlAcc) (nets : List Nat),
      v.nodes[v.i]? = some ndi ∧ v.before.nw.m_nodes[ndi]? = some nd ∧
      neighbour v.before.nw v.nodes (v.i = 0) (v.i - 1) = some ndl ∧
      neighbour v.before.nw v.nodes (v.i = v.nodes.length - 1) (v.i + 1) = some ndr ∧
      wlLoop v.before.self.m_skipNetsLargerThanThis v.before.nw ndi nd
        (v.before.self.m_traversal + 1) v.before.self.m_edgeMask = some acc ∧
      nets.Nodup ∧
      (∀ e, e ∈ nets ↔ Touches v.before.nw nd e ∧
        SmallNet v.before.self.m_skipNetsLargerThanThis v.before.nw e) ∧
      acc.old_wl = wlSum (netSpan v.before.nw) 0 nets ∧
      acc.new_wl = wlSum (hypSpan v.before.nw ndi) 0 nets ∧
      v.after = visitResult k getCellSpacing v.segment v.before ndi nd ndl ndr acc := by
  obtain ⟨g1, _, g3, g4, g5, g6, g7⟩ := hg
  obtain ⟨nodes', hn', hc⟩ := g5.seg_cells v.segment g1
  rw [g3] at hn'
  cases hn'
  obtain ⟨ndi, nd, ndl, ndr, acc, nets, q1, q2, q3, q4, q5, q6, q7, q8, q9, _, _, q12⟩ :=
    flipCell_spec k getCellSpacing v.segment g5 hc g4 g6
  rw [g7] at q12
  exact ⟨ndi, nd, ndl, ndr, acc, nets, q1, q2, q3, q4, q5, q6, q7, q8, q9,
    Option.some.inj q12⟩

theorem specVMirror_VMirror (k : Consts) {o : Nat} (ho : k.IsOri o) :
    VMirror k o (specVMirror k o) := by
  unfold Consts.IsOri at ho
  unfold VMirror
  by_cases h1 : o = k.Orientation_N
  · have : specVMirror k o = k.Orientation_FN := by
      unfold specVMirror; rw [if_pos h1]
    exact Or.inl ⟨h1, this⟩
  · by_cases h2 : o = k.Orientation_S
    · have : specVMirror k o = k.Orientation_FS := by
        unfold specVMirror; rw [if_neg h1, if_pos h2]
      exact Or.inr (Or.inr (Or.inl ⟨h2, this⟩))
    · by_cases h3 : o = k.Orientation_FN
      · have : specVMirror k o = k.Orientation_N := by
          unfold specVMirror; rw [if_neg h1, if_neg h2, if_pos h3]
        exact Or.inr (Or.inl ⟨h3, this⟩)
      · by_cases h4 : o = k.Orientation_FS
        · have : specVMirror k o = k.Orientation_S := by
            unfold specVMirror; rw [if_neg h1, if_neg h2, if_neg h3, if_pos h4]
          exact Or.inr (Or.inr (Or.inr ⟨h4, this⟩))
        · exfalso; tauto

/-- The result of a visit of a cell in a recognised orientation: it is flipped exactly
when both gaps fit and the new sum is smaller than the old one. -/
theorem visitResult_spec (k : Consts) (hk : k.OriOk) (getCellSpacing : Node → Node → ℚ)
    (segment : DetailedSeg) (st : FlipState) {ndi : Nat} {nd : Node} (ndl ndr : Option Node)
    (acc : WlAcc) (hnd : st.nw.m_nodes[ndi]? = some nd) (ho : k.IsOri nd.currOrient) :
    ((gapl getCellSpacing ndl nd ≤ spacel segment ndl nd ∧
        gapr getCellSpacing nd ndr ≤ spacer segment nd ndr ∧ acc.new_wl < acc.old_wl) →
      (visitResult k getCellSpacing segment st ndi nd ndl ndr acc).nflips = st.nflips + 1 ∧
      (visitResult k getCellSpacing segment st ndi nd ndl ndr acc).nw =
        st.nw.withCell negX nd ndi (flippedNode k nd) ∧
      (visitResult k getCellSpacing segment st ndi nd ndl ndr acc).nw ≠ st.nw) ∧
    (¬ (gapl getCellSpacing ndl nd ≤ spacel segment ndl nd ∧
        gapr getCellSpacing nd ndr ≤ spacer segment nd ndr ∧ acc.new_wl < acc.old_wl) →
      (visitResult k getCellSpacing segment st ndi nd ndl ndr acc).nflips = st.nflips ∧
      (visitResult k getCellSpacing segment st ndi nd ndl ndr acc).nw = st.nw) := by
  have hcases := visitResult_cases k hk getCellSpacing segment st ndl ndr acc hnd
  constructor
  · rintro ⟨a1, a2, a3⟩
    have hgate : ¬ (gapl getCellSpacing ndl nd > spacel segment ndl nd ∨
        gapr getCellSpacing nd ndr > spacer segment nd ndr) := by
      rintro (h | h)
      · exact absurd a1 (not_le.2 h)
      · exact absurd a2 (not_le.2 h)
    have hres : visitResult k getCellSpacing segment st ndi nd ndl ndr acc =
        ⟨st.nflips + 1,
          { st.self with
            m_traversal := st.self.m_traversal + 1, m_edgeMask := acc.m_edgeMask },
          st.nw.withCell negX nd ndi (flippedNode k nd)⟩ := by
      unfold visitResult
      rw [if_neg hgate, if_pos ⟨a3, ho⟩]
    rw [hres] at hcases ⊢
    rcases hcases with ⟨_, c2⟩ | ⟨c1, _⟩
    · exact ⟨rfl, rfl, c2⟩
    · simp at c1
  · intro hna
    unfold visitResult
    split_ifs with h1 h2
    · exact ⟨rfl, rfl⟩
    · exfalso
      apply hna
      refine ⟨?_, ?_, h2.1⟩
      · exact not_lt.1 fun h => h1 (Or.inl h)
      · exact not_lt.1 fun h => h1 (Or.inr h)
    · exact ⟨rfl, rfl⟩

/-- C17.  Flip acceptance rule and count, on a well-formed design whose marks are at most
the counter.  `flipCells` returns, and the returned `nflips` is the number of visits that
changed the network.  Every visit is of a cell of a segment whose row has Y symmetry; for
a visited cell whose orientation is one of N, S, FN, FS, with the gaps, spaces and sums
taken in the state at the time of the visit and computed in `double` arithmetic as the
code does (`spacel`, `spacer`, `wlLoop`), the cell is flipped if and only if the
required left gap does not exceed the left space, the required right gap does not exceed
the right space and the new sum is strictly smaller than the old sum.  A flipped cell
gets `nflips` increased by one, its orientation mirrored (N with FN, S with FS), its edge
types exchanged, the X offset of every pin it owns negated with the rest of the pin
unchanged, and no other pin and no other cell is written; a cell that is not flipped
leaves the network and `nflips` unchanged. -/
theorem flipCells_acceptance (k : Consts) (hk : k.OriOk) (getCellSpacing : Node → Node → ℚ)
    (arch : Architecture) (mgr : DetailedMgr) (self : DetailedOrient) (nw : Network)
    (hd : DesignOk arch mgr nw self.m_edgeMask.length) (hmask : MaskInv self) :
    ∃ (log : List Visit) (st : FlipState),
      flipCellsVisits k getCellSpacing arch mgr self nw = some (log, st) ∧
      flipCells k getCellSpacing arch mgr self nw = some st ∧
      st.nflips = (log.filter fun v => decide v.flipped).length ∧
      ∀ v ∈ log,
        (∃ r, arch.m_rows[v.segment.rowId]? = some r ∧
          r.m_siteSymmetry &&& k.Symmetry_Y ≠ 0) ∧
        ∃ (ndi : Nat) (nd : Node) (ndl ndr : Option Node) (acc : WlAcc),
          v.nodes[v.i]? = some ndi ∧ v.before.nw.m_nodes[ndi]? = some nd ∧
          neighbour v.before.nw v.nodes (v.i = 0) (v.i - 1) = some ndl ∧
          neighbour v.before.nw v.nodes (v.i = v.nodes.length - 1) (v.i + 1) = some ndr ∧
          wlLoop v.before.self.m_skipNetsLargerThanThis v.before.nw ndi nd
            (v.before.self.m_traversal + 1) v.before.self.m_edgeMask = some acc ∧
          (k.IsOri nd.currOrient →
            (v.flipped ↔
              (gapl getCellSpacing ndl nd ≤ spacel v.segment ndl nd ∧
                gapr getCellSpacing nd ndr ≤ spacer v.segment nd ndr ∧
                acc.new_wl < acc.old_wl))) ∧
          (v.flipped →
            v.after.nflips = v.before.nflips + 1 ∧
            v.after.nw.m_nodes[ndi]? = some (flippedNode k nd) ∧
            VMirror k nd.currOrient (flippedNode k nd).currOrient ∧
            (∀ a ∈ ownedPins v.before.nw nd, ∃ p, v.before.nw.m_pins[a]? = some p ∧
              v.after.nw.m_pins[a]? = some { p with offsetX := -p.offsetX }) ∧
            (∀ a, a ∉ ownedPins v.before.nw nd →
              v.after.nw.m_pins[a]? = v.before.nw.m_pins[a]?) ∧
            (∀ c, c ≠ ndi → v.after.nw.m_nodes[c]? = v.before.nw.m_nodes[c]?)) ∧
          (¬ v.flipped → v.after.nflips = v.before.nflips ∧ v.after.nw = v.before.nw) := by
  obtain ⟨log, st, r1, r2, _, _, _, _, _, r8, r9, _⟩ :=
    flipCells_visits_spec k hk getCellSpacing hd hmask
  refine ⟨log, st, r1, r2, r9, fun v hv => ?_⟩
  have hg := r8 v hv
  obtain ⟨ndi, nd, ndl, ndr, acc, nets, q1, q2, q3, q4, q5, _, _, _, _, q10⟩ := hg.spec
  obtain ⟨_, hy, _, _, g5, _, _⟩ := hg
  refine ⟨hy, ndi, nd, ndl, ndr, acc, q1, q2, q3, q4, q5, ?_, ?_, ?_⟩
  · intro ho
    obtain ⟨s1, s2⟩ := visitResult_spec k hk getCellSpacing v.segment v.before ndl ndr acc q2 ho
    unfold Visit.flipped
    rw [q10]
    constructor
    · intro hf
      by_contra hna
      exact hf (s2 hna).2
    · intro ha
      exact (s1 ha).2.2
  · intro hf
    unfold Visit.flipped at hf
    rw [q10] at hf ⊢
    have hw := g5.wl ndi nd q2
    have hres : visitResult k getCellSpacing v.segment v.before ndi nd ndl ndr acc =
        ⟨v.before.nflips + 1,
          { v.before.self with
            m_traversal := v.before.self.m_traversal + 1, m_edgeMask := acc.m_edgeMask },
          v.before.nw.withCell negX nd ndi (flippedNode k nd)⟩ ∧ k.IsOri nd.currOrient := by
      unfold visitResult at hf ⊢
      split_ifs at hf ⊢ with h1 h2
      · exact absurd rfl hf
      · exact ⟨rfl, h2.2⟩
      · exact absurd rfl hf
    obtain ⟨hres, ho⟩ := hres
    rw [hres]
    refine ⟨rfl, withCell_node negX _ q2, specVMirror_VMirror k ho, ?_, ?_, ?_⟩
    · intro a ha
      obtain ⟨p, h1, h2⟩ := applyAt_owned negX hw.pinsOk (g5.nodup ndi nd q2) ha
      refine ⟨p, h1, ?_⟩
      simp only [Network.withCell, h2, negX]
      simp
    · intro a ha
      simp only [Network.withCell]
      exact applyAt_not_owned _ _ _ ha
    · intro c hc
      simp only [Network.withCell]
      rw [List.getElem?_set_ne (Ne.symm hc)]
  · intro hf
    unfold Visit.flipped at hf
    have hsame : v.after.nw = v.before.nw := not_not.1 hf
    refine ⟨?_, hsame⟩
    rw [q10] at hsame ⊢
    rcases visitResult_cases k hk getCellSpacing v.segment v.before ndl ndr acc q2 with
      ⟨_, c2⟩ | ⟨c1, _⟩
    · exact absurd hsame c2
    · exact c1

/-- After the flip of the cell `ndi` the coordinate of every net pin is the hypothetical
coordinate computed before the flip. -/
theorem coordAt_flipped {arch : Architecture} {mgr : DetailedMgr} {nw : Network}
    {maskLen : Nat} (hd : DesignOk arch mgr nw maskLen) {ndi : Nat} {nd : Node} (nd1 : Node)
    (hnd : nw.m_nodes[ndi]? = some nd) (hx : nd1.x = nd.x) (pj : Nat) :
    coordAt (nw.withCell negX nd ndi nd1) pj = hypCoordAt nw ndi pj := by
  unfold coordAt hypCoordAt
  simp only [Network.withCell]
  cases h1 : nw.m_edgePins[pj]? with
  | none => rfl
  | some b =>
    simp only [Option.bind_eq_bind, Option.some_bind, getElem?_applyAt]
    cases h2 : nw.m_pins[b]? with
    | none => rfl
    | some p =>
      simp only [Option.map_some', Option.some_bind]
      have hown := hd.owner ndi nd b p hnd h2
      by_cases hp : p.nodeId = ndi
      · have hb : b ∈ ownedPins nw nd := hown.2 hp
        rw [List.count_eq_one_of_mem (hd.nodup ndi nd hnd) hb]
        simp only [Function.iterate_one, negX, hp,
          List.getElem?_set_self (lt_of_getElem?_eq_some hnd), hnd, Option.some_bind,
          if_true, pure, hx, fadd, fsub]
        congr 2
        ring
      · have hb : b ∉ ownedPins nw nd := fun h => hp (hown.1 h)
        rw [List.count_eq_zero_of_not_mem hb]
        simp only [Function.iterate_zero, id_eq, List.getElem?_set_ne (Ne.symm hp), if_neg hp]

theorem netSpan_flipped {arch : Architecture} {mgr : DetailedMgr} {nw : Network}
    {maskLen : Nat} (hd : DesignOk arch mgr nw maskLen) {ndi : Nat} {nd : Node} (nd1 : Node)
    (hnd : nw.m_nodes[ndi]? = some nd) (hx : nd1.x = nd.x) (e : Nat) :
    netSpan (nw.withCell negX nd ndi nd1) e = hypSpan nw ndi e := by
  unfold netSpan hypSpan
  have : coordAt (nw.withCell negX nd ndi nd1) = hypCoordAt nw ndi :=
    funext fun pj => coordAt_flipped hd nd1 hnd hx pj
  rw [this]
  rfl

/-- C11, the claim as stated fails for sums of exact x-spans.  In the design
`roundingNetwork` (row in N with Y symmetry, no spacing rule, constructor state) the nets
have 2 and 1 pins, so net 0 is the only net evaluated for cell 0.  Its pins are at
`1 + 5 * 2 ^ (-55)` and at `1`; in `double` the first coordinate is `1 + 2 ^ (-52)`, and
with the offset negated it is `1 - 2 ^ (-53)`, so `old_wl = 2 ^ (-52)` and
`new_wl = 2 ^ (-53)` and `flipCells` flips cell 0 (one flip in the run).  The exact x-span
of net 0 is `5 * 2 ^ (-55)` right before the flip and `5 * 2 ^ (-55)` right after it: it
does not decrease. -/
theorem flipCells_flip_keeps_exact_span :
    roundingNetwork.m_edges.map Edge.numPins = [2, 1] ∧
    wlLoop 100 roundingNetwork 0 ⟨0, 1, 1 / 2, 1, 0, 2, 1, 2⟩ 1 [0, 0] =
      some ⟨1 / 4503599627370496, 1 / 9007199254740992, [1, 0]⟩ ∧
    (flipCellsVisits sampleConsts noSpacing (sampleArch 1 2) sampleMgr
        (DetailedOrient.init roundingNetwork) roundingNetwork).map
      (fun res => (res.2.nflips, res.1.map fun v =>
        (decide v.flipped, exactNetSpan v.before.nw 0, exactNetSpan v.after.nw 0))) =
      some (1, [(true, 5 / 36028797018963968, 5 / 36028797018963968),
        (false, 5 / 36028797018963968, 5 / 36028797018963968)]) := by
  decide!

/-- C11, as amended.  Accepted flips strictly reduce the local wirelength as `flipCells`
computes it, on a well-formed design (in particular: the pins in the range of a cell are
exactly the pins whose `nodeId` is that cell) whose marks are at most the counter.
`flipCells` returns, and for every visit that flips its cell there is a duplicate-free list
`nets` holding exactly the nets that touch the cell and have more than one and fewer than
`m_skipNetsLargerThanThis` pins, such that the sum of their x-spans in the network right
after the flip is strictly smaller than the sum of their x-spans in the network right
before the flip, where coordinates, spans and sums are computed in `double` arithmetic:
each coordinate `x + offsetX`, each difference `max - min` and each addition to the sum
(from 0, in the order of the list) is rounded. -/
theorem flipCells_reduces_wirelength (k : Consts) (hk : k.OriOk)
    (getCellSpacing : Node → Node → ℚ) (arch : Architecture) (mgr : DetailedMgr)
    (self : DetailedOrient) (nw : Network)
    (hd : DesignOk arch mgr nw self.m_edgeMask.length) (hmask : MaskInv self) :
    ∃ (log : List Visit) (st : FlipState),
      flipCellsVisits k getCellSpacing arch mgr self nw = some (log, st) ∧
      flipCells k getCellSpacing arch mgr self nw = some st ∧
      ∀ v ∈ log, v.flipped →
        ∃ (ndi : Nat) (nd : Node) (nets : List Nat),
          v.nodes[v.i]? = some ndi ∧ v.before.nw.m_nodes[ndi]? = some nd ∧ nets.Nodup ∧
          (∀ e, e ∈ nets ↔ Touches v.before.nw nd e ∧
            SmallNet v.before.self.m_skipNetsLargerThanThis v.before.nw e) ∧
          wlSum (netSpan v.after.nw) 0 nets < wlSum (netSpan v.before.nw) 0 nets := by
  obtain ⟨log, st, r1, r2, _, _, _, _, _, r8, _, _⟩ :=
    flipCells_visits_spec k hk getCellSpacing hd hmask
  refine ⟨log, st, r1, r2, fun v hv hf => ?_⟩
  have hg := r8 v hv
  obtain ⟨ndi, nd, ndl, ndr, acc, nets, q1, q2, _, _, _, q6, q7, q8, q9, q10⟩ := hg.spec
  obtain ⟨_, _, _, _, g5, _, _⟩ := hg
  refine ⟨ndi, nd, nets, q1, q2, q6, q7, ?_⟩
  unfold Visit.flipped at hf
  rw [q10] at hf ⊢
  unfold visitResult at hf ⊢
  split_ifs at hf ⊢ with h1 h2
  · exact absurd rfl hf
  · have : netSpan (v.before.nw.withCell negX nd ndi (flippedNode k nd)) =
        hypSpan v.before.nw ndi :=
      funext fun e => netSpan_flipped g5 (flippedNode k nd) q2 rfl e
    simp only [this]
    rw [← q8, ← q9]
    exact h2.1
  · exact absurd rfl hf

/-- C18.  Each net is counted exactly once per cell evaluation.  The constructor state has
every mark at most the counter.  On a well-formed design, from any state whose marks are
at most the counter (the counter is a natural and does not wrap around), `flipCells`
returns and ends in a well-formed state whose marks are again at most the counter, so the
same holds for the next invocation; at every visit the marks are at most the counter, and
the wirelength evaluation of the visited cell returns `old_wl` and `new_wl` as the sums of
the current and of the hypothetical x-span over a duplicate-free list holding exactly the
nets that touch the cell and have more than one and fewer than
`m_skipNetsLargerThanThis` pins: each such net is added once, with `+=` on a `double`,
starting from 0. -/
theorem flipCells_each_net_once (k : Consts) (hk : k.OriOk)
    (getCellSpacing : Node → Node → ℚ) (arch : Architecture) (mgr : DetailedMgr)
    (self : DetailedOrient) (nw : Network)
    (hd : DesignOk arch mgr nw self.m_edgeMask.length) (hmask : MaskInv self) :
    MaskInv (DetailedOrient.init nw) ∧
    ∃ (log : List Visit) (st : FlipState),
      flipCellsVisits k getCellSpacing arch mgr self nw = some (log, st) ∧
      flipCells k getCellSpacing arch mgr self nw = some st ∧
      MaskInv st.self ∧ DesignOk arch mgr st.nw st.self.m_edgeMask.length ∧
      ∀ v ∈ log, MaskInv v.before.self ∧
        ∃ (ndi : Nat) (nd : Node) (acc : WlAcc) (nets : List Nat),
          v.nodes[v.i]? = some ndi ∧ v.before.nw.m_nodes[ndi]? = some nd ∧
          wlLoop v.before.self.m_skipNetsLargerThanThis v.before.nw ndi nd
            (v.before.self.m_traversal + 1) v.before.self.m_edgeMask = some acc ∧
          nets.Nodup ∧
          (∀ e, e ∈ nets ↔ Touches v.before.nw nd e ∧
            SmallNet v.before.self.m_skipNetsLargerThanThis v.before.nw e) ∧
          acc.old_wl = wlSum (netSpan v.before.nw) 0 nets ∧
          acc.new_wl = wlSum (hypSpan v.before.nw ndi) 0 nets := by
  refine ⟨?_, ?_⟩
  · intro m hm
    simp only [DetailedOrient.init] at hm ⊢
    rw [List.eq_of_mem_replicate hm]
  · obtain ⟨log, st, r1, r2, r3, r4, _, _, _, r8, _, _⟩ :=
      flipCells_visits_spec k hk getCellSpacing hd hmask
    refine ⟨log, st, r1, r2, r4, r3, fun v hv => ?_⟩
    have hg := r8 v hv
    obtain ⟨ndi, nd, ndl, ndr, acc, nets, q1, q2, _, _, q5, q6, q7, q8, q9, _⟩ := hg.spec
    exact ⟨hg.2.2.2.2.2.1, ndi, nd, acc, nets, q1, q2, q5, q6, q7, q8, q9⟩

/-- The x-span as `flipCells` measures it is the rounded difference of the maximum and the
minimum of the coordinates, for a net with at least one pin whose first coordinate is in
the range of a `double`. -/
theorem spanOf_cons (x : ℚ) (xs : List ℚ) (h1 : -DBL_MAX ≤ x) (h2 : x ≤ DBL_MAX) :
    spanOf (x :: xs) = fsub (xs.foldl max x) (xs.foldl min x) := by
  unfold spanOf
  rw [List.foldl_cons, List.foldl_cons, max_eq_right h1, min_eq_right h2]

/-! ## Nets that the wirelength evaluation skips -/

theorem AgreeOffSkippedNets.pin_agree {skip : Int} {nw1 nw2 : Network}
    (h : AgreeOffSkippedNets skip nw1 nw2) {a : Nat} {p1 : Pin}
    (hp : nw1.m_pins[a]? = some p1) : ∃ p2, nw2.m_pins[a]? = some p2 := by
  have hlt : a < nw2.m_pins.length := by
    rw [h.2.2.2.2.1]; exact lt_of_getElem?_eq_some hp
  exact ⟨_, List.getElem?_eq_getElem hlt⟩

theorem AgreeOffSkippedNets.sameShape {skip : Int} {nw1 nw2 : Network}
    (h : AgreeOffSkippedNets skip nw1 nw2) : SameShape nw1 nw2 := by
  obtain ⟨h1, h2, h3, h4, h5, h6⟩ := h
  refine ⟨by rw [h1], ?_, h2, h3, h4⟩
  apply List.ext_getElem?
  intro a
  simp only [List.getElem?_map]
  cases hp1 : nw1.m_pins[a]? with
  | none =>
    have : nw2.m_pins[a]? = none := by
      rw [List.getElem?_eq_none_iff] at hp1 ⊢
      omega
    rw [this]
  | some p1 =>
    have hlt : a < nw2.m_pins.length := by
      rw [h5]; exact lt_of_getElem?_eq_some hp1
    have hp2 : nw2.m_pins[a]? = some nw2.m_pins[a] := List.getElem?_eq_getElem hlt
    obtain ⟨_, g2, g3, _⟩ := h6 a p1 _ hp1 hp2
    rw [hp2]
    simp only [Option.map_some', Option.some.injEq, Pin.shape, Pin.mk.injEq, true_and]
    exact ⟨g2, g3⟩

/-- The loop over the pins of a small net reads the same values in two networks that
agree off the skipped nets. -/
theorem spanLoop_agree {skip : Int} {nw1 nw2 : Network}
    (h : AgreeOffSkippedNets skip nw1 nw2) (hec : EdgeConsistent nw1) (ndi : Nat) {e : Nat}
    {edi : Edge} (he : nw1.m_edges[e]? = some edi) (hok : EdgePinsOk nw1 edi)
    (hsmall : ¬ (edi.numPins ≤ 1 ∨ edi.numPins ≥ skip)) :
    spanLoop nw2 ndi edi = spanLoop nw1 ndi edi := by
  unfold spanLoop
  apply forLoop_congr
  intro pj acc h1 h2
  obtain ⟨b, p1, nd, g1, g2, g3⟩ := hok pj h1 (by omega)
  obtain ⟨p2, hp2⟩ := h.pin_agree g2
  obtain ⟨_, q2, _, q4⟩ := h.2.2.2.2.2 b p1 p2 g2 hp2
  have hx : p2.offsetX = p1.offsetX := by
    by_contra hne
    obtain ⟨edi', r1, r2⟩ := q4 hne
    have := hec e edi pj b p1 he h1 (by omega) g1 g2
    rw [this, he] at r1
    cases r1
    exact hsmall r2
  unfold spanBody
  simp only [h.2.2.2.1, g1, hp2, g2, Option.bind_eq_bind, Option.some_bind, q2, h.1, g3, hx]

/-- The wirelength evaluation of a valid cell returns the same sums and marks in two
networks that agree off the skipped nets. -/
theorem wlLoop_agree {skip : Int} {nw1 nw2 : Network}
    (h : AgreeOffSkippedNets skip nw1 nw2) (hec : EdgeConsistent nw1) (ndi : Nat) {nd : Node}
    {maskLen : Nat} (hw : WlPinsOk nw1 maskLen nd) (trav : Nat) (mask : List Nat) :
    wlLoop skip nw2 ndi nd trav mask = wlLoop skip nw1 ndi nd trav mask := by
  unfold wlLoop
  apply forLoop_congr
  intro pi acc h1 h2
  obtain ⟨a, p1, edi, g1, g2, g3, g4, g5, g6⟩ := hw pi h1 (by omega)
  obtain ⟨p2, hp2⟩ := h.pin_agree g2
  obtain ⟨_, _, q3, _⟩ := h.2.2.2.2.2 a p1 p2 g2 hp2
  unfold wlBody
  simp only [h.2.2.1, g1, hp2, g2, Option.bind_eq_bind, Option.some_bind, q3, h.2.1, g3]
  by_cases hsmall : edi.numPins ≤ 1 ∨ edi.numPins ≥ skip
  · simp only [if_pos hsmall]
  · simp only [if_neg hsmall, spanLoop_agree h hec ndi g3 g6 hsmall]

theorem EdgeConsistent.transfer {nw nw1 : Network} (hec : EdgeConsistent nw)
    (h : SameShape nw nw1) : EdgeConsistent nw1 := by
  intro e edi pj b p1 he h1 h2 hb hp1
  obtain ⟨p, g1, g2⟩ := h.symm.pin hp1
  obtain ⟨_, g3⟩ := pin_shape_eq g2
  rw [← g3]
  exact hec e edi pj b p (by rw [← h.2.2.1]; exact he) h1 h2
    (by rw [← h.2.2.2.2]; exact hb) g1

theorem neighbour_congr {nw1 nw2 : Network} (h : nw2.m_nodes = nw1.m_nodes)
    (nodes : List Nat) (isNull : Bool) (j : Nat) :
    neighbour nw2 nodes isNull j = neighbour nw1 nodes isNull j := by
  unfold neighbour
  rw [h]

theorem negX_iterate_agree (Q : Nat → Prop) :
    ∀ (n : Nat) (p1 p2 : Pin), p2.offsetY = p1.offsetY → p2.nodeId = p1.nodeId →
      p2.edgeId = p1.edgeId → (p2.offsetX ≠ p1.offsetX → Q p1.edgeId) →
      (negX^[n] p2).offsetY = (negX^[n] p1).offsetY ∧
        (negX^[n] p2).nodeId = (negX^[n] p1).nodeId ∧
        (negX^[n] p2).edgeId = (negX^[n] p1).edgeId ∧
        ((negX^[n] p2).offsetX ≠ (negX^[n] p1).offsetX → Q (negX^[n] p1).edgeId)
  | 0, _, _, g1, g2, g3, g4 => ⟨g1, g2, g3, g4⟩
  | n + 1, p1, p2, g1, g2, g3, g4 => by
    rw [Function.iterate_succ_apply, Function.iterate_succ_apply]
    apply negX_iterate_agree Q n (negX p1) (negX p2) g1 g2 g3
    intro hne
    apply g4
    intro heq
    apply hne
    simp only [negX, heq]

/-- Flipping the same cell in two networks that agree off the skipped nets gives networks
that agree off the skipped nets. -/
theorem AgreeOffSkippedNets.withCell {skip : Int} {nw1 nw2 : Network}
    (h : AgreeOffSkippedNets skip nw1 nw2) (nd : Node) (ndi : Nat) (nd1 : Node) :
    AgreeOffSkippedNets skip (nw1.withCell negX nd ndi nd1) (nw2.withCell negX nd ndi nd1) := by
  obtain ⟨h1, h2, h3, h4, h5, h6⟩ := h
  have hown : ownedPins nw2 nd = ownedPins nw1 nd := ownedPins_congr h3 rfl rfl
  refine ⟨by simp [Network.withCell, h1], h2, h3, h4, ?_, ?_⟩
  · simp only [Network.withCell, List.length_set]
    have len : ∀ (as : List Nat) (ps : List Pin), (applyAt negX as ps).length = ps.length := by
      intro as
      induction as with
      | nil => intro ps; rfl
      | cons a as ih =>
        intro ps
        simp only [applyAt, List.foldl_cons] at ih ⊢
        rw [ih, List.length_modify]
    rw [len, len, h5]
  · intro a q1 q2 hq1 hq2
    simp only [Network.withCell, getElem?_applyAt, hown] at hq1 hq2
    cases hp1 : nw1.m_pins[a]? with
    | none => simp [hp1] at hq1
    | some p1 =>
      cases hp2 : nw2.m_pins[a]? with
      | none => simp [hp2] at hq2
      | some p2 =>
        simp only [hp1, hp2, Option.map_some', Option.some.injEq] at hq1 hq2
        obtain ⟨g1, g2, g3, g4⟩ := h6 a p1 p2 hp1 hp2
        subst hq1 hq2
        exact negX_iterate_agree
          (fun e => ∃ edi, nw1.m_edges[e]? = some edi ∧ (edi.numPins ≤ 1 ∨ edi.numPins ≥ skip))
          _ p1 p2 g1 g2 g3 g4

theorem forLoop_rel {σ : Type} (body : σ → Nat → Option σ) (R : σ → σ → Prop) :
    ∀ (n i : Nat) (a b : σ),
      (∀ j a0 b0, i ≤ j → j < i + n → R a0 b0 →
        ∃ a1 b1, body a0 j = some a1 ∧ body b0 j = some b1 ∧ R a1 b1) →
      R a b → ∃ a1 b1, forLoop body n i a = some a1 ∧ forLoop body n i b = some b1 ∧ R a1 b1
  | 0, _, a, b, _, h => ⟨a, b, rfl, rfl, h⟩
  | n + 1, i, a, b, hstep, h => by
    obtain ⟨a0, b0, h1, h2, h3⟩ := hstep i a b (Nat.le_refl i) (by omega) h
    obtain ⟨a1, b1, g1, g2, g3⟩ := forLoop_rel body R n (i + 1) a0 b0
      (fun j x y hj1 hj2 hxy => hstep j x y (by omega) (by omega) hxy) h3
    exact ⟨a1, b1, by simp [forLoop, h1, g1], by simp [forLoop, h2, g2], g3⟩

/-- Relational invariant rule for the loops of `flipCells` run from two states. -/
theorem flipSegs_rel {σ : Type} (k : Consts) (arch : Architecture) (mgr : DetailedMgr)
    (body : DetailedSeg → List Nat → Nat → σ → Option σ) (R : σ → σ → Prop) :
    ∀ (segs : List DetailedSeg) (a b : σ),
      (∀ seg ∈ segs, ∃ r, arch.m_rows[seg.rowId]? = some r ∧
        (r.m_siteSymmetry &&& k.Symmetry_Y ≠ 0 →
          ∃ nodes, mgr.m_cellsInSeg[seg.segId]? = some nodes ∧
            ∀ i a0 b0, i < nodes.length → R a0 b0 →
              ∃ a1 b1, body seg nodes i a0 = some a1 ∧ body seg nodes i b0 = some b1 ∧
                R a1 b1)) →
      R a b → ∃ a1 b1, flipSegs k arch mgr body segs a = some a1 ∧
        flipSegs k arch mgr body segs b = some b1 ∧ R a1 b1
  | [], a, b, _, h => ⟨a, b, rfl, rfl, h⟩
  | seg :: rest, a, b, hstep, h => by
    obtain ⟨r, hr, hy⟩ := hstep seg (List.mem_cons_self _ _)
    have hrest : ∀ seg0 ∈ rest, ∃ r, arch.m_rows[seg0.rowId]? = some r ∧
        (r.m_siteSymmetry &&& k.Symmetry_Y ≠ 0 →
          ∃ nodes, mgr.m_cellsInSeg[seg0.segId]? = some nodes ∧
            ∀ i a0 b0, i < nodes.length → R a0 b0 →
              ∃ a1 b1, body seg0 nodes i a0 = some a1 ∧ body seg0 nodes i b0 = some b1 ∧
                R a1 b1) :=
      fun seg0 h0 => hstep seg0 (List.mem_cons_of_mem _ h0)
    by_cases hsym : r.m_siteSymmetry &&& k.Symmetry_Y = 0
    · obtain ⟨a1, b1, h1, h2, h3⟩ := flipSegs_rel k arch mgr body R rest a b hrest h
      exact ⟨a1, b1, by simp [flipSegs, hr, hsym, h1], by simp [flipSegs, hr, hsym, h2], h3⟩
    · obtain ⟨nodes, hn, hb⟩ := hy hsym
      obtain ⟨a0, b0, g1, g2, g3⟩ := forLoop_rel (fun s i => body seg nodes i s) R
        nodes.length 0 a b (fun j x y _ hj hxy => hb j x y (by omega) hxy) h
      obtain ⟨a1, b1, h1, h2, h3⟩ := flipSegs_rel k arch mgr body R rest a0 b0 hrest g3
      exact ⟨a1, b1, by simp [flipSegs, hr, hsym, hn, g1, h1],
        by simp [flipSegs, hr, hsym, hn, g2, h2], h3⟩

/-- One visit from two states that agree off the skipped nets: both visits return the
closed form for the same values read. -/
theorem flipCell_agree (k : Consts) (getCellSpacing : Node → Node → ℚ) {arch : Architecture}
    {mgr : DetailedMgr} (segment : DetailedSeg) {nodes : List Nat} {i : Nat}
    {s1 s2 : FlipState} (hd : DesignOk arch mgr s1.nw s1.self.m_edgeMask.length)
    (hnodes : ∀ c ∈ nodes, c < s1.nw.m_nodes.length) (hi : i < nodes.length)
    (hmask : MaskInv s1.self) (hec : EdgeConsistent s1.nw) (hself : s2.self = s1.self)
    (hag : AgreeOffSkippedNets s1.self.m_skipNetsLargerThanThis s1.nw s2.nw) :
    ∃ (ndi : Nat) (nd : Node) (ndl ndr : Option Node) (acc : WlAcc),
      s1.nw.m_nodes[ndi]? = some nd ∧
      acc.m_edgeMask.length = s1.self.m_edgeMask.length ∧
      (∀ m ∈ acc.m_edgeMask, m ≤ s1.self.m_traversal + 1) ∧
      flipCell k getCellSpacing segment nodes i s1 =
        some (visitResult k getCellSpacing segment s1 ndi nd ndl ndr acc) ∧
      flipCell k getCellSpacing segment nodes i s2 =
        some (visitResult k getCellSpacing segment s2 ndi nd ndl ndr acc) := by
  obtain ⟨ndi, nd, ndl, ndr, acc, nets, q1, q2, q3, q4, q5, _, _, _, _, q10, q11, q12⟩ :=
    flipCell_spec k getCellSpacing segment hd hnodes hi hmask
  refine ⟨ndi, nd, ndl, ndr, acc, q2, q10, q11, q12, ?_⟩
  have hw := hd.wl ndi nd q2
  have hw2 : WlPinsOk s2.nw s1.self.m_edgeMask.length nd := hag.sameShape.wlPinsOk rfl hw
  apply flipCell_eq k getCellSpacing segment q1
  · rw [hag.1]; exact q2
  · rw [neighbour_congr hag.1]; exact q3
  · rw [neighbour_congr hag.1]; exact q4
  · rw [hself, wlLoop_agree hag hec ndi hw]; exact q5
  · exact hw2.pinsOk

/-- C14.  Nets that the wirelength evaluation skips do not influence the flip decisions.
Take a well-formed design in which the pin range of every net lists pins of that net, with
marks at most the counter, and a second network that is identical except for the X
offsets of pins lying on nets with at least `m_skipNetsLargerThanThis` pins or with at
most one pin.  Then `flipCells` returns on both, visits the same cells in the same order
and takes the same accept/reject decision at every visit; it returns the same `nflips`,
and the two final networks are again identical except for those X offsets. -/
theorem flipCells_ignores_skipped_nets (k : Consts) (hk : k.OriOk)
    (getCellSpacing : Node → Node → ℚ) (arch : Architecture) (mgr : DetailedMgr)
    (self : DetailedOrient) (nw1 nw2 : Network)
    (hd : DesignOk arch mgr nw1 self.m_edgeMask.length) (hmask : MaskInv self)
    (hec : EdgeConsistent nw1)
    (hag : AgreeOffSkippedNets self.m_skipNetsLargerThanThis nw1 nw2) :
    ∃ (log1 log2 : List Visit) (st1 st2 : FlipState),
      flipCellsVisits k getCellSpacing arch mgr self nw1 = some (log1, st1) ∧
      flipCellsVisits k getCellSpacing arch mgr self nw2 = some (log2, st2) ∧
      List.Forall₂ SameDecision log1 log2 ∧
      st2.nflips = st1.nflips ∧ st2.self = st1.self ∧
      AgreeOffSkippedNets self.m_skipNetsLargerThanThis st1.nw st2.nw := by
  let R : List Visit × FlipState → List Visit × FlipState → Prop := fun a b =>
    DesignOk arch mgr a.2.nw a.2.self.m_edgeMask.length ∧ MaskInv a.2.self ∧
    EdgeConsistent a.2.nw ∧ b.2.self = a.2.self ∧ b.2.nflips = a.2.nflips ∧
    a.2.self.m_skipNetsLargerThanThis = self.m_skipNetsLargerThanThis ∧
    AgreeOffSkippedNets self.m_skipNetsLargerThanThis a.2.nw b.2.nw ∧
    List.Forall₂ SameDecision a.1 b.1
  have hstep : ∀ seg ∈ mgr.m_segments, ∃ r, arch.m_rows[seg.rowId]? = some r ∧
      (r.m_siteSymmetry &&& k.Symmetry_Y ≠ 0 →
        ∃ nodes, mgr.m_cellsInSeg[seg.segId]? = some nodes ∧
          ∀ i a0 b0, i < nodes.length → R a0 b0 →
            ∃ a1 b1, logged (flipCell k getCellSpacing) seg nodes i a0 = some a1 ∧
              logged (flipCell k getCellSpacing) seg nodes i b0 = some b1 ∧ R a1 b1) := by
    intro seg hseg
    obtain ⟨r, hr⟩ := hd.seg_row seg hseg
    refine ⟨r, hr, fun _ => ?_⟩
    obtain ⟨nodes, hn, _⟩ := hd.seg_cells seg hseg
    refine ⟨nodes, hn, ?_⟩
    rintro i ⟨log1, s1⟩ ⟨log2, s2⟩ hi ⟨i1, i2, i3, i4, i5, i6, i7, i8⟩
    simp only at i1 i2 i3 i4 i5 i6 i7 i8
    obtain ⟨nodes', hn', hc⟩ := i1.seg_cells seg hseg
    rw [hn] at hn'
    cases hn'
    obtain ⟨ndi, nd, ndl, ndr, acc, g1, g2, g3, g4, g5⟩ :=
      flipCell_agree k getCellSpacing seg i1 hc hi i2 i3 i4 (i6 ▸ i7)
    have g1' : s2.nw.m_nodes[ndi]? = some nd := by rw [i7.1]; exact g1
    obtain ⟨q1, q2, q3⟩ :=
      visitResult_self k getCellSpacing seg s1 ndi nd ndl ndr g2 g3 i2
    have hss := visitResult_sameShape k getCellSpacing seg s1 ndl ndr acc g1
    have hc1 := visitResult_cases k hk getCellSpacing seg s1 ndl ndr acc g1
    have hc2 := visitResult_cases k hk getCellSpacing seg s2 ndl ndr acc g1'
    have hself : (visitResult k getCellSpacing seg s2 ndi nd ndl ndr acc).self =
        (visitResult k getCellSpacing seg s1 ndi nd ndl ndr acc).self := by
      unfold visitResult
      split_ifs <;> simp [i4]
    have hnf : (visitResult k getCellSpacing seg s2 ndi nd ndl ndr acc).nflips =
        (visitResult k getCellSpacing seg s1 ndi nd ndl ndr acc).nflips := by
      unfold visitResult
      split_ifs <;> simp [i5]
    have hagree : AgreeOffSkippedNets self.m_skipNetsLargerThanThis
        (visitResult k getCellSpacing seg s1 ndi nd ndl ndr acc).nw
        (visitResult k getCellSpacing seg s2 ndi nd ndl ndr acc).nw := by
      unfold visitResult
      split_ifs
      · exact i7
      · exact i7.withCell nd ndi (flippedNode k nd)
      · exact i7
    refine ⟨(log1 ++ [⟨seg, nodes, i, s1,
        visitResult k getCellSpacing seg s1 ndi nd ndl ndr acc⟩],
      visitResult k getCellSpacing seg s1 ndi nd ndl ndr acc),
      (log2 ++ [⟨seg, nodes, i, s2,
        visitResult k getCellSpacing seg s2 ndi nd ndl ndr acc⟩],
      visitResult k getCellSpacing seg s2 ndi nd ndl ndr acc),
      by simp [logged, g4], by simp [logged, g5], ?_⟩
    refine ⟨?_, q3, i3.transfer hss, hself, hnf, q2.trans i6, hagree, ?_⟩
    · have := i1.of_sameShape hss
      simp only
      rw [q1]
      exact this
    · apply List.rel_append i8
      refine List.Forall₂.cons ⟨rfl, rfl, rfl, ?_⟩ List.Forall₂.nil
      unfold Visit.flipped
      simp only
      rcases hc1 with ⟨a1, a2⟩ | ⟨a1, a2⟩ <;> rcases hc2 with ⟨b1, b2⟩ | ⟨b1, b2⟩
      · exact ⟨fun _ => b2, fun _ => a2⟩
      · exfalso; rw [hnf, a1, i5] at b1; omega
      · exfalso; rw [hnf, a1, i5] at b1; omega
      · exact ⟨fun h => absurd a2 h, fun h => absurd b2 h⟩
  obtain ⟨⟨log1, st1⟩, ⟨log2, st2⟩, r1, r2, _, _, _, r6, r7, _, r9, r10⟩ :=
    flipSegs_rel k arch mgr (logged (flipCell k getCellSpacing)) R mgr.m_segments
      ([], ⟨0, self, nw1⟩) ([], ⟨0, self, nw2⟩) hstep
      ⟨hd, hmask, hec, rfl, rfl, rfl, hag, List.Forall₂.nil⟩
  exact ⟨log1, log2, st1, st2, r1, r2, r10, r7, r6, r9⟩

/-! ## Consistency of orientation and pin offsets -/

theorem specMX_cases (k : Consts) (o : Nat) : specMX k o = 1 ∨ specMX k o = -1 := by
  unfold specMX
  split_ifs <;> simp

theorem specMY_cases (k : Consts) (o : Nat) : specMY k o = 1 ∨ specMY k o = -1 := by
  unfold specMY
  split_ifs <;> simp

theorem specM_values (k : Consts) (hk : k.OriOk) :
    (specMX k k.Orientation_N = 1 ∧ specMY k k.Orientation_N = 1) ∧
    (specMX k k.Orientation_S = -1 ∧ specMY k k.Orientation_S = -1) ∧
    (specMX k k.Orientation_FS = 1 ∧ specMY k k.Orientation_FS = -1) ∧
    (specMX k k.Orientation_FN = -1 ∧ specMY k k.Orientation_FN = 1) := by
  obtain ⟨h1, h2, h3, h4, h5, h6, _⟩ := hk
  unfold specMX specMY
  simp [Ne.symm h1, Ne.symm h2, Ne.symm h3, Ne.symm h4, Ne.symm h5, Ne.symm h6, h6]

/-- Replacing the cell `ndi` by a cell of the same shape in a recognised orientation and
rewriting its pins by the sign changes between the two orientations keeps every cell
consistent. -/
theorem allConsistent_withCell (k : Consts) (ref : Nat → ℚ × ℚ) {arch : Architecture}
    {mgr : DetailedMgr} {nw : Network} {maskLen : Nat} (hd : DesignOk arch mgr nw maskLen)
    (hc : AllConsistent k ref nw) {ndi : Nat} {nd : Node}
    (hnd : nw.m_nodes[ndi]? = some nd) (f : Pin → Pin) (nd1 : Node)
    (hs : nd1.shape = nd.shape) (ho1 : k.IsOri nd1.currOrient)
    (hf : ∀ p : Pin,
      (f p).offsetX =
        ((specMX k nd1.currOrient * specMX k nd.currOrient : Int) : ℚ) * p.offsetX ∧
      (f p).offsetY =
        ((specMY k nd1.currOrient * specMY k nd.currOrient : Int) : ℚ) * p.offsetY) :
    AllConsistent k ref (nw.withCell f nd ndi nd1) := by
  obtain ⟨_, _, _, e1, e2⟩ := node_shape_eq hs
  have hp := (hd.wl ndi nd hnd).pinsOk
  intro c ndc hndc
  by_cases hcn : c = ndi
  · subst hcn
    rw [withCell_node f nd1 hnd] at hndc
    cases hndc
    refine ⟨ho1, fun a ha => ?_⟩
    have hown : ownedPins (nw.withCell f nd c nd1) nd1 = ownedPins nw nd :=
      ownedPins_congr rfl e1 e2
    rw [hown] at ha
    obtain ⟨p, h1, h2⟩ := applyAt_owned f hp (hd.nodup c nd hnd) ha
    obtain ⟨p', g1, g2, g3⟩ := (hc c nd hnd).2 a ha
    rw [h1] at g1
    cases g1
    refine ⟨f p, h2, ?_, ?_⟩
    · rw [(hf p).1, g2]
      rcases specMX_cases k nd.currOrient with h | h <;>
        rcases specMX_cases k nd1.currOrient with h' | h' <;> simp [h, h']
    · rw [(hf p).2, g3]
      rcases specMY_cases k nd.currOrient with h | h <;>
        rcases specMY_cases k nd1.currOrient with h' | h' <;> simp [h, h']
  · have hndc' : nw.m_nodes[c]? = some ndc := by
      simp only [Network.withCell] at hndc
      rw [List.getElem?_set_ne (Ne.symm hcn)] at hndc
      exact hndc
    obtain ⟨o1, o2⟩ := hc c ndc hndc'
    refine ⟨o1, fun a ha => ?_⟩
    have hown : ownedPins (nw.withCell f nd ndi nd1) ndc = ownedPins nw ndc :=
      ownedPins_congr rfl rfl rfl
    rw [hown] at ha
    obtain ⟨p, g1, g2, g3⟩ := o2 a ha
    refine ⟨p, ?_, g2, g3⟩
    simp only [Network.withCell]
    rw [applyAt_not_owned]
    · exact g1
    · intro ha2
      have e1 := (hd.owner c ndc a p hndc' g1).1 ha
      have e2 := (hd.owner ndi nd a p hnd g1).1 ha2
      exact hcn (e1.symm.trans e2)

theorem negY_signs (p : Pin) :
    (negY p).offsetX = ((1 : Int) : ℚ) * p.offsetX ∧
      (negY p).offsetY = ((-1 : Int) : ℚ) * p.offsetY := by
  simp [negY]

theorem negX_signs (p : Pin) :
    (negX p).offsetX = ((-1 : Int) : ℚ) * p.offsetX ∧
      (negX p).offsetY = ((1 : Int) : ℚ) * p.offsetY := by
  simp [negX]

/-- `orientCellForRow` on a well-formed design returns, keeps every cell consistent and
keeps the shape of the network. -/
theorem orientCellForRow_consistent (k : Consts) (hk : k.OriOk) (ref : Nat → ℚ × ℚ)
    {arch : Architecture} {mgr : DetailedMgr} {nw : Network} {maskLen : Nat}
    (hd : DesignOk arch mgr nw maskLen) (hc : AllConsistent k ref nw) {ndi row : Nat}
    (hndi : ndi < nw.m_nodes.length) (hrow : row < arch.m_rows.length) :
    ∃ b nw1, orientCellForRow k arch nw ndi row = some (b, nw1) ∧
      AllConsistent k ref nw1 ∧ SameShape nw nw1 := by
  have hnd : nw.m_nodes[ndi]? = some nw.m_nodes[ndi] := List.getElem?_eq_getElem hndi
  have hr : arch.m_rows[row]? = some arch.m_rows[row] := List.getElem?_eq_getElem hrow
  generalize nw.m_nodes[ndi] = nd at hnd
  generalize arch.m_rows[row] = r at hr
  have hp := (hd.wl ndi nd hnd).pinsOk
  obtain ⟨⟨n1, n2⟩, ⟨s1, s2⟩, ⟨fs1, fs2⟩, ⟨fn1, fn2⟩⟩ := specM_values k hk
  rw [orientCellForRow_eq k hr hnd hp]
  have key : ∀ o1 : Nat, k.IsOri o1 →
      specMX k o1 * specMX k nd.currOrient = 1 →
      specMY k o1 * specMY k nd.currOrient = -1 →
      AllConsistent k ref (nw.withCell negY nd ndi { nd with currOrient := o1 }) ∧
        SameShape nw (nw.withCell negY nd ndi { nd with currOrient := o1 }) := by
    intro o1 ho1 hx hy
    refine ⟨allConsistent_withCell k ref hd hc hnd negY _ rfl ho1 ?_,
      sameShape_withCell negY _ negY_shape hnd rfl⟩
    intro p
    simp only [hx, hy]
    exact negY_signs p
  split_ifs with c1 c2 c3 c4 c5 c6 c7 c8
  · exact ⟨_, _, rfl, hc, SameShape.refl nw⟩
  · obtain ⟨a, b⟩ := key k.Orientation_N (Or.inl rfl) (by rw [c3, n1, fs1]; rfl)
      (by rw [c3, n2, fs2]; rfl)
    exact ⟨_, _, rfl, a, b⟩
  · obtain ⟨a, b⟩ := key k.Orientation_FN (Or.inr (Or.inr (Or.inl rfl)))
      (by rw [c4, fn1, s1]; rfl) (by rw [c4, fn2, s2]; rfl)
    exact ⟨_, _, rfl, a, b⟩
  · exact ⟨_, _, rfl, hc, SameShape.refl nw⟩
  · exact ⟨_, _, rfl, hc, SameShape.refl nw⟩
  · obtain ⟨a, b⟩ := key k.Orientation_FS (Or.inr (Or.inr (Or.inr rfl)))
      (by rw [c7, fs1, n1]; rfl) (by rw [c7, fs2, n2]; rfl)
    exact ⟨_, _, rfl, a, b⟩
  · obtain ⟨a, b⟩ := key k.Orientation_S (Or.inr (Or.inl rfl))
      (by rw [c8, s1, fn1]; rfl) (by rw [c8, s2, fn2]; rfl)
    exact ⟨_, _, rfl, a, b⟩
  · exact ⟨_, _, rfl, hc, SameShape.refl nw⟩
  · exact ⟨_, _, rfl, hc, SameShape.refl nw⟩

/-- `orientAdjust` to a recognised orientation on a well-formed design returns and keeps
every cell consistent. -/
theorem orientAdjust_consistent (k : Consts) (ref : Nat → ℚ × ℚ)
    {arch : Architecture} {mgr : DetailedMgr} {nw : Network} {maskLen : Nat}
    (hd : DesignOk arch mgr nw maskLen) (hc : AllConsistent k ref nw) {ndi : Nat}
    (hndi : ndi < nw.m_nodes.length) {B : Nat} (hB : k.IsOri B) :
    ∃ b nw1, orientAdjust k nw ndi B = some (b, nw1) ∧ AllConsistent k ref nw1 := by
  have hnd : nw.m_nodes[ndi]? = some nw.m_nodes[ndi] := List.getElem?_eq_getElem hndi
  generalize nw.m_nodes[ndi] = nd at hnd
  have hp := (hd.wl ndi nd hnd).pinsOk
  by_cases hAB : nd.currOrient = B
  · subst hAB
    exact ⟨_, _, orientAdjust_same k hnd, hc⟩
  · rw [orientAdjust_eq k B hnd hp hAB, switchOri_two]
    refine ⟨_, _, rfl, ?_⟩
    apply allConsistent_withCell k ref hd hc hnd
    · split_ifs <;> rfl
    · split_ifs <;> exact hB
    · intro p
      have ho : (if specMX k nd.currOrient * specMX k B = -1 then
            ({ nd with currOrient := B, etl := nd.etr, etr := nd.etl } : Node)
          else { nd with currOrient := B }).currOrient = B := by
        split_ifs <;> rfl
      rw [ho, adjustPin_eq]
      rcases specMX_cases k nd.currOrient with h | h <;>
        rcases specMX_cases k B with h' | h' <;>
        rcases specMY_cases k nd.currOrient with g | g <;>
        rcases specMY_cases k B with g' | g' <;> simp [h, h', g, g']

theorem specM_vmirror (k : Consts) (hk : k.OriOk) {o : Nat} (ho : k.IsOri o) :
    k.IsOri (specVMirror k o) ∧
      specMX k (specVMirror k o) * specMX k o = -1 ∧
      specMY k (specVMirror k o) * specMY k o = 1 := by
  obtain ⟨⟨n1, n2⟩, ⟨s1, s2⟩, ⟨fs1, fs2⟩, ⟨fn1, fn2⟩⟩ := specM_values k hk
  obtain ⟨h1, h2, h3, h4, h5, h6, _⟩ := hk
  unfold Consts.IsOri at ho ⊢
  rcases ho with h | h | h | h
  · have : specVMirror k o = k.Orientation_FN := by
      unfold specVMirror; rw [if_pos h]
    rw [this, h, fn1, fn2, n1, n2]
    exact ⟨Or.inr (Or.inr (Or.inl rfl)), rfl, rfl⟩
  · have : specVMirror k o = k.Orientation_FS := by
      unfold specVMirror; rw [if_neg (by rw [h]; exact Ne.symm h1), if_pos h]
    rw [this, h, fs1, fs2, s1, s2]
    exact ⟨Or.inr (Or.inr (Or.inr rfl)), rfl, rfl⟩
  · have : specVMirror k o = k.Orientation_N := by
      unfold specVMirror
      rw [if_neg (by rw [h]; exact Ne.symm h2), if_neg (by rw [h]; exact Ne.symm h4), if_pos h]
    rw [this, h, fn1, fn2, n1, n2]
    exact ⟨Or.inl rfl, rfl, rfl⟩
  · have : specVMirror k o = k.Orientation_S := by
      unfold specVMirror
      rw [if_neg (by rw [h]; exact Ne.symm h3), if_neg (by rw [h]; exact Ne.symm h5),
        if_neg (by rw [h]; exact Ne.symm h6), if_pos h]
    rw [this, h, fs1, fs2, s1, s2]
    exact ⟨Or.inr (Or.inl rfl), rfl, rfl⟩

theorem orientNodesForRow_total (k : Consts) (arch : Architecture) (row : Nat)
    (Inv : Network → Prop) :
    ∀ (nodes : List Nat) (acc : Nat × Network),
      (∀ ndi ∈ nodes, ∀ nw, Inv nw →
        ∃ b nw1, orientCellForRow k arch nw ndi row = some (b, nw1) ∧ Inv nw1) →
      Inv acc.2 → ∃ res, orientNodesForRow k arch row nodes acc = some res ∧ Inv res.2
  | [], acc, _, h => ⟨acc, rfl, h⟩
  | ndi :: rest, (retval, nw), hstep, h => by
    obtain ⟨b, nw1, h1, h2⟩ := hstep ndi (List.mem_cons_self _ _) nw h
    obtain ⟨res, g1, g2⟩ := orientNodesForRow_total k arch row Inv rest
      (if b then retval else retval + 1, nw1)
      (fun n hn => hstep n (List.mem_cons_of_mem _ hn)) h2
    exact ⟨res, by simp [orientNodesForRow, h1, g1], g2⟩

theorem orientSegsForRow_total (k : Consts) (arch : Architecture) (mgr : DetailedMgr)
    (Inv : Network → Prop) :
    ∀ (segs : List DetailedSeg) (acc : Nat × Network),
      (∀ seg ∈ segs, ∃ nodes, mgr.m_cellsInSeg[seg.segId]? = some nodes ∧
        ∀ ndi ∈ nodes, ∀ nw, Inv nw →
          ∃ b nw1, orientCellForRow k arch nw ndi seg.rowId = some (b, nw1) ∧ Inv nw1) →
      Inv acc.2 → ∃ res, orientSegsForRow k arch mgr segs acc = some res ∧ Inv res.2
  | [], acc, _, h => ⟨acc, rfl, h⟩
  | seg :: rest, acc, hstep, h => by
    obtain ⟨nodes, hn, hb⟩ := hstep seg (List.mem_cons_self _ _)
    obtain ⟨acc1, h1, h2⟩ := orientNodesForRow_total k arch seg.rowId Inv nodes acc hb h
    obtain ⟨res, g1, g2⟩ := orientSegsForRow_total k arch mgr Inv rest acc1
      (fun s hs => hstep s (List.mem_cons_of_mem _ hs)) h2
    exact ⟨res, by simp [orientSegsForRow, hn, h1, g1], g2⟩

/-- C16.  Consistency of orientation and pin offsets is preserved by every operation, on a
well-formed design whose marks are at most the counter.  A cell is consistent when its
orientation `o` is one of N, S, FN, FS and each pin it owns has the offsets
`(mX(o) * x0, mY(o) * y0)` for the reference offsets `(x0, y0) = ref a` of the pin, with
N = (+1,+1), S = (-1,-1), FS = (+1,-1), FN = (-1,+1).  If every cell is consistent, then
`orientAdjust` of any cell to any target among N, S, FN, FS, `orientCellForRow` of any
cell for any row, `orientCellsForRow` and `flipCells` all return, and every cell is
consistent in the network they leave. -/
theorem consistency_preserved (k : Consts) (hk : k.OriOk) (getCellSpacing : Node → Node → ℚ)
    (arch : Architecture) (mgr : DetailedMgr) (self : DetailedOrient) (nw : Network)
    (ref : Nat → ℚ × ℚ) (hd : DesignOk arch mgr nw self.m_edgeMask.length)
    (hmask : MaskInv self) (hc : AllConsistent k ref nw) :
    (∀ ndi B, ndi < nw.m_nodes.length → k.IsOri B →
      ∃ b nw1, orientAdjust k nw ndi B = some (b, nw1) ∧ AllConsistent k ref nw1) ∧
    (∀ ndi row, ndi < nw.m_nodes.length → row < arch.m_rows.length →
      ∃ b nw1, orientCellForRow k arch nw ndi row = some (b, nw1) ∧
        AllConsistent k ref nw1) ∧
    (∃ n nw1, orientCellsForRow k arch mgr nw = some (n, nw1) ∧ AllConsistent k ref nw1) ∧
    (∃ st, flipCells k getCellSpacing arch mgr self nw = some st ∧
      AllConsistent k ref st.nw) := by
  refine ⟨?_, ?_, ?_, ?_⟩
  · intro ndi B hndi hB
    exact orientAdjust_consistent k ref hd hc hndi hB
  · intro ndi row hndi hrow
    obtain ⟨b, nw1, h1, h2, _⟩ := orientCellForRow_consistent k hk ref hd hc hndi hrow
    exact ⟨b, nw1, h1, h2⟩
  · let Inv : Network → Prop := fun nw1 =>
      DesignOk arch mgr nw1 self.m_edgeMask.length ∧ AllConsistent k ref nw1
    have hstep : ∀ seg ∈ mgr.m_segments, ∃ nodes, mgr.m_cellsInSeg[seg.segId]? = some nodes ∧
        ∀ ndi ∈ nodes, ∀ nw0, Inv nw0 →
          ∃ b nw1, orientCellForRow k arch nw0 ndi seg.rowId = some (b, nw1) ∧ Inv nw1 := by
      intro seg hseg
      obtain ⟨nodes, hn, _⟩ := hd.seg_cells seg hseg
      refine ⟨nodes, hn, ?_⟩
      rintro ndi hndi nw0 ⟨i1, i2⟩
      obtain ⟨nodes', hn', hlt⟩ := i1.seg_cells seg hseg
      rw [hn] at hn'
      cases hn'
      obtain ⟨r, hr⟩ := i1.seg_row seg hseg
      obtain ⟨b, nw1, h1, h2, h3⟩ := orientCellForRow_consistent k hk ref i1 i2
        (hlt ndi hndi) (lt_of_getElem?_eq_some hr)
      exact ⟨b, nw1, h1, i1.of_sameShape h3, h2⟩
    obtain ⟨res, h1, _, h3⟩ := orientSegsForRow_total k arch mgr Inv mgr.m_segments (0, nw)
      hstep ⟨hd, hc⟩
    exact ⟨res.1, res.2, h1, h3⟩
  · let Inv : FlipState → Prop := fun st =>
      DesignOk arch mgr st.nw st.self.m_edgeMask.length ∧ MaskInv st.self ∧
      AllConsistent k ref st.nw
    have hstep : ∀ seg ∈ mgr.m_segments, ∃ r, arch.m_rows[seg.rowId]? = some r ∧
        (r.m_siteSymmetry &&& k.Symmetry_Y ≠ 0 →
          ∃ nodes, mgr.m_cellsInSeg[seg.segId]? = some nodes ∧
            ∀ i s0, i < nodes.length → Inv s0 →
              ∃ s1, flipCell k getCellSpacing seg nodes i s0 = some s1 ∧ Inv s1) := by
      intro seg hseg
      obtain ⟨r, hr⟩ := hd.seg_row seg hseg
      refine ⟨r, hr, fun _ => ?_⟩
      obtain ⟨nodes, hn, _⟩ := hd.seg_cells seg hseg
      refine ⟨nodes, hn, ?_⟩
      rintro i st hi ⟨i1, i2, i3⟩
      obtain ⟨nodes', hn', hlt⟩ := i1.seg_cells seg hseg
      rw [hn] at hn'
      cases hn'
      obtain ⟨ndi, nd, ndl, ndr, acc, nets, _, g2, _, _, _, _, _, _, _, g10, g11, g12⟩ :=
        flipCell_spec k getCellSpacing seg i1 hlt hi i2
      obtain ⟨q1, _, q3⟩ :=
        visitResult_self k getCellSpacing seg st ndi nd ndl ndr g10 g11 i2
      have hss := visitResult_sameShape k getCellSpacing seg st ndl ndr acc g2
      refine ⟨_, g12, ?_, q3, ?_⟩
      · have := i1.of_sameShape hss
        rw [q1]
        exact this
      · unfold visitResult
        split_ifs with c1 c2
        · exact i3
        · obtain ⟨m1, m2, m3⟩ := specM_vmirror k hk c2.2
          apply allConsistent_withCell k ref i1 i3 g2 negX (flippedNode k nd) rfl m1
          intro p
          have e : (flippedNode k nd).currOrient = specVMirror k nd.currOrient := rfl
          rw [e, m2, m3]
          exact negX_signs p
        · exact i3
    obtain ⟨st, h1, _, _, h4⟩ := flipSegs_total k arch mgr (flipCell k getCellSpacing) Inv
      mgr.m_segments ⟨0, self, nw⟩ hstep ⟨hd, hmask, hc⟩
    exact ⟨st, h1, h4⟩

/-! ## The special-cased orientation changes and the general primitive -/

theorem adjustPin_one_neg : adjustPin 1 (-1) = negY := by
  funext p
  simp [adjustPin, negY]

theorem adjustPin_neg_one : adjustPin (-1) 1 = negX := by
  funext p
  simp [adjustPin, negX]

/-- `orientAdjust` from an orientation to one with the same X multiplier and the opposite
Y multiplier is the mirror about the horizontal axis made by `orientCellForRow`. -/
theorem orientAdjust_negY (k : Consts) {nw : Network} {ndi : Nat} {nd : Node} (B : Nat)
    (hnd : nw.m_nodes[ndi]? = some nd) (hp : PinsOk nw nd) (hne : nd.currOrient ≠ B)
    (hx : specMX k nd.currOrient * specMX k B = 1)
    (hy : specMY k nd.currOrient * specMY k B = -1) :
    orientAdjust k nw ndi B =
      some (false, nw.withCell negY nd ndi { nd with currOrient := B }) := by
  rw [orientAdjust_eq k B hnd hp hne, switchOri_two, hx, hy, adjustPin_one_neg]
  rfl

/-- `orientAdjust` from an orientation to one with the opposite X multiplier and the same
Y multiplier is the flip committed by `flipCells`. -/
theorem orientAdjust_negX (k : Consts) {nw : Network} {ndi : Nat} {nd : Node} (B : Nat)
    (hnd : nw.m_nodes[ndi]? = some nd) (hp : PinsOk nw nd) (hne : nd.currOrient ≠ B)
    (hx : specMX k nd.currOrient * specMX k B = -1)
    (hy : specMY k nd.currOrient * specMY k B = 1) :
    orientAdjust k nw ndi B =
      some (false, nw.withCell negX nd ndi
        { nd with currOrient := B, etl := nd.etr, etr := nd.etl }) := by
  rw [orientAdjust_eq k B hnd hp hne, switchOri_two, hx, hy, adjustPin_neg_one]
  rfl

/-- C19.  The special-cased orientation changes agree with the general primitive, on a
well-formed design whose marks are at most the counter.  (a) For every cell whose
orientation is one of N, S, FN, FS and every row whose orientation is one of N, FN, S, FS,
`orientFind` returns an orientation `o`, and the network left by `orientCellForRow` is the
network left by `orientAdjust(cell, o)`.  (b) For every visit of `flipCells` that flips
its cell, the network right after the visit is the network left by `orientAdjust` of the
cell to the vertical-axis mirror of its orientation (N with FN, S with FS). -/
theorem special_cases_agree_with_orientAdjust (k : Consts) (hk : k.OriOk)
    (getCellSpacing : Node → Node → ℚ) (arch : Architecture) (mgr : DetailedMgr)
    (self : DetailedOrient) (nw : Network)
    (hd : DesignOk arch mgr nw self.m_edgeMask.length) (hmask : MaskInv self) :
    (∀ (ndi row : Nat) (nd : Node) (r : Row), nw.m_nodes[ndi]? = some nd →
      arch.m_rows[row]? = some r → k.IsOri nd.currOrient → k.IsOri r.m_siteOrient →
      ∃ o b nw1, orientFind k arch nw ndi row = some (o, nw) ∧
        orientCellForRow k arch nw ndi row = some (b, nw1) ∧
        orientAdjust k nw ndi o = some (false, nw1)) ∧
    ∃ (log : List Visit) (st : FlipState),
      flipCellsVisits k getCellSpacing arch mgr self nw = some (log, st) ∧
      flipCells k getCellSpacing arch mgr self nw = some st ∧
      ∀ v ∈ log, v.flipped →
        ∃ (ndi : Nat) (nd : Node), v.nodes[v.i]? = some ndi ∧
          v.before.nw.m_nodes[ndi]? = some nd ∧
          orientAdjust k v.before.nw ndi (specVMirror k nd.currOrient) =
            some (false, v.after.nw) := by
  obtain ⟨⟨n1, n2⟩, ⟨s1, s2⟩, ⟨fs1, fs2⟩, ⟨fn1, fn2⟩⟩ := specM_values k hk
  refine ⟨?_, ?_⟩
  · intro ndi row nd r hnd hr hc hro
    have hp := (hd.wl ndi nd hnd).pinsOk
    obtain ⟨h1, h2, h3, h4, h5, h6, h7⟩ := hk
    rw [orientCellForRow_eq k hr hnd hp]
    unfold orientFind
    simp only [hr, hnd, Option.bind_eq_bind, Option.some_bind]
    unfold Consts.IsOri at hro hc
    unfold Consts.North
    have same := orientAdjust_same k hnd
    have toN := fun (e : nd.currOrient = k.Orientation_FS) =>
      orientAdjust_negY k k.Orientation_N hnd hp (by rw [e]; exact Ne.symm h3)
        (by rw [e, fs1, n1]; rfl) (by rw [e, fs2, n2]; rfl)
    have toFN := fun (e : nd.currOrient = k.Orientation_S) =>
      orientAdjust_negY k k.Orientation_FN hnd hp (by rw [e]; exact h4)
        (by rw [e, s1, fn1]; rfl) (by rw [e, s2, fn2]; rfl)
    have toFS := fun (e : nd.currOrient = k.Orientation_N) =>
      orientAdjust_negY k k.Orientation_FS hnd hp (by rw [e]; exact h3)
        (by rw [e, n1, fs1]; rfl) (by rw [e, n2, fs2]; rfl)
    have toS := fun (e : nd.currOrient = k.Orientation_FN) =>
      orientAdjust_negY k k.Orientation_S hnd hp (by rw [e]; exact Ne.symm h4)
        (by rw [e, fn1, s1]; rfl) (by rw [e, fn2, s2]; rfl)
    rcases hro with hro | hro | hro | hro <;> rcases hc with hc | hc | hc | hc <;>
      simp only [hro, hc, h1, h2, h3, h4, h5, h6, h7, Ne.symm h1, Ne.symm h2, Ne.symm h3,
        Ne.symm h4, Ne.symm h5, Ne.symm h6, if_true, if_false, true_or, or_true, or_self,
        ne_eq, not_false_eq_true, not_true_eq_false, pure] <;>
      first
        | exact ⟨_, _, _, rfl, rfl, hc ▸ same⟩
        | exact ⟨_, _, _, rfl, rfl, toN hc⟩
        | exact ⟨_, _, _, rfl, rfl, toFN hc⟩
        | exact ⟨_, _, _, rfl, rfl, toFS hc⟩
        | exact ⟨_, _, _, rfl, rfl, toS hc⟩
  · obtain ⟨log, st, r1, r2, _, _, _, _, _, r8, _, _⟩ :=
      flipCells_visits_spec k hk getCellSpacing hd hmask
    refine ⟨log, st, r1, r2, fun v hv hf => ?_⟩
    have hg := r8 v hv
    obtain ⟨ndi, nd, ndl, ndr, acc, nets, q1, q2, _, _, _, _, _, _, _, q10⟩ := hg.spec
    obtain ⟨_, _, _, _, g5, _, _⟩ := hg
    refine ⟨ndi, nd, q1, q2, ?_⟩
    have hp := (g5.wl ndi nd q2).pinsOk
    unfold Visit.flipped at hf
    rw [q10] at hf ⊢
    unfold visitResult at hf ⊢
    split_ifs at hf ⊢ with c1 c2
    · exact absurd rfl hf
    · obtain ⟨_, m2, m3⟩ := specM_vmirror k hk c2.2
      exact orientAdjust_negX k _ q2 hp (fun h => specVMirror_ne k hk c2.2 h.symm)
        (by rw [mul_comm]; exact m2) (by rw [mul_comm]; exact m3)
    · exact absurd rfl hf

/-! ## The sample design of the flip optimiser -/

theorem flipNetwork_edgePinsOk (o0 o1 : Nat) (edi : Edge)
    (h : edi ∈ (flipNetwork o0 o1).m_edges) : EdgePinsOk (flipNetwork o0 o1) edi := by
  simp only [flipNetwork, List.mem_cons, List.mem_singleton, List.not_mem_nil, or_false] at h
  intro pj h1 h2
  rcases h with h | h <;> subst h <;> simp only at h1 h2
  · interval_cases pj
    · exact ⟨0, _, _, rfl, rfl, rfl⟩
    · exact ⟨2, _, _, rfl, rfl, rfl⟩
  · interval_cases pj
    exact ⟨1, _, _, rfl, rfl, rfl⟩

/-- The sample design of the flip optimiser is well-formed, for every row orientation, row
symmetry and cell orientations. -/
theorem flipNetwork_designOk (ro sym o0 o1 : Nat) :
    DesignOk (sampleArch ro sym) sampleMgr (flipNetwork o0 o1) 2 where
  seg_row := by
    intro seg h
    simp only [sampleMgr, List.mem_singleton] at h
    subst h
    exact ⟨_, rfl⟩
  seg_cells := by
    intro seg h
    simp only [sampleMgr, List.mem_singleton] at h
    subst h
    refine ⟨[0, 1], rfl, ?_⟩
    intro c hc
    simp only [List.mem_cons, List.mem_singleton, List.not_mem_nil, or_false] at hc
    rcases hc with hc | hc <;> subst hc <;> simp [flipNetwork]
  wl := by
    intro c nd h
    match c, h with
    | 0, h =>
      simp only [flipNetwork, List.getElem?_cons_zero, Option.some.injEq] at h
      subst h
      intro pi h1 h2
      simp only at h1 h2
      interval_cases pi
      · exact ⟨0, _, ⟨0, 0, 2⟩, rfl, rfl, rfl, rfl, by simp [flipNetwork],
          flipNetwork_edgePinsOk o0 o1 _ (by simp [flipNetwork])⟩
      · exact ⟨1, _, ⟨1, 2, 3⟩, rfl, rfl, rfl, rfl, by simp [flipNetwork],
          flipNetwork_edgePinsOk o0 o1 _ (by simp [flipNetwork])⟩
    | 1, h =>
      simp only [flipNetwork, List.getElem?_cons_succ, List.getElem?_cons_zero,
        Option.some.injEq] at h
      subst h
      intro pi h1 h2
      simp only at h1 h2
      interval_cases pi
      exact ⟨2, _, ⟨0, 0, 2⟩, rfl, rfl, rfl, rfl, by simp [flipNetwork],
        flipNetwork_edgePinsOk o0 o1 _ (by simp [flipNetwork])⟩
    | c + 2, h => simp [flipNetwork] at h
  nodup := by
    intro c nd h
    match c, h with
    | 0, h =>
      simp only [flipNetwork, List.getElem?_cons_zero, Option.some.injEq] at h
      subst h
      simp [ownedPins, flipNetwork, List.range']
    | 1, h =>
      simp only [flipNetwork, List.getElem?_cons_succ, List.getElem?_cons_zero,
        Option.some.injEq] at h
      subst h
      simp [ownedPins, flipNetwork, List.range']
    | c + 2, h => simp [flipNetwork] at h
  owner := by
    intro c nd a p h hp
    have hp' : ∃ (ha : a < 3), p = [(⟨-1, 1, 0, 0⟩ : Pin), ⟨1, 1, 0, 1⟩, ⟨-1, 1, 1, 0⟩][a] := by
      have hlt : a < 3 := lt_of_getElem?_eq_some hp
      refine ⟨hlt, ?_⟩
      have := List.getElem?_eq_getElem (l := (flipNetwork o0 o1).m_pins) hlt
      rw [this] at hp
      exact (Option.some.inj hp).symm
    obtain ⟨ha, hp'⟩ := hp'
    match c, h with
    | 0, h =>
      simp only [flipNetwork, List.getElem?_cons_zero, Option.some.injEq] at h
      subst h
      interval_cases a <;> subst hp' <;> simp [ownedPins, flipNetwork, List.range']
    | 1, h =>
      simp only [flipNetwork, List.getElem?_cons_succ, List.getElem?_cons_zero,
        Option.some.injEq] at h
      subst h
      interval_cases a <;> subst hp' <;> simp [ownedPins, flipNetwork, List.range']
    | c + 2, h => simp [flipNetwork] at h

theorem roundingNetwork_edgePinsOk (edi : Edge)
    (h : edi ∈ roundingNetwork.m_edges) : EdgePinsOk roundingNetwork edi := by
  simp only [roundingNetwork, List.mem_cons, List.mem_singleton, List.not_mem_nil, or_false] at h
  intro pj h1 h2
  rcases h with h | h <;> subst h <;> simp only at h1 h2
  · interval_cases pj
    · exact ⟨0, _, _, rfl, rfl, rfl⟩
    · exact ⟨2, _, _, rfl, rfl, rfl⟩
  · interval_cases pj
    exact ⟨1, _, _, rfl, rfl, rfl⟩

/-- The design `roundingNetwork` is well-formed, for every row orientation and row
symmetry. -/
theorem roundingNetwork_designOk (ro sym : Nat) :
    DesignOk (sampleArch ro sym) sampleMgr roundingNetwork 2 where
  seg_row := by
    intro seg h
    simp only [sampleMgr, List.mem_singleton] at h
    subst h
    exact ⟨_, rfl⟩
  seg_cells := by
    intro seg h
    simp only [sampleMgr, List.mem_singleton] at h
    subst h
    refine ⟨[0, 1], rfl, ?_⟩
    intro c hc
    simp only [List.mem_cons, List.mem_singleton, List.not_mem_nil, or_false] at hc
    rcases hc with hc | hc <;> subst hc <;> simp [roundingNetwork]
  wl := by
    intro c nd h
    match c, h with
    | 0, h =>
      simp only [roundingNetwork, List.getElem?_cons_zero, Option.some.injEq] at h
      subst h
      intro pi h1 h2
      simp only at h1 h2
      interval_cases pi
      · exact ⟨0, _, ⟨0, 0, 2⟩, rfl, rfl, rfl, rfl, by simp [roundingNetwork],
          roundingNetwork_edgePinsOk _ (by simp [roundingNetwork])⟩
      · exact ⟨1, _, ⟨1, 2, 3⟩, rfl, rfl, rfl, rfl, by simp [roundingNetwork],
          roundingNetwork_edgePinsOk _ (by simp [roundingNetwork])⟩
    | 1, h =>
      simp only [roundingNetwork, List.getElem?_cons_succ, List.getElem?_cons_zero,
        Option.some.injEq] at h
      subst h
      intro pi h1 h2
      simp only at h1 h2
      interval_cases pi
      exact ⟨2, _, ⟨0, 0, 2⟩, rfl, rfl, rfl, rfl, by simp [roundingNetwork],
        roundingNetwork_edgePinsOk _ (by simp [roundingNetwork])⟩
    | c + 2, h => simp [roundingNetwork] at h
  nodup := by
    intro c nd h
    match c, h with
    | 0, h =>
      simp only [roundingNetwork, List.getElem?_cons_zero, Option.some.injEq] at h
      subst h
      simp [ownedPins, roundingNetwork, List.range']
    | 1, h =>
      simp only [roundingNetwork, List.getElem?_cons_succ, List.getElem?_cons_zero,
        Option.some.injEq] at h
      subst h
      simp [ownedPins, roundingNetwork, List.range']
    | c + 2, h => simp [roundingNetwork] at h
  owner := by
    intro c nd a p h hp
    have hp' : ∃ (ha : a < 3), p = [(⟨5 / 36028797018963968, 1, 0, 0⟩ : Pin), ⟨1, 1, 0, 1⟩, ⟨-1, 1, 1, 0⟩][a] := by
      have hlt : a < 3 := lt_of_getElem?_eq_some hp
      refine ⟨hlt, ?_⟩
      have := List.getElem?_eq_getElem (l := roundingNetwork.m_pins) hlt
      rw [this] at hp
      exact (Option.some.inj hp).symm
    obtain ⟨ha, hp'⟩ := hp'
    match c, h with
    | 0, h =>
      simp only [roundingNetwork, List.getElem?_cons_zero, Option.some.injEq] at h
      subst h
      interval_cases a <;> subst hp' <;> simp [ownedPins, roundingNetwork, List.range']
    | 1, h =>
      simp only [roundingNetwork, List.getElem?_cons_succ, List.getElem?_cons_zero,
        Option.some.injEq] at h
      subst h
      interval_cases a <;> subst hp' <;> simp [ownedPins, roundingNetwork, List.range']
    | c + 2, h => simp [roundingNetwork] at h

theorem init_maskInv (nw : Network) : MaskInv (DetailedOrient.init nw) := by
  intro m hm
  simp only [DetailedOrient.init] at hm ⊢
  rw [List.eq_of_mem_replicate hm]

theorem flipNetwork_edgeConsistent (o0 o1 : Nat) : EdgeConsistent (flipNetwork o0 o1) := by
  intro e edi pj b p he h1 h2 hb hp
  match e, he with
  | 0, he =>
    simp only [flipNetwork, List.getElem?_cons_zero, Option.some.injEq] at he
    subst he
    simp only at h1 h2
    interval_cases pj
    · simp only [flipNetwork, List.getElem?_cons_zero, Option.some.injEq] at hb
      subst hb
      simp only [flipNetwork, List.getElem?_cons_zero, Option.some.injEq] at hp
      subst hp
      rfl
    · simp only [flipNetwork, List.getElem?_cons_succ, List.getElem?_cons_zero,
        Option.some.injEq] at hb
      subst hb
      simp only [flipNetwork, List.getElem?_cons_succ, List.getElem?_cons_zero,
        Option.some.injEq] at hp
      subst hp
      rfl
  | 1, he =>
    simp only [flipNetwork, List.getElem?_cons_succ, List.getElem?_cons_zero,
      Option.some.injEq] at he
    subst he
    simp only at h1 h2
    interval_cases pj
    simp only [flipNetwork, List.getElem?_cons_succ, List.getElem?_cons_zero,
      Option.some.injEq] at hb
    subst hb
    simp only [flipNetwork, List.getElem?_cons_succ, List.getElem?_cons_zero,
      Option.some.injEq] at hp
    subst hp
    rfl
  | e + 2, he => simp [flipNetwork] at he

theorem flipNetworkAlt_agree (o0 o1 : Nat) :
    AgreeOffSkippedNets 100 (flipNetwork o0 o1) (flipNetworkAlt o0 o1) := by
  refine ⟨rfl, rfl, rfl, rfl, rfl, ?_⟩
  intro a p1 p2 h1 h2
  match a, h1, h2 with
  | 0, h1, h2 =>
    simp only [flipNetwork, flipNetworkAlt, List.getElem?_cons_zero, Option.some.injEq]
      at h1 h2
    subst h1 h2
    exact ⟨rfl, rfl, rfl, fun h => absurd rfl h⟩
  | 1, h1, h2 =>
    simp only [flipNetwork, flipNetworkAlt, List.getElem?_cons_succ,
      List.getElem?_cons_zero, Option.some.injEq] at h1 h2
    subst h1 h2
    exact ⟨rfl, rfl, rfl, fun _ => ⟨⟨1, 2, 3⟩, rfl, Or.inl (by decide)⟩⟩
  | 2, h1, h2 =>
    simp only [flipNetwork, flipNetworkAlt, List.getElem?_cons_succ,
      List.getElem?_cons_zero, Option.some.injEq] at h1 h2
    subst h1 h2
    exact ⟨rfl, rfl, rfl, fun h => absurd rfl h⟩
  | a + 3, h1, _ => simp [flipNetwork] at h1

theorem flipNetwork_consistent : AllConsistent sampleConsts flipRef (flipNetwork 1 1) := by
  intro c nd h
  match c, h with
  | 0, h =>
    simp only [flipNetwork, List.getElem?_cons_zero, Option.some.injEq] at h
    subst h
    refine ⟨by decide, ?_⟩
    intro a ha
    have ha' : a = 0 ∨ a = 1 := by
      simpa [ownedPins, flipNetwork, List.range'] using ha
    rcases ha' with ha' | ha' <;> subst ha'
    · exact ⟨_, rfl, by simp [specMX, sampleConsts, flipRef, flipNetwork],
        by simp [specMY, sampleConsts, flipRef, flipNetwork]⟩
    · exact ⟨_, rfl, by simp [specMX, sampleConsts, flipRef, flipNetwork],
        by simp [specMY, sampleConsts, flipRef, flipNetwork]⟩
  | 1, h =>
    simp only [flipNetwork, List.getElem?_cons_succ, List.getElem?_cons_zero,
      Option.some.injEq] at h
    subst h
    refine ⟨by decide, ?_⟩
    intro a ha
    have ha' : a = 2 := by
      simpa [ownedPins, flipNetwork, List.range'] using ha
    subst ha'
    exact ⟨_, rfl, by simp [specMX, sampleConsts, flipRef, flipNetwork],
      by simp [specMY, sampleConsts, flipRef, flipNetwork]⟩
  | c + 2, h => simp [flipNetwork] at h

/-! ## The legaliser and the symmetry oracle -/

/-- On a valid row and a valid cell in a recognised orientation, `orientCellForRow` leaves
the cell in N or FN when the row is in N or FN, and in S or FS otherwise. -/
theorem orientCellForRow_result (k : Consts) (hk : k.OriOk) {arch : Architecture}
    {nw : Network} {ndi row : Nat} {r : Row} {nd : Node}
    (hrow : arch.m_rows[row]? = some r) (hnd : nw.m_nodes[ndi]? = some nd)
    (hp : PinsOk nw nd) (hc : k.IsOri nd.currOrient) :
    ∃ b nw1 nd1, orientCellForRow k arch nw ndi row = some (b, nw1) ∧
      nw1.m_nodes[ndi]? = some nd1 ∧
      (k.North r.m_siteOrient → k.North nd1.currOrient) ∧
      (¬ k.North r.m_siteOrient → k.South nd1.currOrient) := by
  obtain ⟨h1, h2, h3, h4, h5, h6, h7⟩ := hk
  rw [orientCellForRow_eq k hrow hnd hp]
  unfold Consts.IsOri at hc
  unfold Consts.South
  split_ifs with c1 c2 c3 c4 c5 c6 c7 c8
  · exact ⟨_, _, _, rfl, hnd, fun _ => c2, fun h => absurd c1 h⟩
  · exact ⟨_, _, _, rfl, withCell_node negY _ hnd, fun _ => Or.inl rfl, fun h => absurd c1 h⟩
  · exact ⟨_, _, _, rfl, withCell_node negY _ hnd, fun _ => Or.inr rfl, fun h => absurd c1 h⟩
  · exfalso
    unfold Consts.North at c2
    rcases hc with h | h | h | h <;> simp [h] at c2 c3 c4
  · exact ⟨_, _, _, rfl, hnd, fun h => absurd h c1, fun _ => c6.symm⟩
  · exact ⟨_, _, _, rfl, withCell_node negY _ hnd, fun h => absurd h c1, fun _ => Or.inr rfl⟩
  · exact ⟨_, _, _, rfl, withCell_node negY _ hnd, fun h => absurd h c1, fun _ => Or.inl rfl⟩
  · exfalso
    rcases hc with h | h | h | h <;> simp [h] at c6 c7 c8
  · exact absurd (Or.inr h7) c5

/-- C20, as amended.  For every valid row whose orientation is N or FS and whose site
symmetry class is Y or `X | Y`, and every valid cell whose orientation is one of N, S, FN,
FS, `orientCellForRow` returns and the orientation it leaves on the cell is accepted by
`isLegalSym` for the orientation and the symmetry class of the row. -/
theorem orientCellForRow_accepted_by_isLegalSym (k : Consts) (hk : k.OriOk) (hs : k.SymOk)
    (arch : Architecture) (nw : Network) (ndi row : Nat) (r : Row) (nd : Node)
    (hrow : arch.m_rows[row]? = some r) (hnd : nw.m_nodes[ndi]? = some nd)
    (hp : PinsOk nw nd)
    (hr : r.m_siteOrient = k.Orientation_N ∨ r.m_siteOrient = k.Orientation_FS)
    (hsym : r.m_siteSymmetry = k.Symmetry_Y ∨
      r.m_siteSymmetry = (k.Symmetry_X ||| k.Symmetry_Y))
    (hc : k.IsOri nd.currOrient) :
    ∃ b nw1 nd1, orientCellForRow k arch nw ndi row = some (b, nw1) ∧
      nw1.m_nodes[ndi]? = some nd1 ∧
      isLegalSym k r.m_siteOrient r.m_siteSymmetry nd1.currOrient = true := by
  obtain ⟨b, nw1, nd1, g1, g2, g3, g4⟩ := orientCellForRow_result k hk hrow hnd hp hc
  refine ⟨b, nw1, nd1, g1, g2, ?_⟩
  obtain ⟨h1, h2, h3, h4, h5, h6, h7⟩ := hk
  obtain ⟨s1, s2, s3, s4, s5, s6⟩ := hs
  unfold Consts.North at g3 g4
  unfold Consts.South at g4
  unfold isLegalSym
  rcases hr with hr | hr
  · have hn := g3 (Or.inl hr)
    rcases hsym with hy | hy
    · rw [if_pos hy, if_pos hr, if_pos hn]
    · rw [hy, if_neg s3, if_neg s2, if_pos rfl, if_pos hr]
      rw [if_pos (by rcases hn with h | h <;> simp [h])]
  · have hnot : ¬ (r.m_siteOrient = k.Orientation_N ∨ r.m_siteOrient = k.Orientation_FN) := by
      rw [hr]
      rintro (h | h)
      · exact h3 h.symm
      · exact h6 h.symm
    have hso := g4 hnot
    have hrn : ¬ r.m_siteOrient = k.Orientation_N := by
      rw [hr]; exact fun h => h3 h.symm
    rcases hsym with hy | hy
    · rw [if_pos hy, if_neg hrn, if_pos hr, if_pos hso]
    · rw [hy, if_neg s3, if_neg s2, if_pos rfl, if_neg hrn, if_pos hr]
      rw [if_pos (by rcases hso with h | h <;> simp [h])]

/-- C20, the claim as stated fails.  In a row in N with symmetry class unknown, a cell in
FN is left in FN by `orientCellForRow`, and `isLegalSym` rejects FN for that row; in a row
in S with symmetry class Y, a cell in N is set to FS, and `isLegalSym` rejects FS for that
row. -/
theorem orientCellForRow_output_rejected :
    sampleConsts.IsOri 1 ∧ sampleConsts.IsOri 4 ∧ sampleConsts.IsOri 16 ∧
    (orientCellForRow sampleConsts (sampleArch 1 0) (sampleNetwork 16 1) 0 0).map
        (fun res => res.2.m_nodes.map Node.currOrient) = some [16, 1] ∧
    isLegalSym sampleConsts 1 0 16 = false ∧
    (orientCellForRow sampleConsts (sampleArch 4 2) (sampleNetwork 1 1) 0 0).map
        (fun res => res.2.m_nodes.map Node.currOrient) = some [64, 1] ∧
    isLegalSym sampleConsts 4 2 64 = false := by
  decide

/-! ## Spacing after a flip -/

/-- C12, the code at the failing input.  With the spacing rule `sampleSpacing` (a gap of 7
to the right of a cell whose right edge type is 1), cell 0 of the sample design has right
edge type 2 when it is visited, so no gap is required and `flipCells` flips it (one flip,
orientation FN, edge types exchanged to 2 and 1).  For the flipped cell the rule requires
a gap of 7 to the right neighbour, and the space to the right neighbour is 6. -/
theorem flipCells_flip_violates_spacing :
    (flipCells sampleConsts sampleSpacing (sampleArch 1 2) sampleMgr sampleSelf
        (flipNetwork 1 1)).map (fun st => (st.nflips, st.nw.m_nodes)) =
      some (1, [⟨0, 10, 4, 16, 0, 2, 2, 1⟩, ⟨1, 20, 4, 1, 2, 3, 0, 0⟩]) ∧
    gapr sampleSpacing ⟨0, 10, 4, 1, 0, 2, 1, 2⟩ (some ⟨1, 20, 4, 1, 2, 3, 0, 0⟩) = 0 ∧
    gapr sampleSpacing ⟨0, 10, 4, 16, 0, 2, 2, 1⟩ (some ⟨1, 20, 4, 1, 2, 3, 0, 0⟩) = 7 ∧
    spacer ⟨0, 0, 0, 100⟩ ⟨0, 10, 4, 16, 0, 2, 2, 1⟩ (some ⟨1, 20, 4, 1, 2, 3, 0, 0⟩) = 6 := by
  decide!

/-! ## Evaluation of the statements about the flip optimiser on the sample design -/

/-- C11 (amended) at a concrete input: the design `roundingNetwork`, in a row with Y
symmetry, from the constructor state. -/
theorem flipCells_reduces_wirelength_witness :
    sampleConsts.OriOk ∧
    DesignOk (sampleArch 1 2) sampleMgr roundingNetwork (DetailedOrient.init roundingNetwork).m_edgeMask.length ∧
    MaskInv (DetailedOrient.init roundingNetwork) ∧
    (∃ (log : List Visit) (st : FlipState),
        flipCellsVisits sampleConsts noSpacing (sampleArch 1 2) sampleMgr (DetailedOrient.init roundingNetwork) roundingNetwork = some (log, st) ∧
        flipCells sampleConsts noSpacing (sampleArch 1 2) sampleMgr (DetailedOrient.init roundingNetwork) roundingNetwork = some st ∧
        ∀ v ∈ log, v.flipped →
          ∃ (ndi : Nat) (nd : Node) (nets : List Nat),
            v.nodes[v.i]? = some ndi ∧ v.before.nw.m_nodes[ndi]? = some nd ∧ nets.Nodup ∧
            (∀ e, e ∈ nets ↔ Touches v.before.nw nd e ∧
              SmallNet v.before.self.m_skipNetsLargerThanThis v.before.nw e) ∧
            wlSum (netSpan v.after.nw) 0 nets < wlSum (netSpan v.before.nw) 0 nets) :=
  ⟨by decide, roundingNetwork_designOk 1 2, init_maskInv _,
    flipCells_reduces_wirelength sampleConsts (by decide) noSpacing (sampleArch 1 2) sampleMgr (DetailedOrient.init roundingNetwork)
      roundingNetwork (roundingNetwork_designOk 1 2) (init_maskInv _)⟩

/-- C13 at a concrete input: the sample design of the flip optimiser with a row whose symmetry mask is X only. -/
theorem flipCells_skips_rows_without_Y_witness :
    sampleConsts.OriOk ∧
    DesignOk (sampleArch 1 1) sampleMgr (flipNetwork 1 1) sampleSelf.m_edgeMask.length ∧
    MaskInv sampleSelf ∧
    ((∀ (seg : DetailedSeg) (rest : List DetailedSeg) (r : Row) (st : FlipState),
        (sampleArch 1 1).m_rows[seg.rowId]? = some r → r.m_siteSymmetry &&& sampleConsts.Symmetry_Y = 0 →
        flipSegs sampleConsts (sampleArch 1 1) sampleMgr (flipCell sampleConsts noSpacing) (seg :: rest) st =
          flipSegs sampleConsts (sampleArch 1 1) sampleMgr (flipCell sampleConsts noSpacing) rest st) ∧
      flipCells sampleConsts noSpacing (sampleArch 1 1) sampleMgr sampleSelf (flipNetwork 1 1) =
        flipCells sampleConsts noSpacing (sampleArch 1 1)
          { sampleMgr with m_segments := sampleMgr.m_segments.filter fun seg =>
              match (sampleArch 1 1).m_rows[seg.rowId]? with
              | some r => decide (r.m_siteSymmetry &&& sampleConsts.Symmetry_Y ≠ 0)
              | none => true } sampleSelf (flipNetwork 1 1) ∧
      ((∀ seg ∈ sampleMgr.m_segments, ∀ r, (sampleArch 1 1).m_rows[seg.rowId]? = some r →
          r.m_siteSymmetry &&& sampleConsts.Symmetry_Y = 0) →
        flipCells sampleConsts noSpacing (sampleArch 1 1) sampleMgr sampleSelf (flipNetwork 1 1) = some ⟨0, sampleSelf, (flipNetwork 1 1)⟩) ∧
      ∃ st, flipCells sampleConsts noSpacing (sampleArch 1 1) sampleMgr sampleSelf (flipNetwork 1 1) = some st ∧
        ∀ (c : Nat) (ndc : Node), (flipNetwork 1 1).m_nodes[c]? = some ndc →
          (∀ seg ∈ sampleMgr.m_segments, ∀ (r : Row) (nodes : List Nat),
            (sampleArch 1 1).m_rows[seg.rowId]? = some r → r.m_siteSymmetry &&& sampleConsts.Symmetry_Y ≠ 0 →
            sampleMgr.m_cellsInSeg[seg.segId]? = some nodes → c ∉ nodes) →
          st.nw.m_nodes[c]? = some ndc ∧
            ∀ a ∈ ownedPins (flipNetwork 1 1) ndc, st.nw.m_pins[a]? = (flipNetwork 1 1).m_pins[a]?) :=
  ⟨by decide, flipNetwork_designOk 1 1 1 1, init_maskInv _,
    flipCells_skips_rows_without_Y sampleConsts (by decide) noSpacing (sampleArch 1 1) sampleMgr sampleSelf
      (flipNetwork 1 1) (flipNetwork_designOk 1 1 1 1) (init_maskInv _)⟩

/-- C17 at a concrete input: the sample design of the flip optimiser, in a row with Y symmetry, from the constructor state. -/
theorem flipCells_acceptance_witness :
    sampleConsts.OriOk ∧
    DesignOk (sampleArch 1 2) sampleMgr (flipNetwork 1 1) sampleSelf.m_edgeMask.length ∧
    MaskInv sampleSelf ∧
    (∃ (log : List Visit) (st : FlipState),
        flipCellsVisits sampleConsts noSpacing (sampleArch 1 2) sampleMgr sampleSelf (flipNetwork 1 1) = some (log, st) ∧
        flipCells sampleConsts noSpacing (sampleArch 1 2) sampleMgr sampleSelf (flipNetwork 1 1) = some st ∧
        st.nflips = (log.filter fun v => decide v.flipped).length ∧
        ∀ v ∈ log,
          (∃ r, (sampleArch 1 2).m_rows[v.segment.rowId]? = some r ∧
            r.m_siteSymmetry &&& sampleConsts.Symmetry_Y ≠ 0) ∧
          ∃ (ndi : Nat) (nd : Node) (ndl ndr : Option Node) (acc : WlAcc),
            v.nodes[v.i]? = some ndi ∧ v.before.nw.m_nodes[ndi]? = some nd ∧
            neighbour v.before.nw v.nodes (v.i = 0) (v.i - 1) = some ndl ∧
            neighbour v.before.nw v.nodes (v.i = v.nodes.length - 1) (v.i + 1) = some ndr ∧
            wlLoop v.before.self.m_skipNetsLargerThanThis v.before.nw ndi nd
              (v.before.self.m_traversal + 1) v.before.self.m_edgeMask = some acc ∧
            (sampleConsts.IsOri nd.currOrient →
              (v.flipped ↔
                (gapl noSpacing ndl nd ≤ spacel v.segment ndl nd ∧
                  gapr noSpacing nd ndr ≤ spacer v.segment nd ndr ∧
                  acc.new_wl < acc.old_wl))) ∧
            (v.flipped →
              v.after.nflips = v.before.nflips + 1 ∧
              v.after.nw.m_nodes[ndi]? = some (flippedNode sampleConsts nd) ∧
              VMirror sampleConsts nd.currOrient (flippedNode sampleConsts nd).currOrient ∧
              (∀ a ∈ ownedPins v.before.nw nd, ∃ p, v.before.nw.m_pins[a]? = some p ∧
                v.after.nw.m_pins[a]? = some { p with offsetX := -p.offsetX }) ∧
              (∀ a, a ∉ ownedPins v.before.nw nd →
                v.after.nw.m_pins[a]? = v.before.nw.m_pins[a]?) ∧
              (∀ c, c ≠ ndi → v.after.nw.m_nodes[c]? = v.before.nw.m_nodes[c]?)) ∧
            (¬ v.flipped → v.after.nflips = v.before.nflips ∧ v.after.nw = v.before.nw)) :=
  ⟨by decide, flipNetwork_designOk 1 2 1 1, init_maskInv _,
    flipCells_acceptance sampleConsts (by decide) noSpacing (sampleArch 1 2) sampleMgr sampleSelf
      (flipNetwork 1 1) (flipNetwork_designOk 1 2 1 1) (init_maskInv _)⟩

/-- C18 at a concrete input: the sample design of the flip optimiser; net 0 is evaluated for cell 0 and again for cell 1. -/
theorem flipCells_each_net_once_witness :
    sampleConsts.OriOk ∧
    DesignOk (sampleArch 1 2) sampleMgr (flipNetwork 1 1) sampleSelf.m_edgeMask.length ∧
    MaskInv sampleSelf ∧
    (MaskInv (DetailedOrient.init (flipNetwork 1 1)) ∧
      ∃ (log : List Visit) (st : FlipState),
        flipCellsVisits sampleConsts noSpacing (sampleArch 1 2) sampleMgr sampleSelf (flipNetwork 1 1) = some (log, st) ∧
        flipCells sampleConsts noSpacing (sampleArch 1 2) sampleMgr sampleSelf (flipNetwork 1 1) = some st ∧
        MaskInv st.self ∧ DesignOk (sampleArch 1 2) sampleMgr st.nw st.self.m_edgeMask.length ∧
        ∀ v ∈ log, MaskInv v.before.self ∧
          ∃ (ndi : Nat) (nd : Node) (acc : WlAcc) (nets : List Nat),
            v.nodes[v.i]? = some ndi ∧ v.before.nw.m_nodes[ndi]? = some nd ∧
            wlLoop v.before.self.m_skipNetsLargerThanThis v.before.nw ndi nd
              (v.before.self.m_traversal + 1) v.before.self.m_edgeMask = some acc ∧
            nets.Nodup ∧
            (∀ e, e ∈ nets ↔ Touches v.before.nw nd e ∧
              SmallNet v.before.self.m_skipNetsLargerThanThis v.before.nw e) ∧
            acc.old_wl = wlSum (netSpan v.before.nw) 0 nets ∧
            acc.new_wl = wlSum (hypSpan v.before.nw ndi) 0 nets) :=
  ⟨by decide, flipNetwork_designOk 1 2 1 1, init_maskInv _,
    flipCells_each_net_once sampleConsts (by decide) noSpacing (sampleArch 1 2) sampleMgr sampleSelf
      (flipNetwork 1 1) (flipNetwork_designOk 1 2 1 1) (init_maskInv _)⟩

/-- C19 at a concrete input: the sample design of the flip optimiser, in a row with Y symmetry. -/
theorem special_cases_agree_with_orientAdjust_witness :
    sampleConsts.OriOk ∧
    DesignOk (sampleArch 1 2) sampleMgr (flipNetwork 1 1) sampleSelf.m_edgeMask.length ∧
    MaskInv sampleSelf ∧
    ((∀ (ndi row : Nat) (nd : Node) (r : Row), (flipNetwork 1 1).m_nodes[ndi]? = some nd →
        (sampleArch 1 2).m_rows[row]? = some r → sampleConsts.IsOri nd.currOrient → sampleConsts.IsOri r.m_siteOrient →
        ∃ o b nw1, orientFind sampleConsts (sampleArch 1 2) (flipNetwork 1 1) ndi row = some (o, (flipNetwork 1 1)) ∧
          orientCellForRow sampleConsts (sampleArch 1 2) (flipNetwork 1 1) ndi row = some (b, nw1) ∧
          orientAdjust sampleConsts (flipNetwork 1 1) ndi o = some (false, nw1)) ∧
      ∃ (log : List Visit) (st : FlipState),
        flipCellsVisits sampleConsts noSpacing (sampleArch 1 2) sampleMgr sampleSelf (flipNetwork 1 1) = some (log, st) ∧
        flipCells sampleConsts noSpacing (sampleArch 1 2) sampleMgr sampleSelf (flipNetwork 1 1) = some st ∧
        ∀ v ∈ log, v.flipped →
          ∃ (ndi : Nat) (nd : Node), v.nodes[v.i]? = some ndi ∧
            v.before.nw.m_nodes[ndi]? = some nd ∧
            orientAdjust sampleConsts v.before.nw ndi (specVMirror sampleConsts nd.currOrient) =
              some (false, v.after.nw)) :=
  ⟨by decide, flipNetwork_designOk 1 2 1 1, init_maskInv _,
    special_cases_agree_with_orientAdjust sampleConsts (by decide) noSpacing (sampleArch 1 2) sampleMgr sampleSelf
      (flipNetwork 1 1) (flipNetwork_designOk 1 2 1 1) (init_maskInv _)⟩

/-- C16 at a concrete input: the sample design of the flip optimiser with both cells in N, in a row in S. -/
theorem consistency_preserved_witness :
    sampleConsts.OriOk ∧
    DesignOk (sampleArch 4 2) sampleMgr (flipNetwork 1 1) sampleSelf.m_edgeMask.length ∧
    MaskInv sampleSelf ∧
    AllConsistent sampleConsts flipRef (flipNetwork 1 1) ∧
    ((∀ ndi B, ndi < (flipNetwork 1 1).m_nodes.length → sampleConsts.IsOri B →
        ∃ b nw1, orientAdjust sampleConsts (flipNetwork 1 1) ndi B = some (b, nw1) ∧ AllConsistent sampleConsts flipRef nw1) ∧
      (∀ ndi row, ndi < (flipNetwork 1 1).m_nodes.length → row < (sampleArch 4 2).m_rows.length →
        ∃ b nw1, orientCellForRow sampleConsts (sampleArch 4 2) (flipNetwork 1 1) ndi row = some (b, nw1) ∧
          AllConsistent sampleConsts flipRef nw1) ∧
      (∃ n nw1, orientCellsForRow sampleConsts (sampleArch 4 2) sampleMgr (flipNetwork 1 1) = some (n, nw1) ∧ AllConsistent sampleConsts flipRef nw1) ∧
      (∃ st, flipCells sampleConsts noSpacing (sampleArch 4 2) sampleMgr sampleSelf (flipNetwork 1 1) = some st ∧
        AllConsistent sampleConsts flipRef st.nw)) :=
  ⟨by decide, flipNetwork_designOk 4 2 1 1, init_maskInv _, flipNetwork_consistent,
    consistency_preserved sampleConsts (by decide) noSpacing (sampleArch 4 2) sampleMgr sampleSelf
      (flipNetwork 1 1) flipRef (flipNetwork_designOk 4 2 1 1) (init_maskInv _)
      flipNetwork_consistent⟩

/-- C14 at a concrete input: the sample design and the same design with another X offset for the pin of the one-pin net 1. -/
theorem flipCells_ignores_skipped_nets_witness :
    sampleConsts.OriOk ∧
    DesignOk (sampleArch 1 2) sampleMgr (flipNetwork 1 1) sampleSelf.m_edgeMask.length ∧
    MaskInv sampleSelf ∧
    EdgeConsistent (flipNetwork 1 1) ∧
    AgreeOffSkippedNets sampleSelf.m_skipNetsLargerThanThis (flipNetwork 1 1) (flipNetworkAlt 1 1) ∧
    (∃ (log1 log2 : List Visit) (st1 st2 : FlipState),
        flipCellsVisits sampleConsts noSpacing (sampleArch 1 2) sampleMgr sampleSelf (flipNetwork 1 1) = some (log1, st1) ∧
        flipCellsVisits sampleConsts noSpacing (sampleArch 1 2) sampleMgr sampleSelf (flipNetworkAlt 1 1) = some (log2, st2) ∧
        List.Forall₂ SameDecision log1 log2 ∧
        st2.nflips = st1.nflips ∧ st2.self = st1.self ∧
        AgreeOffSkippedNets sampleSelf.m_skipNetsLargerThanThis st1.nw st2.nw) :=
  ⟨by decide, flipNetwork_designOk 1 2 1 1, init_maskInv _, flipNetwork_edgeConsistent 1 1, flipNetworkAlt_agree 1 1,
    flipCells_ignores_skipped_nets sampleConsts (by decide) noSpacing (sampleArch 1 2) sampleMgr sampleSelf
      (flipNetwork 1 1) (flipNetworkAlt 1 1) (flipNetwork_designOk 1 2 1 1) (init_maskInv _)
      (flipNetwork_edgeConsistent 1 1) (flipNetworkAlt_agree 1 1)⟩

/-- C20 (amended) at a concrete input: a cell in N in a row in FS with symmetry class X | Y. -/
theorem orientCellForRow_accepted_by_isLegalSym_witness :
    sampleConsts.OriOk ∧
    sampleConsts.SymOk ∧
    PinsOk (sampleNetwork 1 1) (sampleCell 1) ∧
    sampleConsts.IsOri (sampleCell 1).currOrient ∧
    (∃ b nw1 nd1, orientCellForRow sampleConsts (sampleArch 64 3) (sampleNetwork 1 1) 0 0 = some (b, nw1) ∧
        nw1.m_nodes[0]? = some nd1 ∧
        isLegalSym sampleConsts (⟨64, 3⟩ : Row).m_siteOrient (⟨64, 3⟩ : Row).m_siteSymmetry nd1.currOrient = true) :=
  ⟨by decide, by decide, by decide, by decide,
    orientCellForRow_accepted_by_isLegalSym sampleConsts (by decide) (by decide) (sampleArch 64 3)
      (sampleNetwork 1 1) 0 0 ⟨64, 3⟩ (sampleCell 1) rfl rfl (by decide) (by decide) (by decide)
      (by decide)⟩
end dpo
